import Mathlib

/-!
# farmops: proof ledger and trust engine

A shallow embedding of the Go packages `pkg/proof` (proof model, canonical
payload, hash chain, signatures), `pkg/storage` (ledger, trust store, farm
aggregate), `pkg/scoring` (coin calculation), the handlers of
`cmd/tracker/internal/api` and the proof building of the agent's watcher,
with theorems about them.

Conventions of the embedding.

* A Go `string` is a Lean `String` (Unicode text, which is what decoding a
  JSON document yields); a `[]byte` holding raw binary data (keys, digests,
  signatures) is a `List Byte`; a `[]byte` holding JSON text is the
  `List Char` of that text, whose UTF-8 bytes are in one-to-one correspondence
  with it. A Go `int` or `int64` is an `Int`; the sums that accumulate the
  farm totals are taken in 64-bit arithmetic (`addInt`).
* The `float64` arithmetic of the platform is a parameter, `FloatOps`, and a
  finite `float64` value is the rational number it denotes.
* A Go `error` result is an `Except`, or an `Option` where only the fact of
  the error is used; a nil pointer is `none`.
* A `time.Time` is an instant in UTC in civil form, the only form the
  program creates (`time.Now().UTC()`).
* The cryptographic primitives of the Go standard library (SHA-256, Ed25519)
  are a parameter, `Primitives`; what a theorem assumes about them is stated
  as an explicit hypothesis. Keys are taken to have the sizes the library
  requires.
* The clock, the identifier generator and the failures of the storage engine
  are inputs of the operations that consult them.
-/

namespace FarmOps

/-! ## Bytes and hexadecimal text (`encoding/hex`) -/

/-- One octet. -/
abbrev Byte := Fin 256

/-- The lower-case hexadecimal digit of a value below 16 (`hextable`). -/
def hexDigit (n : Nat) : Char :=
  match n with
  | 0 => '0' | 1 => '1' | 2 => '2' | 3 => '3' | 4 => '4' | 5 => '5' | 6 => '6' | 7 => '7'
  | 8 => '8' | 9 => '9' | 10 => 'a' | 11 => 'b' | 12 => 'c' | 13 => 'd' | 14 => 'e' | _ => 'f'

/-- The value of a hexadecimal digit, either case (`fromHexChar`). -/
def fromHexChar (c : Char) : Option (Fin 16) :=
  if c = '0' then some 0 else if c = '1' then some 1 else if c = '2' then some 2
  else if c = '3' then some 3 else if c = '4' then some 4 else if c = '5' then some 5
  else if c = '6' then some 6 else if c = '7' then some 7 else if c = '8' then some 8
  else if c = '9' then some 9
  else if c = 'a' ∨ c = 'A' then some 10 else if c = 'b' ∨ c = 'B' then some 11
  else if c = 'c' ∨ c = 'C' then some 12 else if c = 'd' ∨ c = 'D' then some 13
  else if c = 'e' ∨ c = 'E' then some 14 else if c = 'f' ∨ c = 'F' then some 15
  else none

/-- The two hexadecimal digits of one byte. -/
def hexByte (b : Byte) : List Char := [hexDigit (b.val / 16), hexDigit (b.val % 16)]

/-- The text of `hex.EncodeToString`. -/
def hexEncodeChars : List Byte → List Char
  | [] => []
  | b :: bs => hexByte b ++ hexEncodeChars bs

/-- `hex.EncodeToString`. -/
def hexEncode (bs : List Byte) : String := String.mk (hexEncodeChars bs)

/-- `hex.DecodeString` on the characters of its argument: `none` stands for
its error result (odd length or a character that is no hexadecimal digit). -/
def hexDecodeChars : List Char → Option (List Byte)
  | [] => some []
  | [_] => none
  | a :: b :: rest =>
    match fromHexChar a, fromHexChar b, hexDecodeChars rest with
    | some hi, some lo, some bs => some (⟨hi.val * 16 + lo.val, by omega⟩ :: bs)
    | _, _, _ => none

/-- `hex.DecodeString`. -/
def hexDecode (s : String) : Option (List Byte) := hexDecodeChars s.data

/-! ## Decimal numbers (`strconv`) -/

/-- The decimal digit of a value below 10. -/
def decDigit (n : Nat) : Char :=
  match n with
  | 0 => '0' | 1 => '1' | 2 => '2' | 3 => '3' | 4 => '4'
  | 5 => '5' | 6 => '6' | 7 => '7' | 8 => '8' | _ => '9'

/-- The digits of `n`, least significant first, with `fuel` bounding their
number. -/
def decRev : Nat → Nat → List Char
  | 0, _ => []
  | fuel + 1, n => decDigit (n % 10) :: (if n / 10 = 0 then [] else decRev fuel (n / 10))

/-- The decimal text of a natural number, without leading zeros. -/
def natDec (n : Nat) : List Char := (decRev (n + 1) n).reverse

/-- The decimal text of an integer (`strconv.AppendInt(_, i, 10)`). -/
def intDec (i : Int) : List Char :=
  if i < 0 then '-' :: natDec i.natAbs else natDec i.toNat

/-- Two decimal digits, zero padded. -/
def pad2 (n : Nat) : List Char := [decDigit (n / 10 % 10), decDigit (n % 10)]

/-- Four decimal digits, zero padded. -/
def pad4 (n : Nat) : List Char :=
  [decDigit (n / 1000 % 10), decDigit (n / 100 % 10), decDigit (n / 10 % 10), decDigit (n % 10)]

/-! ## Instants (`time.Time` in UTC) -/

/-- An instant in UTC, in civil form: what `time.Now().UTC()` yields and what
an RFC 3339 text ending in `Z` denotes. `month` and `day` count from 0
(January, the first of the month). -/
structure Time where
  year : Int
  month : Fin 12
  day : Fin 31
  hour : Fin 24
  minute : Fin 60
  second : Fin 60
  nano : Fin 1000000000
deriving DecidableEq, Repr

/-- The zero value `time.Time{}`: January 1, year 1, 00:00:00 UTC. -/
def Time.zero : Time := ⟨1, 0, 0, 0, 0, 0, 0⟩

/-- The nine decimal digits of a nanosecond count, most significant first. -/
def nanoDigits (n : Nat) : List Nat :=
  [n / 100000000 % 10, n / 10000000 % 10, n / 1000000 % 10, n / 100000 % 10,
   n / 10000 % 10, n / 1000 % 10, n / 100 % 10, n / 10 % 10, n % 10]

/-- Drops the zeros at the end of a digit list. -/
def stripZeros (ds : List Nat) : List Nat :=
  (ds.reverse.dropWhile (fun d => d == 0)).reverse

/-- The fractional-second part of the RFC 3339 text in layout
`.999999999`: nothing when the nanoseconds are zero, otherwise a dot and the
digits without trailing zeros. -/
def formatFrac (n : Nat) : List Char :=
  if n = 0 then [] else '.' :: (stripZeros (nanoDigits n)).map decDigit

/-- The RFC 3339 text of a UTC instant with nanoseconds (`time.RFC3339Nano`). -/
def formatRFC3339 (t : Time) : List Char :=
  pad4 t.year.toNat ++ '-' :: pad2 (t.month.val + 1) ++ '-' :: pad2 (t.day.val + 1)
    ++ 'T' :: pad2 t.hour.val ++ ':' :: pad2 t.minute.val ++ ':' :: pad2 t.second.val
    ++ formatFrac t.nano.val ++ ['Z']

/-- `Time.MarshalJSON`: the quoted RFC 3339 text; an error (`none`) when the
year is outside 0 to 9999. -/
def Time.marshalJSON (t : Time) : Option (List Char) :=
  if 0 ≤ t.year ∧ t.year ≤ 9999 then some ('"' :: formatRFC3339 t ++ ['"']) else none

/-! ## JSON values (`encoding/json`, with HTML escaping as `json.Marshal` does) -/

/-- The JSON text of one character of a string: the short escapes, the
six-character form `\u00XX` for the other control characters and for `<`,
`>` and `&`, the six-character forms for the line separator U+2028 and the
paragraph separator U+2029, and the character itself otherwise. -/
def escChar (c : Char) : List Char :=
  if c = '"' then ['\\', '"']
  else if c = '\\' then ['\\', '\\']
  else if c = '\x08' then ['\\', 'b']
  else if c = '\x0c' then ['\\', 'f']
  else if c = '\n' then ['\\', 'n']
  else if c = '\r' then ['\\', 'r']
  else if c = '\t' then ['\\', 't']
  else if c.toNat < 32 ∨ c = '<' ∨ c = '>' ∨ c = '&' then
    ['\\', 'u', '0', '0', hexDigit (c.toNat / 16), hexDigit (c.toNat % 16)]
  else if c = Char.ofNat 0x2028 then ['\\', 'u', '2', '0', '2', '8']
  else if c = Char.ofNat 0x2029 then ['\\', 'u', '2', '0', '2', '9']
  else [c]

/-- The escaped body of a JSON string. -/
def escChars : List Char → List Char
  | [] => []
  | c :: cs => escChar c ++ escChars cs

/-- The JSON text of a string value. -/
def jsonString (s : String) : List Char := '"' :: escChars s.data ++ ['"']

/-- The JSON text of a boolean value. -/
def jsonBool (b : Bool) : List Char :=
  if b then ['t', 'r', 'u', 'e'] else ['f', 'a', 'l', 's', 'e']

/-! ## The proof model (`pkg/proof/proof.go`) -/

/-- The current FarmProof schema version. -/
def Version : String := "1"

/-- Outcome status `success`. -/
def OutcomeSuccess : String := "success"

/-- Identifies the agent that produced the proof. -/
structure AgentInfo where
  AgentID : String
  ClusterAlias : String
deriving DecidableEq, Repr

/-- Identifies who performed the action. -/
structure ActorInfo where
  ActorHash : String
  ActorType : String
deriving DecidableEq, Repr

/-- Describes what happened. -/
structure ActionInfo where
  Plugin : String
  ActionType : String
  Category : String
  Subcategory : String
  Description : String
deriving DecidableEq, Repr

/-- Describes the result of the action. -/
structure OutcomeInfo where
  Status : String
  Verified : Bool
  EvidenceHash : String
deriving DecidableEq, Repr

/-- Context for the coin calculation. -/
structure ScoringHints where
  Complexity : String
  ImpactRadius : Int
  ArtifactsTouched : Int
  TimeSpentSeconds : Int
deriving DecidableEq, Repr

/-- The canonical proof record transmitted from agent to tracker. -/
structure FarmProof where
  SchemaVersion : String
  ProofID : String
  PrevProofID : String
  PrevProofHash : String
  Timestamp : Time
  Agent : AgentInfo
  Actor : ActorInfo
  Action : ActionInfo
  Outcome : OutcomeInfo
  ScoringHints : ScoringHints
  Signature : String
deriving DecidableEq, Repr

/-- An object member tagged `omitempty`: left out when the string is empty.
`key` is the text up to and including the colon. -/
def omitEmpty (key : List Char) (v : String) : List Char :=
  if v = "" then [] else key ++ jsonString v

/-- The JSON object of an `AgentInfo`, members in declaration order. -/
def AgentInfo.marshalJSON (a : AgentInfo) : List Char :=
  "\x7b\"agent_id\":".data ++ jsonString a.AgentID
    ++ ",\"cluster_alias\":".data ++ jsonString a.ClusterAlias ++ "\x7d".data

/-- The JSON object of an `ActorInfo`. -/
def ActorInfo.marshalJSON (a : ActorInfo) : List Char :=
  "\x7b\"actor_hash\":".data ++ jsonString a.ActorHash
    ++ ",\"actor_type\":".data ++ jsonString a.ActorType ++ "\x7d".data

/-- The JSON object of an `ActionInfo`; `subcategory` is `omitempty`. -/
def ActionInfo.marshalJSON (a : ActionInfo) : List Char :=
  "\x7b\"plugin\":".data ++ jsonString a.Plugin
    ++ ",\"action_type\":".data ++ jsonString a.ActionType
    ++ ",\"category\":".data ++ jsonString a.Category
    ++ omitEmpty ",\"subcategory\":".data a.Subcategory
    ++ ",\"description\":".data ++ jsonString a.Description ++ "\x7d".data

/-- The JSON object of an `OutcomeInfo`. -/
def OutcomeInfo.marshalJSON (o : OutcomeInfo) : List Char :=
  "\x7b\"status\":".data ++ jsonString o.Status
    ++ ",\"verified\":".data ++ jsonBool o.Verified
    ++ ",\"evidence_hash\":".data ++ jsonString o.EvidenceHash ++ "\x7d".data

/-- The JSON object of a `ScoringHints`. -/
def ScoringHints.marshalJSON (h : ScoringHints) : List Char :=
  "\x7b\"complexity\":".data ++ jsonString h.Complexity
    ++ ",\"impact_radius\":".data ++ intDec h.ImpactRadius
    ++ ",\"artifacts_touched\":".data ++ intDec h.ArtifactsTouched
    ++ ",\"time_spent_seconds\":".data ++ intDec h.TimeSpentSeconds ++ "\x7d".data

/-- The text of `json.Marshal` on a `FarmProof`: members in declaration
order under their `json` tags, `prev_proof_id` and `prev_proof_hash` left out
when empty; `none` when the timestamp cannot be marshalled. -/
def FarmProof.marshalJSON (p : FarmProof) : Option (List Char) :=
  match p.Timestamp.marshalJSON with
  | none => none
  | some ts =>
    some ("\x7b\"schema_version\":".data ++ jsonString p.SchemaVersion
      ++ ",\"proof_id\":".data ++ jsonString p.ProofID
      ++ omitEmpty ",\"prev_proof_id\":".data p.PrevProofID
      ++ omitEmpty ",\"prev_proof_hash\":".data p.PrevProofHash
      ++ ",\"timestamp\":".data ++ ts
      ++ ",\"agent\":".data ++ p.Agent.marshalJSON
      ++ ",\"actor\":".data ++ p.Actor.marshalJSON
      ++ ",\"action\":".data ++ p.Action.marshalJSON
      ++ ",\"outcome\":".data ++ p.Outcome.marshalJSON
      ++ ",\"scoring_hints\":".data ++ p.ScoringHints.marshalJSON
      ++ ",\"signature\":".data ++ jsonString p.Signature ++ "\x7d".data)

/-- Errors of the proof package. -/
inductive ProofError where
  /-- `proof: generate id: ...` -/
  | generateID
  /-- `proof: canonical json: ...` -/
  | canonicalJSON
  /-- `proof: hash previous proof: ...` -/
  | hashPrevious (cause : ProofError)
deriving DecidableEq, Repr

/-- The deterministic JSON encoding of the proof with the Signature field set
to the empty string: the payload that is signed and verified. -/
def FarmProof.CanonicalJSON (p : FarmProof) : Except ProofError (List Char) :=
  let cp := { p with Signature := "" }
  match cp.marshalJSON with
  | none => .error .canonicalJSON
  | some b => .ok b

/-! ## Cryptographic primitives (`crypto/sha256`, `crypto/ed25519`) -/

/-- An Ed25519 public key (`ed25519.PublicKey`, 32 bytes). -/
abbrev PublicKey := List Byte

/-- An Ed25519 private key (`ed25519.PrivateKey`, 64 bytes). -/
abbrev PrivateKey := List Byte

/-- `ed25519.PublicKeySize`. -/
def PublicKeySize : Nat := 32

/-- The primitives of the standard library the proof package calls. -/
structure Primitives where
  /-- `sha256.Sum256` on a payload. -/
  sha256 : List Char → List Byte
  /-- A SHA-256 digest has 32 bytes. -/
  sha256_size : ∀ m, (sha256 m).length = 32
  /-- The public key corresponding to a private key. -/
  publicOf : PrivateKey → PublicKey
  /-- `ed25519.Sign`. -/
  sign : PrivateKey → List Char → List Byte
  /-- `ed25519.Verify`. -/
  verify : PublicKey → List Char → List Byte → Bool

/-- Ed25519 accepts every signature it made, under the matching public key. -/
def Primitives.Complete (c : Primitives) : Prop :=
  ∀ sk m, c.verify (c.publicOf sk) m (c.sign sk m) = true

/-- A signature made with a private key verifies under no public key other
than the matching one. -/
def Primitives.KeyBinding (c : Primitives) : Prop :=
  ∀ sk m pk, c.verify pk m (c.sign sk m) = true → pk = c.publicOf sk

/-- A signature that verifies for a payload under a key verifies for no other
payload under that key. -/
def Primitives.MessageBinding (c : Primitives) : Prop :=
  ∀ pk m m' sig, c.verify pk m sig = true → c.verify pk m' sig = true → m = m'

/-- The sha256 hex digest of the proof's canonical JSON. -/
def FarmProof.Hash (c : Primitives) (p : FarmProof) : Except ProofError String :=
  match p.CanonicalJSON with
  | .error e => .error e
  | .ok b => .ok (hexEncode (c.sha256 b))

/-- Creates a new FarmProof. `id` is the result of `uuid.NewV7()` (`none`
when it fails) and `now` that of `time.Now().UTC()`; `prev` is `none` for the
genesis proof. -/
def New (c : Primitives) (id : Option String) (now : Time) (agent : AgentInfo)
    (actor : ActorInfo) (action : ActionInfo) (outcome : OutcomeInfo) (hints : ScoringHints)
    (prev : Option FarmProof) : Except ProofError FarmProof :=
  match id with
  | none => .error .generateID
  | some id =>
    let p : FarmProof :=
      { SchemaVersion := Version, ProofID := id, PrevProofID := "", PrevProofHash := "",
        Timestamp := now, Agent := agent, Actor := actor, Action := action,
        Outcome := outcome, ScoringHints := hints, Signature := "" }
    match prev with
    | none => .ok p
    | some q =>
      match q.Hash c with
      | .error e => .error (.hashPrevious e)
      | .ok h => .ok { p with PrevProofID := q.ProofID, PrevProofHash := h }

/-! ## Chain and signature verification (`pkg/proof/chain.go`) -/

/-- Errors of `Verify`. -/
inductive VerifyError where
  /-- `verify: canonical json: ...` -/
  | canonicalJSON (cause : ProofError)
  /-- `verify: decode signature: ...` -/
  | decodeSignature
  /-- `verify: signature invalid` -/
  | signatureInvalid
deriving DecidableEq, Repr

/-- Errors of `Chain`, each naming the index and identifier of the proof at
which the check failed. -/
inductive ChainError where
  /-- `chain: proof i (id): invalid signature: ...` -/
  | invalidSignature (index : Nat) (proofID : String) (cause : VerifyError)
  /-- `chain: proof i (id): hash previous: ...` -/
  | hashPrevious (index : Nat) (proofID : String) (cause : ProofError)
  /-- `chain: proof i (id): prev_proof_id mismatch: got ..., want ...` -/
  | prevProofIDMismatch (index : Nat) (proofID : String) (got want : String)
  /-- `chain: proof i (id): prev_proof_hash mismatch: got ..., want ...` -/
  | prevProofHashMismatch (index : Nat) (proofID : String) (got want : String)
deriving DecidableEq, Repr

/-- The index a chain error names. -/
def ChainError.index : ChainError → Nat
  | .invalidSignature i _ _ => i
  | .hashPrevious i _ _ => i
  | .prevProofIDMismatch i _ _ _ => i
  | .prevProofHashMismatch i _ _ _ => i

/-- Whether a chain error reports broken linkage (a `prev_proof_id` or
`prev_proof_hash` mismatch) rather than an invalid signature. -/
def ChainError.isLinkage : ChainError → Bool
  | .prevProofIDMismatch _ _ _ _ => true
  | .prevProofHashMismatch _ _ _ _ => true
  | _ => false

/-- Signs the proof's canonical JSON with the private key and sets Signature
to the hex-encoded signature. The result is the proof after the call; on an
error the proof is left as it was. -/
def Sign (c : Primitives) (p : FarmProof) (privKey : PrivateKey) :
    Except ProofError FarmProof :=
  match p.CanonicalJSON with
  | .error e => .error e
  | .ok payload => .ok { p with Signature := hexEncode (c.sign privKey payload) }

/-- Checks that the proof's signature is valid against the public key. -/
def Verify (c : Primitives) (p : FarmProof) (pubKey : PublicKey) : Except VerifyError Unit :=
  match p.CanonicalJSON with
  | .error e => .error (.canonicalJSON e)
  | .ok payload =>
    match hexDecode p.Signature with
    | none => .error .decodeSignature
    | some sig =>
      if !c.verify pubKey payload sig then .error .signatureInvalid else .ok ()

/-- The loop of `Chain` from index `i` on: `prev` is `proofs[i-1]`, `none`
exactly when `i = 0`, and the list is `proofs[i:]`. -/
def chainLoop (c : Primitives) (pubKey : PublicKey) :
    Nat → Option FarmProof → List FarmProof → Except ChainError Unit
  | _, _, [] => .ok ()
  | i, prev, p :: rest =>
    match Verify c p pubKey with
    | .error e => .error (.invalidSignature i p.ProofID e)
    | .ok _ =>
      match prev with
      | none => chainLoop c pubKey (i + 1) (some p) rest
      | some q =>
        match q.Hash c with
        | .error e => .error (.hashPrevious i p.ProofID e)
        | .ok prevHash =>
          if p.PrevProofID ≠ q.ProofID then
            .error (.prevProofIDMismatch i p.ProofID p.PrevProofID q.ProofID)
          else if p.PrevProofHash ≠ prevHash then
            .error (.prevProofHashMismatch i p.ProofID p.PrevProofHash prevHash)
          else chainLoop c pubKey (i + 1) (some p) rest

/-- Validates the integrity of a slice of proofs ordered oldest-first. -/
def Chain (c : Primitives) (proofs : List FarmProof) (pubKey : PublicKey) :
    Except ChainError Unit :=
  chainLoop c pubKey 0 none proofs

/-- The caller-supplied data of one `New` call, with the identifier and the
clock reading the call obtains. -/
structure NewArgs where
  id : String
  now : Time
  agent : AgentInfo
  actor : ActorInfo
  action : ActionInfo
  outcome : OutcomeInfo
  hints : ScoringHints
deriving DecidableEq, Repr

/-- The loop of `TestChain_ValidSequence`: for each element of `args`,
`p := New(..., prev); Sign(p, priv); proofs = append(proofs, p); prev = p`.
The result is the list of proofs, or the first error of `New` or `Sign`. -/
def signedSequence (c : Primitives) (privKey : PrivateKey) :
    Option FarmProof → List NewArgs → Except ProofError (List FarmProof)
  | _, [] => .ok []
  | prev, a :: rest =>
    match New c (some a.id) a.now a.agent a.actor a.action a.outcome a.hints prev with
    | .error e => .error e
    | .ok p =>
      match Sign c p privKey with
      | .error e => .error e
      | .ok sp =>
        match signedSequence c privKey (some sp) rest with
        | .error e => .error e
        | .ok ps => .ok (sp :: ps)

/-! ## Keys (`pkg/proof/keygen.go`) -/

/-- Parses a hex-encoded public key string; `none` stands for either error
(text that is not hexadecimal, or a length other than `PublicKeySize`). -/
def DecodePublicKey (s : String) : Option PublicKey :=
  match hexDecode s with
  | none => none
  | some b => if b.length ≠ PublicKeySize then none else some b

/-- The hex-encoded public key string stored in the trust store. -/
def EncodePublicKey (pub : PublicKey) : String := hexEncode pub

/-! ## Storage (`pkg/storage`) -/

/-- The trust state of an agent. -/
inductive AgentStatus where
  /-- Awaiting user approval. -/
  | pending
  /-- Approved and trusted. -/
  | active
  /-- No longer trusted. -/
  | revoked
deriving DecidableEq, Repr

/-- The string value of a status constant. -/
def AgentStatus.toString : AgentStatus → String
  | .pending => "pending"
  | .active => "active"
  | .revoked => "revoked"

/-- A FarmProof with tracker-side metadata. -/
structure StoredProof where
  FarmProof : FarmProof
  CoinsAwarded : Int
  ReceivedAt : Time
deriving DecidableEq, Repr

/-- A registered agent in the trust store. -/
structure AgentRecord where
  AgentID : String
  ClusterAlias : String
  PublicKey : String
  Status : AgentStatus
  EnrolledAt : Time
  RevokedAt : Option Time
deriving DecidableEq, Repr

/-- The materialized farm projection. -/
structure FarmState where
  Name : String
  TotalCoins : Int
  CurrentCoins : Int
  StreakDays : Int
  LastActiveAt : Option Time
  UpdatedAt : Time
deriving DecidableEq, Repr

/-- Errors of the store: the two sentinel errors, a failure to marshal the
value to be written, the two errors with which the storage engine rejects a
key, and any other error the storage engine reports. -/
inductive StorageError where
  /-- `ErrNotFound` -/
  | notFound
  /-- `ErrDuplicateProof` -/
  | duplicateProof
  /-- A `json.Marshal` error. -/
  | marshal
  /-- An error of the storage engine itself. -/
  | engine
  /-- `bolt.ErrKeyRequired`: `Bucket.Put` with an empty key. -/
  | keyRequired
  /-- `bolt.ErrKeyTooLarge`: `Bucket.Put` with a key of more than `MaxKeySize`
  bytes. -/
  | keyTooLarge
deriving DecidableEq, Repr

/-- `bolt.MaxKeySize`, the largest key the storage engine takes, in bytes. -/
def MaxKeySize : Nat := 32768

/-- The check `Bucket.Put` makes on its key before it writes: the key is the
UTF-8 encoding of the identifier. -/
def putKeyError (key : String) : Option StorageError :=
  if key.utf8ByteSize = 0 then some .keyRequired
  else if key.utf8ByteSize > MaxKeySize then some .keyTooLarge
  else none

/-- Byte-wise order of two keys, the order in which a bucket keeps its
entries (on UTF-8 text this is the lexicographic order of the code
points). -/
def keyLess : List Char → List Char → Bool
  | [], [] => false
  | [], _ :: _ => true
  | _ :: _, [] => false
  | a :: as, b :: bs =>
    if a.toNat < b.toNat then true
    else if b.toNat < a.toNat then false
    else keyLess as bs

/-- `Bucket.Put`: replaces the entry with the same key, or inserts the new
entry at its place in key order. -/
def bucketPut {α : Type} (key : α → String) (x : α) : List α → List α
  | [] => [x]
  | y :: ys =>
    if key y = key x then x :: ys
    else if keyLess (key x).data (key y).data then x :: y :: ys
    else y :: bucketPut key x ys

/-- `Bucket.Get`. -/
def bucketGet {α : Type} (key : α → String) (k : String) (entries : List α) : Option α :=
  entries.find? (fun y => key y == k)

/-- The contents of the database: the `proofs` bucket keyed by proof
identifier, the `agents` bucket keyed by agent identifier, both in key order,
and the `farm` bucket's single entry. -/
structure Store where
  proofs : List StoredProof
  agents : List AgentRecord
  farm : Option FarmState
deriving DecidableEq, Repr

/-- The database after `OpenBolt` on a fresh file. -/
def Store.empty : Store := { proofs := [], agents := [], farm := none }

/-- Whether `Time.MarshalJSON` succeeds. -/
def Time.marshals (t : Time) : Bool := decide (0 ≤ t.year ∧ t.year ≤ 9999)

/-- `BoltStore.AppendProof`. `now` is the receipt time. Inside the
transaction the identifier is looked up, and `Bucket.Put` rejects an
identifier that is empty or longer than `MaxKeySize` bytes. `fail` tells
whether the storage engine reports an error for a reason other than the key:
an input/output error, or a record larger than `bolt.MaxValueSize` (about
2 GiB). -/
def Store.AppendProof (s : Store) (fail : Bool) (now : Time) (p : FarmProof)
    (coinsAwarded : Int) : Except StorageError Store :=
  let sp : StoredProof := { FarmProof := p, CoinsAwarded := coinsAwarded, ReceivedAt := now }
  if !(p.Timestamp.marshals && now.marshals) then .error .marshal
  else if fail then .error .engine
  else if (bucketGet (fun x => x.FarmProof.ProofID) p.ProofID s.proofs).isSome then
    .error .duplicateProof
  else
    match putKeyError p.ProofID with
    | some e => .error e
    | none => .ok { s with proofs := bucketPut (fun x => x.FarmProof.ProofID) sp s.proofs }

/-- `BoltStore.GetProof`. -/
def Store.GetProof (s : Store) (fail : Bool) (proofID : String) :
    Except StorageError StoredProof :=
  if fail then .error .engine
  else
    match bucketGet (fun x => x.FarmProof.ProofID) proofID s.proofs with
    | none => .error .notFound
    | some sp => .ok sp

/-- The cursor loop of `BoltStore.ListProofs` over the entries in key
order. -/
def listProofsLoop (agentID afterProofID : String) (limit : Int) :
    Bool → List StoredProof → List StoredProof → List StoredProof
  | _, results, [] => results
  | past, results, sp :: rest =>
    if !past then
      listProofsLoop agentID afterProofID limit
        (if sp.FarmProof.ProofID = afterProofID then true else past) results rest
    else if sp.FarmProof.Agent.AgentID ≠ agentID then
      listProofsLoop agentID afterProofID limit past results rest
    else
      let results := results ++ [sp]
      if limit > 0 ∧ (results.length : Int) ≥ limit then results
      else listProofsLoop agentID afterProofID limit past results rest

/-- `BoltStore.ListProofs`. -/
def Store.ListProofs (s : Store) (fail : Bool) (agentID afterProofID : String) (limit : Int) :
    Except StorageError (List StoredProof) :=
  if fail then .error .engine
  else .ok (listProofsLoop agentID afterProofID limit (afterProofID == "") [] s.proofs)

/-- `BoltStore.LatestProof`: walks the bucket from its last key backwards and
returns the first entry of the agent; `none` when there is none. -/
def Store.LatestProof (s : Store) (fail : Bool) (agentID : String) :
    Except StorageError (Option StoredProof) :=
  if fail then .error .engine
  else .ok (s.proofs.reverse.find? (fun sp => sp.FarmProof.Agent.AgentID == agentID))

/-- `BoltStore.UpsertAgent`. -/
def Store.UpsertAgent (s : Store) (fail : Bool) (agent : AgentRecord) :
    Except StorageError Store :=
  if !(agent.EnrolledAt.marshals && (agent.RevokedAt.map Time.marshals).getD true) then
    .error .marshal
  else if fail then .error .engine
  else .ok { s with agents := bucketPut (fun a => a.AgentID) agent s.agents }

/-- `BoltStore.GetAgent`. -/
def Store.GetAgent (s : Store) (fail : Bool) (agentID : String) :
    Except StorageError AgentRecord :=
  if fail then .error .engine
  else
    match bucketGet (fun a => a.AgentID) agentID s.agents with
    | none => .error .notFound
    | some a => .ok a

/-- `BoltStore.ListAgents`. -/
def Store.ListAgents (s : Store) (fail : Bool) : Except StorageError (List AgentRecord) :=
  if fail then .error .engine else .ok s.agents

/-- `BoltStore.GetFarm`: the default farm state if none exists yet. -/
def Store.GetFarm (s : Store) (fail : Bool) : Except StorageError FarmState :=
  if fail then .error .engine
  else
    match s.farm with
    | none =>
      .ok { Name := "My Farm", TotalCoins := 0, CurrentCoins := 0, StreakDays := 0,
            LastActiveAt := none, UpdatedAt := Time.zero }
    | some farm => .ok farm

/-- `BoltStore.UpdateFarm`; `now` is the update time. -/
def Store.UpdateFarm (s : Store) (fail : Bool) (now : Time) (farm : FarmState) :
    Except StorageError Store :=
  let farm := { farm with UpdatedAt := now }
  if !(now.marshals && (farm.LastActiveAt.map Time.marshals).getD true) then .error .marshal
  else if fail then .error .engine
  else .ok { s with farm := some farm }

/-! ## The tracker API (`cmd/tracker/internal/api/handler.go`) -/

/-- What a handler writes: an error body with its HTTP status, or one of the
success bodies. -/
inductive Response where
  /-- `writeError(w, status, message)` with a fixed message. -/
  | error (status : Nat) (message : String)
  /-- Status 422, `proof signature invalid: ` followed by the error text. -/
  | signatureInvalid (cause : VerifyError)
  /-- Status 400, `invalid public_key: ` followed by the error text. -/
  | invalidPublicKey
  /-- Status 201, `accepted: true` with the coins awarded. -/
  | proofAccepted (coinsAwarded : Int)
  /-- Status 200, `accepted: false`, `rejection_reason: "duplicate proof_id"`,
  `coins_awarded: 0`. -/
  | proofDuplicate
  /-- Status 201, `status: "pending"` with the enrollment message. -/
  | agentEnrolled (message : String)
  /-- Status 200 with the new status. -/
  | agentStatus (status : AgentStatus)
deriving DecidableEq, Repr

/-- What the environment decides during one proof submission: which storage
calls fail, and the two clock readings. -/
structure SubmitEnv where
  getAgentFails : Bool
  latestProofFails : Bool
  appendProofFails : Bool
  getFarmFails : Bool
  updateFarmFails : Bool
  receivedAt : Time
  updatedAt : Time
deriving DecidableEq, Repr

/-- The chain-linkage step of `handleSubmitProof`: with a latest stored proof
the incoming proof must name it and carry its recomputed hash; with none
there is nothing to check. An error is the response written. -/
def chainLinkage (c : Primitives) (latest : Option StoredProof) (p : FarmProof) :
    Except Response Unit :=
  match latest with
  | none => .ok ()
  | some l =>
    match l.FarmProof.Hash c with
    | .error _ => .error (.error 500 "chain hash error")
    | .ok prevHash =>
      if p.PrevProofID ≠ l.FarmProof.ProofID ∨ p.PrevProofHash ≠ prevHash then
        .error (.error 409 "proof chain linkage invalid")
      else .ok ()

/-- The sum `a + b` of two values of type `int`: 64-bit addition, which wraps
around on overflow. -/
def addInt (a b : Int) : Int := (a + b + 2 ^ 63) % 2 ^ 64 - 2 ^ 63

/-- The balance update after an append: `TotalCoins` and `CurrentCoins` grow
by the coins; errors of `GetFarm` and `UpdateFarm` are ignored. -/
def updateBalance (env : SubmitEnv) (s : Store) (coins : Int) : Store :=
  if coins > 0 then
    match s.GetFarm env.getFarmFails with
    | .error _ => s
    | .ok farm =>
      let farm := { farm with TotalCoins := addInt farm.TotalCoins coins,
                              CurrentCoins := addInt farm.CurrentCoins coins }
      match s.UpdateFarm env.updateFarmFails env.updatedAt farm with
      | .error _ => s
      | .ok s' => s'
  else s

/-- `Handler.handleSubmitProof`: the response and the database afterwards.
`body` is the decoded request body (`none` when decoding fails) and `score p`
stands for `scoring.Compute(&p, h.scoringCfg, 1.0, 0).TotalCoins`. The farm
read before scoring is not modelled: its result is unused and its error is
only logged. -/
def handleSubmitProof (c : Primitives) (score : FarmProof → Int) (env : SubmitEnv) (s : Store)
    (body : Option FarmProof) : Response × Store :=
  match body with
  | none => (.error 400 "invalid proof JSON", s)
  | some p =>
    match s.GetAgent env.getAgentFails p.Agent.AgentID with
    | .error .notFound => (.error 403 "unknown agent — enroll first", s)
    | .error _ => (.error 500 "storage error", s)
    | .ok agent =>
      if agent.Status ≠ .active then
        (.error 403 ("agent not approved (status: " ++ agent.Status.toString ++ ")"), s)
      else
        match DecodePublicKey agent.PublicKey with
        | none => (.error 500 "invalid agent key in trust store", s)
        | some pubKey =>
          match Verify c p pubKey with
          | .error e => (.signatureInvalid e, s)
          | .ok _ =>
            match s.LatestProof env.latestProofFails p.Agent.AgentID with
            | .error _ => (.error 500 "storage error", s)
            | .ok latest =>
              match chainLinkage c latest p with
              | .error r => (r, s)
              | .ok _ =>
                let coins : Int :=
                  if p.Outcome.Verified && p.Outcome.Status == OutcomeSuccess then score p
                  else 0
                match s.AppendProof env.appendProofFails env.receivedAt p coins with
                | .error .duplicateProof => (.proofDuplicate, s)
                | .error _ => (.error 500 "storage error", s)
                | .ok s' => (.proofAccepted coins, updateBalance env s' coins)

/-- The body of an enrollment request. -/
structure enrollRequest where
  AgentID : String
  ClusterAlias : String
  PublicKey : String
deriving DecidableEq, Repr

/-- `Handler.handleEnrollAgent`; `body` is the decoded request body. -/
def handleEnrollAgent (upsertFails : Bool) (s : Store) (body : Option enrollRequest) :
    Response × Store :=
  match body with
  | none => (.error 400 "invalid JSON", s)
  | some req =>
    if req.AgentID = "" ∨ req.PublicKey = "" ∨ req.ClusterAlias = "" then
      (.error 400 "agent_id, cluster_alias, and public_key are required", s)
    else
      match DecodePublicKey req.PublicKey with
      | none => (.invalidPublicKey, s)
      | some _ =>
        let record : AgentRecord :=
          { AgentID := req.AgentID, ClusterAlias := req.ClusterAlias,
            PublicKey := req.PublicKey, Status := .pending,
            EnrolledAt := Time.zero, RevokedAt := none }
        match s.UpsertAgent upsertFails record with
        | .error _ => (.error 500 "storage error", s)
        | .ok s' =>
          (.agentEnrolled ("Agent enrolled. Approve it with: farmctl agent approve "
            ++ req.AgentID), s')

/-- `Handler.setAgentStatus`. -/
def setAgentStatus (getFails upsertFails : Bool) (s : Store) (agentID : String)
    (status : AgentStatus) : Response × Store :=
  match s.GetAgent getFails agentID with
  | .error .notFound => (.error 404 "agent not found", s)
  | .error _ => (.error 500 "storage error", s)
  | .ok agent =>
    match s.UpsertAgent upsertFails { agent with Status := status } with
    | .error _ => (.error 500 "storage error", s)
    | .ok s' => (.agentStatus status, s')

/-- `Handler.handleApproveAgent`. -/
def handleApproveAgent (getFails upsertFails : Bool) (s : Store) (id : String) :
    Response × Store :=
  setAgentStatus getFails upsertFails s id .active

/-- `Handler.handleRevokeAgent`. -/
def handleRevokeAgent (getFails upsertFails : Bool) (s : Store) (id : String) :
    Response × Store :=
  setAgentStatus getFails upsertFails s id .revoked

/-! ## A small instance of the primitives

Used to run the definitions on concrete inputs. The signature of a payload
under a key is the key followed by the code points of the payload, four bytes
each; the public key of a private key is the private key itself; the digest is
a 32-byte checksum of the payload. -/

/-- The four bytes of a code point, most significant first. -/
def demoCharBytes (ch : Char) : List Byte :=
  [⟨ch.toNat / 16777216 % 256, Nat.mod_lt _ (by decide)⟩,
   ⟨ch.toNat / 65536 % 256, Nat.mod_lt _ (by decide)⟩,
   ⟨ch.toNat / 256 % 256, Nat.mod_lt _ (by decide)⟩,
   ⟨ch.toNat % 256, Nat.mod_lt _ (by decide)⟩]

/-- The bytes of a payload. -/
def demoEncode : List Char → List Byte
  | [] => []
  | ch :: rest => demoCharBytes ch ++ demoEncode rest

/-- The sum of the code points of a payload. -/
def demoSum : List Char → Nat
  | [] => 0
  | ch :: rest => ch.toNat + demoSum rest

/-- The checksum digest: byte `i` is the sum of the code points plus `i`
times the payload length, modulo 256. -/
def demoDigest (m : List Char) : List Byte :=
  (List.range 32).map (fun i => ⟨(demoSum m + i * m.length) % 256, Nat.mod_lt _ (by decide)⟩)

/-- The instance. -/
def demoPrimitives : Primitives where
  sha256 := demoDigest
  sha256_size := fun m => by simp [demoDigest]
  publicOf := fun sk => sk
  sign := fun sk m => sk ++ demoEncode m
  verify := fun pk m sig => decide (sig = pk ++ demoEncode m)

/-! ## Reading back an escaped character -/

/-- The code point denoted by the text after a backslash, and the text after
it. -/
def unescEscape : List Char → Option (Nat × List Char)
  | [] => none
  | e :: rest =>
    if e = 'u' then
      match rest with
      | a :: b :: c :: d :: rest =>
        match fromHexChar a, fromHexChar b, fromHexChar c, fromHexChar d with
        | some a, some b, some c, some d =>
          some (((a.val * 16 + b.val) * 16 + c.val) * 16 + d.val, rest)
        | _, _, _, _ => none
      | _ => none
    else if e = 'b' then some (8, rest)
    else if e = 'f' then some (12, rest)
    else if e = 'n' then some (10, rest)
    else if e = 'r' then some (13, rest)
    else if e = 't' then some (9, rest)
    else some (e.toNat, rest)

/-- The code point of the character whose JSON text starts the given text,
and the text after it: the inverse of `escChar` at the head of a string
body. -/
def unescHead : List Char → Option (Nat × List Char)
  | [] => none
  | ch :: rest => if ch = '\\' then unescEscape rest else some (ch.toNat, rest)

/-! ## Concrete data

A key and a chain of two signed proofs with the field values of
`TestChain_TamperedProof`, and the tampering of that test. -/

deriving instance DecidableEq for Except

/-- A 32-byte key; under `demoPrimitives` it is its own public key. -/
def demoKey : List Byte := List.replicate 32 7

/-- The arguments of a `New` call with the given identifier. -/
def demoArgs (id : String) : NewArgs :=
  { id := id, now := ⟨2024, 2, 14, 9, 5, 7, 120000000⟩,
    agent := ⟨"agent-1", "test-cluster"⟩, actor := ⟨"ab12", "human"⟩,
    action := ⟨"farmops/k8s-pod-health", "verify", "maintenance", "", "check"⟩,
    outcome := ⟨"success", true, "abc"⟩, hints := ⟨"low", 0, 0, 0⟩ }

/-- A proof with the given identifier and link fields, not yet signed. -/
def demoUnsigned (id prevID prevHash : String) : FarmProof :=
  let a := demoArgs id
  { SchemaVersion := Version, ProofID := id, PrevProofID := prevID, PrevProofHash := prevHash,
    Timestamp := a.now, Agent := a.agent, Actor := a.actor, Action := a.action,
    Outcome := a.outcome, ScoringHints := a.hints, Signature := "" }

/-- The proof after `Sign` with `demoKey`. -/
def demoSign (p : FarmProof) : FarmProof :=
  match Sign demoPrimitives p demoKey with
  | .ok sp => sp
  | .error _ => p

/-- The hash of a proof, empty if it cannot be computed. -/
def demoHash (p : FarmProof) : String :=
  match p.Hash demoPrimitives with
  | .ok h => h
  | .error _ => ""

/-- The signed genesis proof `p0`. -/
def demoFirst : FarmProof := demoSign (demoUnsigned "p0" "" "")

/-- The signed proof `p1`, linked to `p0`. -/
def demoSecond : FarmProof := demoSign (demoUnsigned "p1" "p0" (demoHash demoFirst))

/-- The tampering of `TestChain_TamperedProof`:
`ScoringHints.ImpactRadius = 99` after signing. -/
def tamper (p : FarmProof) : FarmProof :=
  { p with ScoringHints := { p.ScoringHints with ImpactRadius := 99 } }

/-- The trust-store record of `agent-1`: Active, with `demoKey` as its public
key. -/
def demoAgent : AgentRecord :=
  { AgentID := "agent-1", ClusterAlias := "test-cluster", PublicKey := EncodePublicKey demoKey,
    Status := .active, EnrolledAt := Time.zero, RevokedAt := none }

/-- A submission during which no storage call fails. -/
def demoEnv : SubmitEnv :=
  { getAgentFails := false, latestProofFails := false, appendProofFails := false,
    getFarmFails := false, updateFarmFails := false,
    receivedAt := ⟨2024, 2, 14, 9, 5, 8, 0⟩, updatedAt := ⟨2024, 2, 14, 9, 5, 8, 1⟩ }

/-- A scoring function that awards 10 coins to every proof. -/
def demoScore : FarmProof → Int := fun _ => 10

/-- A database with `agent-1` enrolled and approved and an empty ledger. -/
def demoStore : Store := { proofs := [], agents := [demoAgent], farm := none }

/-- The same database with the genesis proof `p0` in the ledger. -/
def demoStoreWithFirst : Store :=
  { proofs := [{ FarmProof := demoFirst, CoinsAwarded := 10, ReceivedAt := demoEnv.receivedAt }],
    agents := [demoAgent], farm := none }

/-- A signed proof of `agent-1` that names a predecessor `ghost` although the
agent has none. -/
def demoDangling : FarmProof := demoSign (demoUnsigned "p9" "ghost" "")

/-- The database of `demoStore` with `agent-1` still Pending. -/
def demoStorePending : Store :=
  { proofs := [], agents := [{ demoAgent with Status := .pending }], farm := none }

/-- The database after `demoStore` has accepted the genesis proof `p0` for 10
coins. -/
def demoStoreAccepted : Store :=
  { proofs := [{ FarmProof := demoFirst, CoinsAwarded := 10, ReceivedAt := demoEnv.receivedAt }],
    agents := [demoAgent],
    farm := some { Name := "My Farm", TotalCoins := 10, CurrentCoins := 10, StreakDays := 0,
                   LastActiveAt := none, UpdatedAt := demoEnv.updatedAt } }

/-- A submission during which the write of the farm aggregate fails. -/
def demoEnvUpdateFails : SubmitEnv := { demoEnv with updateFarmFails := true }

/-- A sequence of `AppendProof` calls on a storage engine that does not
fail, each with the proof, coins and receipt time of one element; `none` when
one of the calls returns an error. -/
def appendAll : Store → List StoredProof → Option Store
  | s, [] => some s
  | s, sp :: rest =>
    match s.AppendProof false sp.ReceivedAt sp.FarmProof sp.CoinsAwarded with
    | .ok s' => appendAll s' rest
    | .error _ => none

/-- The two proofs `p2` and `p1` of `agent-1`, in the order in which they are
appended. -/
def demoCalls : List StoredProof :=
  [{ FarmProof := demoUnsigned "p2" "" "", CoinsAwarded := 10, ReceivedAt := demoEnv.receivedAt },
   { FarmProof := demoUnsigned "p1" "p2" "", CoinsAwarded := 10,
     ReceivedAt := demoEnv.updatedAt }]

/-! ## Floating-point arithmetic (`float64`)

A finite `float64` value is the rational number it denotes. The arithmetic of
the platform is a parameter: `rnd` rounds the exact result of an operation
to a `float64` value, so that `a * b` is `rnd (a * b)`, `a + b` is
`rnd (a + b)`, `float64(n)` is `rnd n` and a decimal constant is the rounding
of its value; `toInt` is the conversion `int(x)`, whose result the language
leaves to the implementation when the truncated value is outside the range of
`int`. Comparisons are exact. Infinities and NaN are not modelled, and every
operation is rounded on its own. The constants 1.0, 1.25 and 1.5 are
`float64` values and are written as such. -/

/-- The `float64` operations of the platform. -/
structure FloatOps where
  /-- Rounding of an exact result to a `float64` value. -/
  rnd : ℚ → ℚ
  /-- The conversion `int(x)`. -/
  toInt : ℚ → Int

/-- Truncation toward zero. -/
def truncate (x : ℚ) : Int := if 0 ≤ x then ⌊x⌋ else ⌈x⌉

/-- Rounding is monotonic. -/
def FloatOps.Monotone (fl : FloatOps) : Prop := ∀ x y, x ≤ y → fl.rnd x ≤ fl.rnd y

/-- A value with a significand of at most 53 bits and a moderate binary
exponent is a `float64` value: rounding leaves it as it is. -/
def FloatOps.Exact (fl : FloatOps) : Prop :=
  ∀ (m : Int) (k : Nat), |m| ≤ 2 ^ 53 → k ≤ 900 →
    fl.rnd ((m : ℚ) / 2 ^ k) = (m : ℚ) / 2 ^ k ∧ fl.rnd ((m : ℚ) * 2 ^ k) = (m : ℚ) * 2 ^ k

/-- Rounding a value of ordinary magnitude changes it by at most one part in
`2^53`. -/
def FloatOps.Near (fl : FloatOps) : Prop :=
  ∀ x : ℚ, 1 / 2 ^ 64 ≤ |x| → |x| ≤ 2 ^ 64 → |fl.rnd x - x| ≤ |x| / 2 ^ 53

/-- The conversion to `int` truncates toward zero when the truncated value is
in the range of a 64-bit `int`, and its result is in that range in any
case. -/
def FloatOps.Converts (fl : FloatOps) : Prop :=
  (∀ x : ℚ, -(2 ^ 63) ≤ truncate x → truncate x < 2 ^ 63 → fl.toInt x = truncate x) ∧
  (∀ x : ℚ, -(2 ^ 63) ≤ fl.toInt x ∧ fl.toInt x < 2 ^ 63)

/-- Arithmetic without rounding error, with the conversion to `int` of amd64:
a value outside the range converts to `-2^63`. It is an idealisation of
`float64`: `rnd` is the identity, so where the code rounds, a result computed
here can differ from the one the code computes (in the last digits of a large
product, or by one coin where a product falls just short of an integer). It
serves to run the definitions on concrete inputs. -/
def exactFloat : FloatOps where
  rnd := fun x => x
  toInt := fun x =>
    if -(2 ^ 63) ≤ truncate x ∧ truncate x < 2 ^ 63 then truncate x else -(2 ^ 63)

/-! ## The scoring engine (`pkg/scoring/scoring.go`) -/

/-- The configurable scoring parameters. A map is the partial function from
its keys to their values. -/
structure Config where
  BaseCoins : String → Option Int
  ComplexityMultipliers : String → Option ℚ
  ImpactStep : ℚ
  StreakStep : ℚ
  StreakCap : ℚ

/-- The default scoring configuration. -/
def DefaultConfig (fl : FloatOps) : Config :=
  { BaseCoins := fun k =>
      if k = "maintenance" then some 10
      else if k = "toil" then some 15
      else if k = "reliability" then some 20
      else if k = "security" then some 25
      else if k = "incident" then some 30
      else if k = "upgrade" then some 20
      else none
    ComplexityMultipliers := fun k =>
      if k = "low" then some 1
      else if k = "medium" then some (5 / 4)
      else if k = "high" then some (3 / 2)
      else none
    ImpactStep := fl.rnd (1 / 10)
    StreakStep := fl.rnd (7 / 100)
    StreakCap := 3 / 2 }

/-- The breakdown of a coin calculation. -/
structure Result where
  BaseCoins : Int
  ComplexityMult : ℚ
  ImpactMult : ℚ
  StreakMult : ℚ
  UpgradeMult : ℚ
  TotalCoins : Int
deriving DecidableEq

/-- The expression `1.0 + float64(n)*step` of the impact and streak
multipliers. -/
def linearMult (fl : FloatOps) (n : Int) (step : ℚ) : ℚ :=
  fl.rnd (1 + fl.rnd (fl.rnd (n : ℚ) * step))

/-- The product
`float64(base) * complexityMult * impactMult * streakMult * upgradeMult`,
evaluated from the left. -/
def coinProduct (fl : FloatOps) (base : Int) (complexityMult impactMult streakMult
    upgradeMult : ℚ) : ℚ :=
  fl.rnd (fl.rnd (fl.rnd (fl.rnd (fl.rnd (base : ℚ) * complexityMult) * impactMult)
    * streakMult) * upgradeMult)

/-- Calculates the coins awarded for a verified proof. A map lookup yields
the zero value for a key that is absent. -/
def Compute (fl : FloatOps) (p : FarmProof) (cfg : Config) (upgradeMult : ℚ)
    (streakDays : Int) : Result :=
  let base := (cfg.BaseCoins p.Action.Category).getD 0
  let base := if base = 0 then 10 else base
  let complexityMult := (cfg.ComplexityMultipliers p.ScoringHints.Complexity).getD 0
  let complexityMult := if complexityMult = 0 then 1 else complexityMult
  let impactMult :=
    if p.ScoringHints.ImpactRadius > 1 then
      linearMult fl (p.ScoringHints.ImpactRadius - 1) cfg.ImpactStep
    else 1
  let streakMult := linearMult fl streakDays cfg.StreakStep
  let streakMult := if streakMult > cfg.StreakCap then cfg.StreakCap else streakMult
  let upgradeMult := if upgradeMult = 0 then 1 else upgradeMult
  let total := fl.toInt (coinProduct fl base complexityMult impactMult streakMult upgradeMult)
  let total := if total < 1 ∧ base > 0 then 1 else total
  { BaseCoins := base, ComplexityMult := complexityMult, ImpactMult := impactMult,
    StreakMult := streakMult, UpgradeMult := upgradeMult, TotalCoins := total }

/-- The product of the factors of a breakdown, evaluated as `Compute`
evaluates it. -/
def Result.product (fl : FloatOps) (r : Result) : ℚ :=
  coinProduct fl r.BaseCoins r.ComplexityMult r.ImpactMult r.StreakMult r.UpgradeMult

/-- The proof of the scoring tests: only the category, the complexity and the
impact radius are set. -/
def makeProof (category complexity : String) (impactRadius : Int) : FarmProof :=
  { SchemaVersion := "", ProofID := "", PrevProofID := "", PrevProofHash := "",
    Timestamp := Time.zero, Agent := ⟨"", ""⟩, Actor := ⟨"", ""⟩,
    Action := ⟨"", "", category, "", ""⟩, Outcome := ⟨"", false, ""⟩,
    ScoringHints := ⟨complexity, impactRadius, 0, 0⟩, Signature := "" }

/-! ## The scoring call of the handler -/

/-- The coins `handleSubmitProof` computes for an eligible proof:
`scoring.Compute(&p, h.scoringCfg, 1.0, 0).TotalCoins`. -/
def handlerScore (fl : FloatOps) (scoringCfg : Config) (p : FarmProof) : Int :=
  (Compute fl p scoringCfg 1 0).TotalCoins

/-- The scoring of the tracker: `main` passes `scoring.DefaultConfig()` to
`NewHandler`. Here in arithmetic without rounding error. -/
def demoHandlerScore : FarmProof → Int := handlerScore exactFloat (DefaultConfig exactFloat)

/-- A proof of `agent-1` of category incident with complexity low and impact
radius `3 * 10^18`, not yet signed. -/
def demoHugeUnsigned (id prevID prevHash : String) : FarmProof :=
  { demoUnsigned id prevID prevHash with
    Action := ⟨"farmops/k8s-pod-health", "verify", "incident", "", "check"⟩,
    ScoringHints := ⟨"low", 3000000000000000000, 0, 0⟩ }

/-- The signed genesis proof `h0` with the huge impact radius. -/
def demoHugeFirst : FarmProof := demoSign (demoHugeUnsigned "h0" "" "")

/-- The signed proof `h1` with the huge impact radius, linked to `h0`. -/
def demoHugeSecond : FarmProof :=
  demoSign (demoHugeUnsigned "h1" "h0" (demoHash demoHugeFirst))

/-- The database after `demoStore` has accepted `h0`. -/
def demoStoreHuge : Store :=
  { proofs := [{ FarmProof := demoHugeFirst, CoinsAwarded := 9000000000000000027,
                 ReceivedAt := demoEnv.receivedAt }],
    agents := [demoAgent],
    farm := some { Name := "My Farm", TotalCoins := 9000000000000000027,
                   CurrentCoins := 9000000000000000027, StreakDays := 0,
                   LastActiveAt := none, UpdatedAt := demoEnv.updatedAt } }

/-- The database after `demoStoreHuge` has accepted `h1`. -/
def demoStoreHugeTwice : Store :=
  { proofs := [{ FarmProof := demoHugeFirst, CoinsAwarded := 9000000000000000027,
                 ReceivedAt := demoEnv.receivedAt },
               { FarmProof := demoHugeSecond, CoinsAwarded := 9000000000000000027,
                 ReceivedAt := demoEnv.receivedAt }],
    agents := [demoAgent],
    farm := some { Name := "My Farm", TotalCoins := -446744073709551562,
                   CurrentCoins := -446744073709551562, StreakDays := 0,
                   LastActiveAt := none, UpdatedAt := demoEnv.updatedAt } }

/-! ## Requests served one after another -/

/-- A request to one of the four routes that change the database, with what
the environment decides while it is handled. -/
inductive Request where
  /-- `POST /api/v1/proofs` -/
  | submitProof (env : SubmitEnv) (body : Option FarmProof)
  /-- `POST /api/v1/agents/enroll` -/
  | enrollAgent (upsertFails : Bool) (body : Option enrollRequest)
  /-- `POST /api/v1/agents/{id}/approve` -/
  | approveAgent (getFails upsertFails : Bool) (id : String)
  /-- `POST /api/v1/agents/{id}/revoke` -/
  | revokeAgent (getFails upsertFails : Bool) (id : String)
deriving DecidableEq, Repr

/-- `Handler.ServeHTTP` on these routes, for a request that carries the API
key: the response and the database afterwards. -/
def ServeHTTP (c : Primitives) (score : FarmProof → Int) (s : Store) :
    Request → Response × Store
  | .submitProof env body => handleSubmitProof c score env s body
  | .enrollAgent upsertFails body => handleEnrollAgent upsertFails s body
  | .approveAgent getFails upsertFails id => handleApproveAgent getFails upsertFails s id
  | .revokeAgent getFails upsertFails id => handleRevokeAgent getFails upsertFails s id

/-- Requests served one after another: the responses in order and the
database after the last. -/
def serveAll (c : Primitives) (score : FarmProof → Int) :
    Store → List Request → List Response × Store
  | s, [] => ([], s)
  | s, r :: rest =>
    ((ServeHTTP c score s r).1 :: (serveAll c score (ServeHTTP c score s r).2 rest).1,
     (serveAll c score (ServeHTTP c score s r).2 rest).2)

/-- Whether every storage operation of the request succeeds: the storage
engine reports no error of its own and the clock readings can be marshalled.
A proof identifier that the engine rejects as a key is not excluded here: such
a submission is answered 500 and changes nothing. -/
def Request.storageSucceeds : Request → Bool
  | .submitProof env _ =>
    !env.getAgentFails && !env.latestProofFails && !env.appendProofFails &&
      !env.getFarmFails && !env.updateFarmFails && env.receivedAt.marshals &&
      env.updatedAt.marshals
  | .enrollAgent upsertFails _ => !upsertFails
  | .approveAgent getFails upsertFails _ => !getFails && !upsertFails
  | .revokeAgent getFails upsertFails _ => !getFails && !upsertFails

/-- The enrollment request of `agent-1` with `demoKey`. -/
def demoEnroll : enrollRequest :=
  { AgentID := "agent-1", ClusterAlias := "test-cluster", PublicKey := EncodePublicKey demoKey }

/-! ## Concurrent submissions

`net/http` serves every request on a goroutine of its own, and every call of
the handler to the store is a transaction of its own (`db.View` for the
reads, `db.Update` for the writes). Between the read of the latest proof and
the append of one submission, another submission may run. -/

/-- The part of `handleSubmitProof` before the append: the trust check, the
signature check, the read of the latest proof, the linkage check and the
scoring. The result is the response written when one of them fails, or the
proof with its coins. -/
def submitCheck (c : Primitives) (score : FarmProof → Int) (env : SubmitEnv) (s : Store)
    (body : Option FarmProof) : Except Response (FarmProof × Int) :=
  match body with
  | none => .error (.error 400 "invalid proof JSON")
  | some p =>
    match s.GetAgent env.getAgentFails p.Agent.AgentID with
    | .error .notFound => .error (.error 403 "unknown agent — enroll first")
    | .error _ => .error (.error 500 "storage error")
    | .ok agent =>
      if agent.Status ≠ .active then
        .error (.error 403 ("agent not approved (status: " ++ agent.Status.toString ++ ")"))
      else
        match DecodePublicKey agent.PublicKey with
        | none => .error (.error 500 "invalid agent key in trust store")
        | some pubKey =>
          match Verify c p pubKey with
          | .error e => .error (.signatureInvalid e)
          | .ok _ =>
            match s.LatestProof env.latestProofFails p.Agent.AgentID with
            | .error _ => .error (.error 500 "storage error")
            | .ok latest =>
              match chainLinkage c latest p with
              | .error r => .error r
              | .ok _ =>
                .ok (p, if p.Outcome.Verified && p.Outcome.Status == OutcomeSuccess then score p
                        else 0)

/-- The part of `handleSubmitProof` from the append on, on the database as it
is at that moment. -/
def submitCommit (env : SubmitEnv) (s : Store) (p : FarmProof) (coins : Int) :
    Response × Store :=
  match s.AppendProof env.appendProofFails env.receivedAt p coins with
  | .error .duplicateProof => (.proofDuplicate, s)
  | .error _ => (.error 500 "storage error", s)
  | .ok s' => (.proofAccepted coins, updateBalance env s' coins)

/-- The rest of a submission after its checks: the response of a failed check
is written, a proof that passed is committed. -/
def submitFinish (env : SubmitEnv) (s : Store) :
    Except Response (FarmProof × Int) → Response × Store
  | .error r => (r, s)
  | .ok (p, coins) => submitCommit env s p coins

/-- Two submissions A and B handled concurrently, in the interleaving in
which both make their checks before either appends: the checks of A and of B
read the database `s`, then A is committed, then B. The result is the two
responses and the database afterwards. -/
def serveInterleaved (c : Primitives) (score : FarmProof → Int) (envA envB : SubmitEnv)
    (s : Store) (bodyA bodyB : Option FarmProof) : Response × Response × Store :=
  let checkA := submitCheck c score envA s bodyA
  let checkB := submitCheck c score envB s bodyB
  let afterA := submitFinish envA s checkA
  let afterB := submitFinish envB afterA.2 checkB
  (afterA.1, afterB.1, afterB.2)

/-- A second signed successor of `p0`, with the identifier `p1b`. -/
def demoSecondB : FarmProof := demoSign (demoUnsigned "p1b" "p0" (demoHash demoFirst))

/-- A configuration whose tables hold the value 0 for the category
maintenance and for the complexity tier low, and are otherwise as in the
default configuration. -/
def demoZeroConfig : Config :=
  { DefaultConfig exactFloat with
    BaseCoins := fun k =>
      if k = "maintenance" then some 0 else (DefaultConfig exactFloat).BaseCoins k
    ComplexityMultipliers := fun k =>
      if k = "low" then some 0 else (DefaultConfig exactFloat).ComplexityMultipliers k }

/-! ## The invariant of coin conservation -/

/-- The ledger is in key order without repeated identifiers, the coins
recorded are not negative, the farm has no last-active instant, and both farm
totals are the `int` sum of the coins recorded. -/
def Conserved (s : Store) : Prop :=
  s.proofs.Pairwise (fun a b =>
      keyLess a.FarmProof.ProofID.data b.FarmProof.ProofID.data = true) ∧
    (∀ sp ∈ s.proofs, 0 ≤ sp.CoinsAwarded) ∧
    ∃ farm, s.GetFarm false = .ok farm ∧ farm.LastActiveAt = none ∧
      farm.TotalCoins = addInt ((s.proofs.map (fun sp => sp.CoinsAwarded)).sum) 0 ∧
      farm.CurrentCoins = addInt ((s.proofs.map (fun sp => sp.CoinsAwarded)).sum) 0

/-! ## The agent's watcher (`cmd/agent/internal/watcher/watcher.go`) -/

/-- `proof.HashEvidence`: the sha256 hex digest of raw evidence. -/
def HashEvidence (c : Primitives) (raw : String) : String := hexEncode (c.sha256 raw.data)

/-- `proof.HashActor`: the sha256 hex digest of a canonical actor
identifier. -/
def HashActor (c : Primitives) (canonicalID : String) : String :=
  hexEncode (c.sha256 canonicalID.data)

/-- `clamp`. -/
def clamp (v min max : Int) : Int :=
  if v < min then min else if v > max then max else v

/-- The agent configuration the watcher puts into its proofs. -/
structure WatcherConfig where
  AgentID : String
  ClusterAlias : String
deriving DecidableEq, Repr

/-- `Watcher.observePodHealth` from the pod counts on: `total`, `healthy` and
`crashLooping` are the counts over the listed pods, `id` and `now` what `New`
obtains. The result is the proof handed to `SubmitProof`; `none` when the
cluster is not fully healthy and no proof is emitted, or when `New` or `Sign`
returns an error. -/
def observePodHealth (c : Primitives) (cfg : WatcherConfig) (privKey : PrivateKey)
    (id : Option String) (now : Time) (total healthy crashLooping : Nat) : Option FarmProof :=
  if crashLooping > 0 ∨ healthy < total then none
  else
    let evidenceJSON := String.mk ("\x7b\"total\":".data ++ natDec total
      ++ ",\"healthy\":".data ++ natDec healthy
      ++ ",\"crash_looping\":".data ++ natDec crashLooping ++ "\x7d".data)
    let agent : AgentInfo := ⟨cfg.AgentID, cfg.ClusterAlias⟩
    let actor : ActorInfo := ⟨HashActor c ("agent:" ++ cfg.AgentID), "system"⟩
    let action : ActionInfo :=
      ⟨"farmops/k8s-pod-health", "verify", "maintenance", "",
        String.mk ("Verified pod health: ".data ++ natDec healthy ++ "/".data ++ natDec total
          ++ " pods healthy".data)⟩
    let outcome : OutcomeInfo := ⟨OutcomeSuccess, true, HashEvidence c evidenceJSON⟩
    let complexity := if total > 100 then "medium" else "low"
    let hints : ScoringHints := ⟨complexity, clamp ((total : Int) / 10) 1 10, total, 0⟩
    match New c id now agent actor action outcome hints none with
    | .error _ => none
    | .ok p =>
      match Sign c p privKey with
      | .error _ => none
      | .ok sp => some sp

/-- Whether a response reports an accepted proof. -/
def Response.isAccepted : Response → Bool
  | .proofAccepted _ => true
  | _ => false

/-- The configuration of the watcher of `agent-1`. -/
def demoWatcher : WatcherConfig := { AgentID := "agent-1", ClusterAlias := "test-cluster" }

/-- What the watcher of `agent-1` hands to `SubmitProof` when it sees 25 pods,
all of them healthy; `id` and `now` are what `New` obtains. -/
def demoObserve (id : String) (now : Time) : Option FarmProof :=
  observePodHealth demoPrimitives demoWatcher demoKey (some id) now 25 25 0

/-- The proof of that observation as `New` returns it, before `Sign`. -/
def demoObserved (id : String) (now : Time) : FarmProof :=
  { SchemaVersion := Version, ProofID := id, PrevProofID := "", PrevProofHash := "",
    Timestamp := now, Agent := ⟨"agent-1", "test-cluster"⟩,
    Actor := ⟨HashActor demoPrimitives "agent:agent-1", "system"⟩,
    Action := ⟨"farmops/k8s-pod-health", "verify", "maintenance", "",
      "Verified pod health: 25/25 pods healthy"⟩,
    Outcome := ⟨OutcomeSuccess, true,
      HashEvidence demoPrimitives "\x7b\"total\":25,\"healthy\":25,\"crash_looping\":0\x7d"⟩,
    ScoringHints := ⟨"low", 2, 25, 0⟩, Signature := "" }

/-- The requests of a watcher that starts before its agent is approved: the
agent enrolls, the watcher submits its first proof `w0`, the operator approves
the agent, and five minutes after the first the watcher submits its second
proof `w1`. -/
def demoWatcherRequests : List Request :=
  [.enrollAgent false (some demoEnroll),
   .submitProof demoEnv (demoObserve "w0" ⟨2024, 2, 14, 9, 0, 0, 0⟩),
   .approveAgent false false "agent-1",
   .submitProof demoEnv (demoObserve "w1" ⟨2024, 2, 14, 9, 5, 0, 0⟩)]

/-- The database after `demoWatcherRequests`: `agent-1` is Active and the
ledger holds the watcher's second proof `w1` only, accepted for 11 coins. -/
def demoStoreWatched : Store :=
  { proofs := [{ FarmProof := demoSign (demoObserved "w1" ⟨2024, 2, 14, 9, 5, 0, 0⟩),
                 CoinsAwarded := 11, ReceivedAt := demoEnv.receivedAt }],
    agents := [demoAgent],
    farm := some { Name := "My Farm", TotalCoins := 11, CurrentCoins := 11, StreakDays := 0,
                   LastActiveAt := none, UpdatedAt := demoEnv.updatedAt } }

/-! ## Hexadecimal text: decoding undoes encoding -/

theorem fromHexChar_hexDigit (n : Fin 16) : fromHexChar (hexDigit n.val) = some n := by
  revert n; decide

theorem hexDecodeChars_hexByte (b : Byte) (rest : List Char) :
    hexDecodeChars (hexByte b ++ rest) =
      match hexDecodeChars rest with
      | some bs => some (b :: bs)
      | none => none := by
  have h1 := fromHexChar_hexDigit ⟨b.val / 16, by omega⟩
  have h2 := fromHexChar_hexDigit ⟨b.val % 16, by omega⟩
  show hexDecodeChars (hexDigit (b.val / 16) :: hexDigit (b.val % 16) :: rest) = _
  simp only [hexDecodeChars] at *
  rw [h1, h2]
  cases hexDecodeChars rest with
  | none => rfl
  | some bs =>
    simp only [Option.some.injEq, List.cons.injEq, and_true]
    apply Fin.ext
    simp only
    omega

theorem hexDecodeChars_hexEncodeChars (bs : List Byte) :
    hexDecodeChars (hexEncodeChars bs) = some bs := by
  induction bs with
  | nil => rfl
  | cons b bs ih => rw [hexEncodeChars, hexDecodeChars_hexByte, ih]

theorem hexDecode_hexEncode (bs : List Byte) : hexDecode (hexEncode bs) = some bs := by
  simp [hexDecode, hexEncode, hexDecodeChars_hexEncodeChars]

theorem hexEncode_injective : Function.Injective hexEncode := by
  intro a b h
  have := congrArg hexDecode h
  simpa [hexDecode_hexEncode] using this

/-! ## The canonical payload ignores the signature -/

theorem CanonicalJSON_setSignature (p : FarmProof) (s : String) :
    ({ p with Signature := s } : FarmProof).CanonicalJSON = p.CanonicalJSON := rfl

theorem Hash_setSignature (c : Primitives) (p : FarmProof) (s : String) :
    ({ p with Signature := s } : FarmProof).Hash c = p.Hash c := rfl

theorem CanonicalJSON_eq_of_cleared_eq (p q : FarmProof)
    (h : ({ p with Signature := "" } : FarmProof) = { q with Signature := "" }) :
    p.CanonicalJSON = q.CanonicalJSON := by
  unfold FarmProof.CanonicalJSON
  simp only [h]

theorem CanonicalJSON_ok_iff (p : FarmProof) :
    (∃ b, p.CanonicalJSON = .ok b) ↔ p.Timestamp.marshals = true := by
  unfold FarmProof.CanonicalJSON FarmProof.marshalJSON Time.marshalJSON Time.marshals
  by_cases h : 0 ≤ p.Timestamp.year ∧ p.Timestamp.year ≤ 9999
  · simp [h]
  · simp [h]

theorem Sign_ok_iff (c : Primitives) (p : FarmProof) (sk : PrivateKey) :
    (∃ sp, Sign c p sk = .ok sp) ↔ p.Timestamp.marshals = true := by
  rw [← CanonicalJSON_ok_iff]
  unfold Sign
  cases p.CanonicalJSON with
  | error e => simp
  | ok b => simp

theorem Sign_eq_ok (c : Primitives) (p sp : FarmProof) (sk : PrivateKey)
    (h : Sign c p sk = .ok sp) :
    ∃ b, p.CanonicalJSON = .ok b ∧ sp = { p with Signature := hexEncode (c.sign sk b) } := by
  unfold Sign at h
  cases hb : p.CanonicalJSON with
  | error e => rw [hb] at h; cases h
  | ok b =>
    rw [hb] at h
    exact ⟨b, rfl, by injection h with h; exact h.symm⟩

theorem Verify_ok_iff (c : Primitives) (p : FarmProof) (pk : PublicKey) :
    Verify c p pk = .ok () ↔
      ∃ b sig, p.CanonicalJSON = .ok b ∧ hexDecode p.Signature = some sig ∧
        c.verify pk b sig = true := by
  unfold Verify
  cases p.CanonicalJSON with
  | error e => simp
  | ok b =>
    cases hexDecode p.Signature with
    | none => simp
    | some sig =>
      cases hv : c.verify pk b sig <;> simp [hv]

theorem Verify_Sign_iff (c : Primitives) (p sp : FarmProof) (sk : PrivateKey) (pk : PublicKey)
    (h : Sign c p sk = .ok sp) :
    Verify c sp pk = .ok () ↔
      ∃ b, p.CanonicalJSON = .ok b ∧ c.verify pk b (c.sign sk b) = true := by
  obtain ⟨b, hb, rfl⟩ := Sign_eq_ok c p sp sk h
  rw [Verify_ok_iff, CanonicalJSON_setSignature, hb]
  simp only [hexDecode_hexEncode]
  constructor
  · rintro ⟨b', sig, h1, h2, h3⟩
    injection h1 with h1
    injection h2 with h2
    subst h1 h2
    exact ⟨b, rfl, h3⟩
  · rintro ⟨b', h1, h3⟩
    injection h1 with h1
    subst h1
    exact ⟨b, _, rfl, rfl, h3⟩

theorem Verify_Sign (c : Primitives) (hc : c.Complete) (p sp : FarmProof) (sk : PrivateKey)
    (h : Sign c p sk = .ok sp) : Verify c sp (c.publicOf sk) = .ok () := by
  rw [Verify_Sign_iff c p sp sk _ h]
  obtain ⟨b, hb, _⟩ := Sign_eq_ok c p sp sk h
  exact ⟨b, hb, hc sk b⟩

/-! ## What `Chain` accepts -/

theorem chainLoop_some_cons (c : Primitives) (pk : PublicKey) (i : Nat) (q p : FarmProof)
    (rest : List FarmProof) :
    chainLoop c pk i (some q) (p :: rest) = .ok () ↔
      Verify c p pk = .ok () ∧ p.PrevProofID = q.ProofID ∧ q.Hash c = .ok p.PrevProofHash ∧
        chainLoop c pk (i + 1) (some p) rest = .ok () := by
  rw [chainLoop]
  cases hv : Verify c p pk with
  | error e => simp
  | ok u =>
    cases hh : q.Hash c with
    | error e => simp
    | ok prevHash =>
      by_cases h1 : p.PrevProofID = q.ProofID
      · by_cases h2 : p.PrevProofHash = prevHash
        · simp [h1, h2]
        · have h2' : ¬ prevHash = p.PrevProofHash := fun h => h2 h.symm
          simp [h1, h2, h2']
      · simp [h1]

theorem chainLoop_ok_iff (c : Primitives) (pk : PublicKey) :
    ∀ (ps : List FarmProof) (i : Nat) (q : FarmProof),
      chainLoop c pk i (some q) ps = .ok () ↔
        (∀ p ∈ ps, Verify c p pk = .ok ()) ∧
        (∀ j a b, (q :: ps)[j]? = some a → (q :: ps)[j + 1]? = some b →
          b.PrevProofID = a.ProofID ∧ a.Hash c = .ok b.PrevProofHash) := by
  intro ps
  induction ps with
  | nil =>
    intro i q
    simp [chainLoop]
  | cons p rest ih =>
    intro i q
    rw [chainLoop_some_cons, ih]
    constructor
    · rintro ⟨hv, h1, h2, hall, hlink⟩
      refine ⟨?_, ?_⟩
      · intro x hx
        rcases List.mem_cons.mp hx with rfl | hx
        · exact hv
        · exact hall x hx
      · intro j a b ha hb
        cases j with
        | zero =>
          simp only [List.getElem?_cons_zero, Option.some.injEq, zero_add,
            List.getElem?_cons_succ] at ha hb
          subst ha hb
          exact ⟨h1, h2⟩
        | succ j =>
          simp only [List.getElem?_cons_succ] at ha hb
          exact hlink j a b ha (by simpa using hb)
    · rintro ⟨hall, hlink⟩
      have h0 := hlink 0 q p (by simp) (by simp)
      refine ⟨hall p (List.mem_cons_self _ _), h0.1, h0.2, ?_, ?_⟩
      · intro x hx
        exact hall x (List.mem_cons_of_mem _ hx)
      · intro j a b ha hb
        exact hlink (j + 1) a b (by simpa using ha) (by simpa using hb)

theorem chainLoop_none_cons (c : Primitives) (pk : PublicKey) (i : Nat) (p : FarmProof)
    (rest : List FarmProof) :
    chainLoop c pk i none (p :: rest) = .ok () ↔
      Verify c p pk = .ok () ∧ chainLoop c pk (i + 1) (some p) rest = .ok () := by
  rw [chainLoop]
  cases hv : Verify c p pk with
  | error e => simp
  | ok u => simp

theorem Chain_ok_iff_links (c : Primitives) (pk : PublicKey) (ps : List FarmProof) :
    Chain c ps pk = .ok () ↔
      (∀ p ∈ ps, Verify c p pk = .ok ()) ∧
      (∀ j a b, ps[j]? = some a → ps[j + 1]? = some b →
        b.PrevProofID = a.ProofID ∧ a.Hash c = .ok b.PrevProofHash) := by
  unfold Chain
  cases ps with
  | nil => simp [chainLoop]
  | cons p rest =>
    rw [chainLoop_none_cons, chainLoop_ok_iff]
    constructor
    · rintro ⟨hv, hall, hlink⟩
      refine ⟨?_, hlink⟩
      intro x hx
      rcases List.mem_cons.mp hx with rfl | hx
      · exact hv
      · exact hall x hx
    · rintro ⟨hall, hlink⟩
      exact ⟨hall p (List.mem_cons_self _ _),
        fun x hx => hall x (List.mem_cons_of_mem _ hx), hlink⟩

/-! ## Decimal text determines the number -/

theorem decDigit_inj (a b : Nat) (ha : a < 10) (hb : b < 10) (h : decDigit a = decDigit b) :
    a = b := by
  have key : ∀ x : Fin 10, ∀ y : Fin 10, decDigit x.val = decDigit y.val → x = y := by decide
  have := key ⟨a, ha⟩ ⟨b, hb⟩ h
  exact congrArg Fin.val this

theorem decDigit_mem (a : Nat) : decDigit a ∈ "0123456789".data := by
  unfold decDigit
  split <;> decide

theorem decRev_ne_nil (f n : Nat) : decRev (f + 1) n ≠ [] := by
  simp [decRev]

theorem decRev_inj : ∀ (f g n m : Nat), n < f → m < g → decRev f n = decRev g m → n = m := by
  intro f
  induction f with
  | zero => intro g n m hn; omega
  | succ f ih =>
    intro g n m hn hm h
    cases g with
    | zero => omega
    | succ g =>
      simp only [decRev, List.cons.injEq] at h
      obtain ⟨hd, ht⟩ := h
      have hmod : n % 10 = m % 10 :=
        decDigit_inj _ _ (Nat.mod_lt _ (by decide)) (Nat.mod_lt _ (by decide)) hd
      by_cases h1 : n / 10 = 0
      · by_cases h2 : m / 10 = 0
        · omega
        · rw [if_pos h1, if_neg h2] at ht
          cases g with
          | zero => omega
          | succ g => exact absurd ht.symm (decRev_ne_nil g _)
      · by_cases h2 : m / 10 = 0
        · rw [if_neg h1, if_pos h2] at ht
          cases f with
          | zero => omega
          | succ f => exact absurd ht (decRev_ne_nil f _)
        · rw [if_neg h1, if_neg h2] at ht
          have := ih g (n / 10) (m / 10) (by omega) (by omega) ht
          omega

theorem decRev_mem : ∀ (f n : Nat) (ch : Char), ch ∈ decRev f n → ch ∈ "0123456789".data := by
  intro f
  induction f with
  | zero => intro n ch h; simp [decRev] at h
  | succ f ih =>
    intro n ch h
    simp only [decRev, List.mem_cons] at h
    rcases h with rfl | h
    · exact decDigit_mem _
    · by_cases h1 : n / 10 = 0
      · rw [if_pos h1] at h; cases h
      · rw [if_neg h1] at h; exact ih _ _ h

theorem natDec_inj (n m : Nat) (h : natDec n = natDec m) : n = m := by
  unfold natDec at h
  exact decRev_inj _ _ n m (by omega) (by omega) (List.reverse_injective h)

theorem natDec_mem (n : Nat) (ch : Char) (h : ch ∈ natDec n) : ch ∈ "0123456789".data := by
  unfold natDec at h
  exact decRev_mem _ _ _ (List.mem_reverse.mp h)

theorem natDec_ne_nil (n : Nat) : natDec n ≠ [] := by
  unfold natDec
  simp [decRev]

theorem intDec_mem (i : Int) (ch : Char) (h : ch ∈ intDec i) : ch ∈ "-0123456789".data := by
  unfold intDec at h
  have sub : ∀ x, x ∈ "0123456789".data → x ∈ "-0123456789".data := by
    intro x hx
    exact List.mem_cons_of_mem _ hx
  split at h
  · rcases List.mem_cons.mp h with rfl | h
    · decide
    · exact sub _ (natDec_mem _ _ h)
  · exact sub _ (natDec_mem _ _ h)

theorem intDec_inj (i j : Int) (h : intDec i = intDec j) : i = j := by
  unfold intDec at h
  have hd : ∀ n l, natDec n ≠ '-' :: l := by
    intro n l hc
    have : '-' ∈ natDec n := by rw [hc]; exact List.mem_cons_self _ _
    have := natDec_mem n _ this
    revert this
    decide
  by_cases hi : i < 0
  · by_cases hj : j < 0
    · rw [if_pos hi, if_pos hj] at h
      have := natDec_inj _ _ (List.cons.inj h).2
      omega
    · rw [if_pos hi, if_neg hj] at h
      exact absurd h.symm (hd _ _)
  · by_cases hj : j < 0
    · rw [if_neg hi, if_pos hj] at h
      exact absurd h (hd _ _)
    · rw [if_neg hi, if_neg hj] at h
      have := natDec_inj _ _ h
      omega

/-! ## Splitting a text at the end of a run of characters -/

theorem run_split (P : Char → Prop) :
    ∀ (xs ys r1 r2 : List Char), (∀ ch ∈ xs, P ch) → (∀ ch ∈ ys, P ch) →
      (∀ ch, r1.head? = some ch → ¬ P ch) → (∀ ch, r2.head? = some ch → ¬ P ch) →
      r1 ≠ [] → r2 ≠ [] → xs ++ r1 = ys ++ r2 → xs = ys ∧ r1 = r2 := by
  intro xs
  induction xs with
  | nil =>
    intro ys r1 r2 _ hy h1 _ hn1 _ h
    cases ys with
    | nil => exact ⟨rfl, h⟩
    | cons y ys =>
      simp only [List.nil_append, List.cons_append] at h
      subst h
      exact absurd (hy y (List.mem_cons_self _ _)) (h1 y rfl)
  | cons x xs ih =>
    intro ys r1 r2 hx hy h1 h2 hn1 hn2 h
    cases ys with
    | nil =>
      simp only [List.nil_append, List.cons_append] at h
      subst h
      exact absurd (hx x (List.mem_cons_self _ _)) (h2 x rfl)
    | cons y ys =>
      simp only [List.cons_append, List.cons.injEq] at h
      obtain ⟨rfl, h⟩ := h
      obtain ⟨h3, h4⟩ := ih ys r1 r2 (fun ch hc => hx ch (List.mem_cons_of_mem _ hc))
        (fun ch hc => hy ch (List.mem_cons_of_mem _ hc)) h1 h2 hn1 hn2 h
      exact ⟨by rw [h3], h4⟩

/-- An integer followed by a text that starts with a character that is
neither a digit nor a minus sign determines the integer and the text. -/
theorem intDec_split (i j : Int) (r1 r2 : List Char)
    (h1 : ∃ ch t, r1 = ch :: t ∧ ch ∉ "-0123456789".data)
    (h2 : ∃ ch t, r2 = ch :: t ∧ ch ∉ "-0123456789".data)
    (h : intDec i ++ r1 = intDec j ++ r2) : i = j ∧ r1 = r2 := by
  obtain ⟨c1, t1, rfl, hc1⟩ := h1
  obtain ⟨c2, t2, rfl, hc2⟩ := h2
  have := run_split (fun ch => ch ∈ "-0123456789".data) (intDec i) (intDec j) (c1 :: t1)
    (c2 :: t2) (intDec_mem i) (intDec_mem j)
    (by intro ch hch; simp only [List.head?_cons, Option.some.injEq] at hch; subst hch; exact hc1)
    (by intro ch hch; simp only [List.head?_cons, Option.some.injEq] at hch; subst hch; exact hc2)
    (by simp) (by simp) h
  exact ⟨intDec_inj _ _ this.1, this.2⟩

theorem jsonBool_split (a b : Bool) (r1 r2 : List Char)
    (h : jsonBool a ++ r1 = jsonBool b ++ r2) : a = b ∧ r1 = r2 := by
  cases a <;> cases b <;> simp_all [jsonBool]

/-! ## A JSON string determines its value -/

theorem fromHexChar_hexDigit_lt (n : Nat) (h : n < 16) :
    fromHexChar (hexDigit n) = some ⟨n, h⟩ :=
  fromHexChar_hexDigit ⟨n, h⟩

theorem Char_eq_of_toNat_eq (a b : Char) (h : a.toNat = b.toNat) : a = b := by
  apply Char.ext
  apply UInt32.ext
  exact h

theorem unescHead_escChar (ch : Char) (r : List Char) :
    unescHead (escChar ch ++ r) = some (ch.toNat, r) := by
  unfold escChar
  split
  · next h => subst h; rfl
  split
  · next h => subst h; rfl
  split
  · next h => subst h; rfl
  split
  · next h => subst h; rfl
  split
  · next h => subst h; rfl
  split
  · next h => subst h; rfl
  split
  · next h => subst h; rfl
  split
  · next h =>
    have hlt : ch.toNat < 256 := by
      rcases h with h | h | h | h
      · omega
      · subst h; decide
      · subst h; decide
      · subst h; decide
    have h1 := fromHexChar_hexDigit_lt (ch.toNat / 16) (by omega)
    have h2 := fromHexChar_hexDigit_lt (ch.toNat % 16) (by omega)
    have h0 : fromHexChar '0' = some 0 := by decide
    simp only [List.cons_append, List.nil_append, unescHead, unescEscape, h0, h1, h2]
    simp only [if_true, Option.some.injEq, Prod.mk.injEq, and_true]
    show ((0 * 16 + 0) * 16 + ch.toNat / 16) * 16 + ch.toNat % 16 = ch.toNat
    omega
  split
  · next h => rw [h]; rfl
  split
  · next h => rw [h]; rfl
  · next h1 h2 _ _ _ _ _ _ _ _ =>
    show unescHead (ch :: r) = some (ch.toNat, r)
    rw [unescHead, if_neg h2]

theorem escChar_head (ch : Char) : ∃ h t, escChar ch = h :: t ∧ h ≠ '"' := by
  have key : ∀ x, escChar ch = x → ∃ h t, x = h :: t ∧ h ≠ '"' := by
    intro x hx
    rw [escChar] at hx
    split at hx
    · exact ⟨_, _, hx.symm, by decide⟩
    split at hx
    · exact ⟨_, _, hx.symm, by decide⟩
    split at hx
    · exact ⟨_, _, hx.symm, by decide⟩
    split at hx
    · exact ⟨_, _, hx.symm, by decide⟩
    split at hx
    · exact ⟨_, _, hx.symm, by decide⟩
    split at hx
    · exact ⟨_, _, hx.symm, by decide⟩
    split at hx
    · exact ⟨_, _, hx.symm, by decide⟩
    split at hx
    · exact ⟨_, _, hx.symm, by decide⟩
    split at hx
    · exact ⟨_, _, hx.symm, by decide⟩
    split at hx
    · exact ⟨_, _, hx.symm, by decide⟩
    · next h1 _ _ _ _ _ _ _ _ _ => exact ⟨_, _, hx.symm, h1⟩
  exact key _ rfl

theorem escChars_split :
    ∀ (s t r1 r2 : List Char), escChars s ++ '"' :: r1 = escChars t ++ '"' :: r2 →
      s = t ∧ r1 = r2 := by
  intro s
  induction s with
  | nil =>
    intro t r1 r2 h
    cases t with
    | nil => simpa [escChars] using h
    | cons d t =>
      obtain ⟨hd, tl, he, hne⟩ := escChar_head d
      simp only [escChars, List.nil_append, he, List.cons_append, List.append_assoc,
        List.cons.injEq] at h
      exact absurd h.1.symm hne
  | cons ch s ih =>
    intro t r1 r2 h
    cases t with
    | nil =>
      obtain ⟨hd, tl, he, hne⟩ := escChar_head ch
      simp only [escChars, List.nil_append, he, List.cons_append, List.append_assoc,
        List.cons.injEq] at h
      exact absurd h.1 hne
    | cons d t =>
      simp only [escChars, List.append_assoc] at h
      have h' := congrArg unescHead h
      rw [unescHead_escChar, unescHead_escChar] at h'
      simp only [Option.some.injEq, Prod.mk.injEq] at h'
      obtain ⟨hc, hr⟩ := h'
      have := Char_eq_of_toNat_eq _ _ hc
      subst this
      obtain ⟨h3, h4⟩ := ih t r1 r2 hr
      exact ⟨by rw [h3], h4⟩

theorem jsonString_split (a b : String) (r1 r2 : List Char)
    (h : jsonString a ++ r1 = jsonString b ++ r2) : a = b ∧ r1 = r2 := by
  unfold jsonString at h
  simp only [List.cons_append, List.append_assoc, List.nil_append, List.cons.injEq,
    true_and] at h
  obtain ⟨h1, h2⟩ := escChars_split _ _ _ _ h
  exact ⟨String.ext h1, h2⟩


/-! ## An RFC 3339 text determines the instant -/

theorem map_decDigit_inj : ∀ (l l' : List Nat), (∀ x ∈ l, x < 10) → (∀ x ∈ l', x < 10) →
    l.map decDigit = l'.map decDigit → l = l' := by
  intro l
  induction l with
  | nil =>
    intro l' _ _ h
    cases l' with
    | nil => rfl
    | cons y ys => simp at h
  | cons x xs ih =>
    intro l' hl hl' h
    cases l' with
    | nil => simp at h
    | cons y ys =>
      simp only [List.map_cons, List.cons.injEq] at h
      have hxy := decDigit_inj x y (hl x (List.mem_cons_self _ _))
        (hl' y (List.mem_cons_self _ _)) h.1
      have := ih ys (fun z hz => hl z (List.mem_cons_of_mem _ hz))
        (fun z hz => hl' z (List.mem_cons_of_mem _ hz)) h.2
      rw [hxy, this]

theorem reverse_eq_zeros_append_strip (l : List Nat) :
    l.reverse = List.replicate (l.length - (stripZeros l).length) 0 ++ (stripZeros l).reverse := by
  have h := List.takeWhile_append_dropWhile (fun d => d == 0) l.reverse
  have hz : l.reverse.takeWhile (fun d => d == 0)
      = List.replicate (l.reverse.takeWhile (fun d => d == 0)).length 0 := by
    rw [List.eq_replicate_iff]
    refine ⟨rfl, ?_⟩
    intro b hb
    have := List.mem_takeWhile_imp hb
    simpa using this
  have hlen : l.length = (l.reverse.takeWhile (fun d => d == 0)).length
      + (l.reverse.dropWhile (fun d => d == 0)).length := by
    have := congrArg List.length h
    simp only [List.length_append, List.length_reverse] at this
    omega
  unfold stripZeros
  simp only [List.reverse_reverse, List.length_reverse]
  rw [hlen, Nat.add_sub_cancel, ← hz]
  exact h.symm

theorem stripZeros_inj (l l' : List Nat) (hlen : l.length = l'.length)
    (h : stripZeros l = stripZeros l') : l = l' := by
  have h1 := reverse_eq_zeros_append_strip l
  have h2 := reverse_eq_zeros_append_strip l'
  rw [h, hlen] at h1
  exact List.reverse_injective (h1.trans h2.symm)

theorem stripZeros_mem (l : List Nat) (x : Nat) (h : x ∈ stripZeros l) : x ∈ l := by
  unfold stripZeros at h
  have := (List.dropWhile_sublist (fun d => d == 0)).subset (List.mem_reverse.mp h)
  exact List.mem_reverse.mp this

theorem nanoDigits_lt (n x : Nat) (h : x ∈ nanoDigits n) : x < 10 := by
  simp only [nanoDigits, List.mem_cons, List.mem_singleton, List.not_mem_nil, or_false] at h
  omega

theorem nanoDigits_inj (n m : Nat) (hn : n < 1000000000) (hm : m < 1000000000)
    (h : nanoDigits n = nanoDigits m) : n = m := by
  simp only [nanoDigits, List.cons.injEq, and_true] at h
  omega

theorem formatFrac_inj (n m : Nat) (hn : n < 1000000000) (hm : m < 1000000000)
    (h : formatFrac n = formatFrac m) : n = m := by
  unfold formatFrac at h
  by_cases h1 : n = 0
  · by_cases h2 : m = 0
    · omega
    · rw [if_pos h1, if_neg h2] at h; cases h
  · by_cases h2 : m = 0
    · rw [if_neg h1, if_pos h2] at h; cases h
    · rw [if_neg h1, if_neg h2] at h
      have h3 := map_decDigit_inj _ _
        (fun x hx => nanoDigits_lt n x (stripZeros_mem _ _ hx))
        (fun x hx => nanoDigits_lt m x (stripZeros_mem _ _ hx)) (List.cons.inj h).2
      exact nanoDigits_inj n m hn hm (stripZeros_inj _ _ rfl h3)

theorem formatFrac_mem (n : Nat) (ch : Char) (h : ch ∈ formatFrac n) :
    ch ∈ ".0123456789".data := by
  unfold formatFrac at h
  split at h
  · cases h
  · rcases List.mem_cons.mp h with rfl | h
    · decide
    · obtain ⟨d, _, rfl⟩ := List.mem_map.mp h
      exact List.mem_cons_of_mem _ (decDigit_mem d)

theorem formatFrac_split (n m : Nat) (hn : n < 1000000000) (hm : m < 1000000000)
    (r1 r2 : List Char) (h : formatFrac n ++ 'Z' :: r1 = formatFrac m ++ 'Z' :: r2) :
    n = m ∧ r1 = r2 := by
  have := run_split (fun ch => ch ∈ ".0123456789".data) (formatFrac n) (formatFrac m)
    ('Z' :: r1) ('Z' :: r2) (formatFrac_mem n) (formatFrac_mem m)
    (by intro ch hch; simp only [List.head?_cons, Option.some.injEq] at hch; subst hch; decide)
    (by intro ch hch; simp only [List.head?_cons, Option.some.injEq] at hch; subst hch; decide)
    (by simp) (by simp) h
  exact ⟨formatFrac_inj n m hn hm this.1, (List.cons.inj this.2).2⟩

theorem pad2_split (n m : Nat) (hn : n < 100) (hm : m < 100) (r1 r2 : List Char)
    (h : pad2 n ++ r1 = pad2 m ++ r2) : n = m ∧ r1 = r2 := by
  simp only [pad2, List.cons_append, List.nil_append, List.cons.injEq] at h
  obtain ⟨h1, h2, h3⟩ := h
  have a := decDigit_inj _ _ (Nat.mod_lt _ (by decide)) (Nat.mod_lt _ (by decide)) h1
  have b := decDigit_inj _ _ (Nat.mod_lt _ (by decide)) (Nat.mod_lt _ (by decide)) h2
  exact ⟨by omega, h3⟩

theorem pad4_split (n m : Nat) (hn : n < 10000) (hm : m < 10000) (r1 r2 : List Char)
    (h : pad4 n ++ r1 = pad4 m ++ r2) : n = m ∧ r1 = r2 := by
  simp only [pad4, List.cons_append, List.nil_append, List.cons.injEq] at h
  obtain ⟨h1, h2, h3, h4, h5⟩ := h
  have a := decDigit_inj _ _ (Nat.mod_lt _ (by decide)) (Nat.mod_lt _ (by decide)) h1
  have b := decDigit_inj _ _ (Nat.mod_lt _ (by decide)) (Nat.mod_lt _ (by decide)) h2
  have c := decDigit_inj _ _ (Nat.mod_lt _ (by decide)) (Nat.mod_lt _ (by decide)) h3
  have d := decDigit_inj _ _ (Nat.mod_lt _ (by decide)) (Nat.mod_lt _ (by decide)) h4
  exact ⟨by omega, h5⟩

theorem Time_marshalJSON_split (t t' : Time) (ts ts' r1 r2 : List Char)
    (h1 : t.marshalJSON = some ts) (h2 : t'.marshalJSON = some ts')
    (h : ts ++ r1 = ts' ++ r2) : t = t' ∧ r1 = r2 := by
  unfold Time.marshalJSON at h1 h2
  split at h1
  · next hy =>
    split at h2
    · next hy' =>
      injection h1 with h1
      injection h2 with h2
      subst h1 h2
      obtain ⟨y, mo, d, hh, mi, s, n⟩ := t
      obtain ⟨y', mo', d', hh', mi', s', n'⟩ := t'
      simp only [formatRFC3339, List.cons_append, List.append_assoc, List.nil_append,
        List.cons.injEq, true_and] at h
      simp only at hy hy'
      obtain ⟨e1, h⟩ := pad4_split _ _ (by omega) (by omega) _ _ h
      obtain ⟨e2, h⟩ := pad2_split _ _ (by omega) (by omega) _ _ (List.cons.inj h).2
      obtain ⟨e3, h⟩ := pad2_split _ _ (by omega) (by omega) _ _ (List.cons.inj h).2
      obtain ⟨e4, h⟩ := pad2_split _ _ (by omega) (by omega) _ _ (List.cons.inj h).2
      obtain ⟨e5, h⟩ := pad2_split _ _ (by omega) (by omega) _ _ (List.cons.inj h).2
      obtain ⟨e6, h⟩ := pad2_split _ _ (by omega) (by omega) _ _ (List.cons.inj h).2
      obtain ⟨e7, h⟩ := formatFrac_split _ _ n.isLt n'.isLt _ _ h
      refine ⟨?_, (List.cons.inj h).2⟩
      have ey : y = y' := by omega
      have emo : mo = mo' := Fin.ext (by omega)
      have ed : d = d' := Fin.ext (by omega)
      have ehh : hh = hh' := Fin.ext e4
      have emi : mi = mi' := Fin.ext e5
      have es : s = s' := Fin.ext e6
      have en : n = n' := Fin.ext e7
      subst ey emo ed ehh emi es en
      rfl
    · cases h2
  · cases h1

/-! ## A JSON object of the proof model determines the value -/

theorem append_ne_of_take_ne (k k' x r : List Char) (m : Nat) (h1 : m ≤ k.length)
    (h2 : m ≤ k'.length) (hne : k.take m ≠ k'.take m) : k ++ x ≠ k' ++ r := by
  intro h
  have := congrArg (List.take m) h
  rw [List.take_append_of_le_length h1, List.take_append_of_le_length h2] at this
  exact hne this

theorem omitEmpty_split (k : List Char) (a b : String) (t1 t2 : List Char)
    (h1 : ∀ x, k ++ x ≠ t1) (h2 : ∀ x, k ++ x ≠ t2)
    (h : omitEmpty k a ++ t1 = omitEmpty k b ++ t2) : a = b ∧ t1 = t2 := by
  unfold omitEmpty at h
  by_cases ha : a = ""
  · by_cases hb : b = ""
    · rw [if_pos ha, if_pos hb] at h
      exact ⟨ha.trans hb.symm, h⟩
    · rw [if_pos ha, if_neg hb, List.nil_append, List.append_assoc] at h
      exact absurd h.symm (h1 _)
  · by_cases hb : b = ""
    · rw [if_neg ha, if_pos hb, List.nil_append, List.append_assoc] at h
      exact absurd h (h2 _)
    · rw [if_neg ha, if_neg hb, List.append_assoc, List.append_assoc] at h
      exact jsonString_split _ _ _ _ (List.append_cancel_left h)

theorem intDec_split_lit (k : List Char) (hk : ∃ ch t, k = ch :: t ∧ ch ∉ "-0123456789".data)
    (i j : Int) (r1 r2 : List Char) (h : intDec i ++ (k ++ r1) = intDec j ++ (k ++ r2)) :
    i = j ∧ r1 = r2 := by
  obtain ⟨ch, t, rfl, hch⟩ := hk
  obtain ⟨e, h⟩ := intDec_split i j _ _ ⟨ch, t ++ r1, rfl, hch⟩ ⟨ch, t ++ r2, rfl, hch⟩ h
  exact ⟨e, List.append_cancel_left (List.cons.inj h).2⟩

theorem AgentInfo_marshalJSON_split (a b : AgentInfo) (r1 r2 : List Char)
    (h : a.marshalJSON ++ r1 = b.marshalJSON ++ r2) : a = b ∧ r1 = r2 := by
  unfold AgentInfo.marshalJSON at h
  simp only [List.append_assoc] at h
  obtain ⟨e1, h⟩ := jsonString_split _ _ _ _ (List.append_cancel_left h)
  obtain ⟨e2, h⟩ := jsonString_split _ _ _ _ (List.append_cancel_left h)
  refine ⟨?_, List.append_cancel_left h⟩
  cases a; cases b; simp_all

theorem ActorInfo_marshalJSON_split (a b : ActorInfo) (r1 r2 : List Char)
    (h : a.marshalJSON ++ r1 = b.marshalJSON ++ r2) : a = b ∧ r1 = r2 := by
  unfold ActorInfo.marshalJSON at h
  simp only [List.append_assoc] at h
  obtain ⟨e1, h⟩ := jsonString_split _ _ _ _ (List.append_cancel_left h)
  obtain ⟨e2, h⟩ := jsonString_split _ _ _ _ (List.append_cancel_left h)
  refine ⟨?_, List.append_cancel_left h⟩
  cases a; cases b; simp_all

theorem ActionInfo_marshalJSON_split (a b : ActionInfo) (r1 r2 : List Char)
    (h : a.marshalJSON ++ r1 = b.marshalJSON ++ r2) : a = b ∧ r1 = r2 := by
  unfold ActionInfo.marshalJSON at h
  simp only [List.append_assoc] at h
  obtain ⟨e1, h⟩ := jsonString_split _ _ _ _ (List.append_cancel_left h)
  obtain ⟨e2, h⟩ := jsonString_split _ _ _ _ (List.append_cancel_left h)
  obtain ⟨e3, h⟩ := jsonString_split _ _ _ _ (List.append_cancel_left h)
  have hk : ∀ x r, ",\"subcategory\":".data ++ x ≠ ",\"description\":".data ++ r :=
    fun x r => append_ne_of_take_ne _ _ x r 3 (by decide) (by decide) (by decide)
  obtain ⟨e4, h⟩ := omitEmpty_split _ _ _ _ _ (fun x => hk x _) (fun x => hk x _) h
  obtain ⟨e5, h⟩ := jsonString_split _ _ _ _ (List.append_cancel_left h)
  refine ⟨?_, List.append_cancel_left h⟩
  cases a; cases b; simp_all

theorem OutcomeInfo_marshalJSON_split (a b : OutcomeInfo) (r1 r2 : List Char)
    (h : a.marshalJSON ++ r1 = b.marshalJSON ++ r2) : a = b ∧ r1 = r2 := by
  unfold OutcomeInfo.marshalJSON at h
  simp only [List.append_assoc] at h
  obtain ⟨e1, h⟩ := jsonString_split _ _ _ _ (List.append_cancel_left h)
  obtain ⟨e2, h⟩ := jsonBool_split _ _ _ _ (List.append_cancel_left h)
  obtain ⟨e3, h⟩ := jsonString_split _ _ _ _ (List.append_cancel_left h)
  refine ⟨?_, List.append_cancel_left h⟩
  cases a; cases b; simp_all

theorem ScoringHints_marshalJSON_split (a b : ScoringHints) (r1 r2 : List Char)
    (h : a.marshalJSON ++ r1 = b.marshalJSON ++ r2) : a = b ∧ r1 = r2 := by
  unfold ScoringHints.marshalJSON at h
  simp only [List.append_assoc] at h
  obtain ⟨e1, h⟩ := jsonString_split _ _ _ _ (List.append_cancel_left h)
  obtain ⟨e2, h⟩ := intDec_split_lit _ ⟨_, _, rfl, by decide⟩ _ _ _ _
    (List.append_cancel_left h)
  obtain ⟨e3, h⟩ := intDec_split_lit _ ⟨_, _, rfl, by decide⟩ _ _ _ _ h
  obtain ⟨e4, h⟩ := intDec_split_lit _ ⟨_, _, rfl, by decide⟩ _ _ _ _ h
  refine ⟨?_, h⟩
  cases a; cases b; simp_all

theorem key_ne_omitEmpty (k k2 k3 : List Char)
    (h2 : ∀ x r, k ++ x ≠ k2 ++ r) (h3 : ∀ x r, k ++ x ≠ k3 ++ r) (v : String)
    (x r : List Char) : k ++ x ≠ omitEmpty k2 v ++ (k3 ++ r) := by
  unfold omitEmpty
  split
  · exact h3 x r
  · rw [List.append_assoc]; exact h2 x _

/-- `json.Marshal` is injective on proofs: the text determines every field. -/
theorem FarmProof_marshalJSON_inj (p q : FarmProof) (b : List Char)
    (hp : p.marshalJSON = some b) (hq : q.marshalJSON = some b) : p = q := by
  unfold FarmProof.marshalJSON at hp hq
  cases htp : p.Timestamp.marshalJSON with
  | none => rw [htp] at hp; cases hp
  | some ts =>
    cases htq : q.Timestamp.marshalJSON with
    | none => rw [htq] at hq; cases hq
    | some ts' =>
      rw [htp] at hp
      rw [htq] at hq
      simp only [Option.some.injEq] at hp hq
      have h := hp.trans hq.symm
      simp only [List.append_assoc] at h
      have k12 : ∀ x r, ",\"prev_proof_id\":".data ++ x ≠ ",\"prev_proof_hash\":".data ++ r :=
        fun x r => append_ne_of_take_ne _ _ x r 14 (by decide) (by decide) (by decide)
      have k13 : ∀ x r, ",\"prev_proof_id\":".data ++ x ≠ ",\"timestamp\":".data ++ r :=
        fun x r => append_ne_of_take_ne _ _ x r 3 (by decide) (by decide) (by decide)
      have k23 : ∀ x r, ",\"prev_proof_hash\":".data ++ x ≠ ",\"timestamp\":".data ++ r :=
        fun x r => append_ne_of_take_ne _ _ x r 3 (by decide) (by decide) (by decide)
      obtain ⟨e1, h⟩ := jsonString_split _ _ _ _ (List.append_cancel_left h)
      obtain ⟨e2, h⟩ := jsonString_split _ _ _ _ (List.append_cancel_left h)
      obtain ⟨e3, h⟩ := omitEmpty_split _ _ _ _ _
        (fun x => key_ne_omitEmpty _ _ _ k12 k13 _ x _)
        (fun x => key_ne_omitEmpty _ _ _ k12 k13 _ x _) h
      obtain ⟨e4, h⟩ := omitEmpty_split _ _ _ _ _ (fun x => k23 x _) (fun x => k23 x _) h
      obtain ⟨e5, h⟩ := Time_marshalJSON_split _ _ _ _ _ _ htp htq (List.append_cancel_left h)
      obtain ⟨e6, h⟩ := AgentInfo_marshalJSON_split _ _ _ _ (List.append_cancel_left h)
      obtain ⟨e7, h⟩ := ActorInfo_marshalJSON_split _ _ _ _ (List.append_cancel_left h)
      obtain ⟨e8, h⟩ := ActionInfo_marshalJSON_split _ _ _ _ (List.append_cancel_left h)
      obtain ⟨e9, h⟩ := OutcomeInfo_marshalJSON_split _ _ _ _ (List.append_cancel_left h)
      obtain ⟨e10, h⟩ := ScoringHints_marshalJSON_split _ _ _ _ (List.append_cancel_left h)
      obtain ⟨e11, h⟩ := jsonString_split _ _ _ _ (List.append_cancel_left h)
      cases p; cases q; simp_all

/-- Two proofs with the same canonical payload agree on every field other
than the signature. -/
theorem CanonicalJSON_inj (p q : FarmProof) (b : List Char)
    (hp : p.CanonicalJSON = .ok b) (hq : q.CanonicalJSON = .ok b) :
    ({ p with Signature := "" } : FarmProof) = { q with Signature := "" } := by
  unfold FarmProof.CanonicalJSON at hp hq
  simp only at hp hq
  split at hp
  · cases hp
  · next b1 h1 =>
    split at hq
    · cases hq
    · next b2 h2 =>
      injection hp with hp
      injection hq with hq
      subst hp hq
      exact FarmProof_marshalJSON_inj _ _ _ h1 h2

/-! ## Hashes and signatures are bound to the signed content -/

theorem Except_ok_or_error {ε : Type} (x : Except ε Unit) : x = .ok () ∨ ∃ e, x = .error e := by
  cases x with
  | ok u => exact Or.inl rfl
  | error e => exact Or.inr ⟨e, rfl⟩

theorem Hash_eq_ok (c : Primitives) (p : FarmProof) (h : String) (hh : p.Hash c = .ok h) :
    ∃ b, p.CanonicalJSON = .ok b ∧ h = hexEncode (c.sha256 b) := by
  unfold FarmProof.Hash at hh
  cases hb : p.CanonicalJSON with
  | error e => rw [hb] at hh; cases hh
  | ok b =>
    rw [hb] at hh
    injection hh with hh
    exact ⟨b, rfl, hh.symm⟩

/-- Two proofs with the same recomputed hash have the same signed content,
unless SHA-256 collides on their payloads. -/
theorem cleared_eq_of_Hash_eq (c : Primitives) (p q : FarmProof) (h : String)
    (hp : p.Hash c = .ok h) (hq : q.Hash c = .ok h)
    (hsha : ∀ b b', p.CanonicalJSON = .ok b → q.CanonicalJSON = .ok b' → b ≠ b' →
      c.sha256 b ≠ c.sha256 b') :
    ({ p with Signature := "" } : FarmProof) = { q with Signature := "" } := by
  obtain ⟨b, hb, e1⟩ := Hash_eq_ok c p h hp
  obtain ⟨b', hb', e2⟩ := Hash_eq_ok c q h hq
  have hs : c.sha256 b = c.sha256 b' := hexEncode_injective (e1.symm.trans e2)
  have hbb : b = b' := by
    by_contra hne
    exact hsha b b' hb hb' hne hs
  subst hbb
  exact CanonicalJSON_inj p q b hb hb'

theorem Verify_fails_of_changed (c : Primitives) (hbind : c.MessageBinding) (pk : PublicKey)
    (p q : FarmProof) (hv : Verify c p pk = .ok ())
    (hsig : hexDecode q.Signature = hexDecode p.Signature)
    (hdiff : ({ q with Signature := "" } : FarmProof) ≠ { p with Signature := "" }) :
    ∃ cause, Verify c q pk = .error cause := by
  cases hq : Verify c q pk with
  | error cause => exact ⟨cause, rfl⟩
  | ok u =>
    exfalso
    obtain ⟨b, sig, hb, hs, hver⟩ := (Verify_ok_iff c p pk).mp hv
    obtain ⟨b', sig', hb', hs', hver'⟩ := (Verify_ok_iff c q pk).mp hq
    rw [hsig, hs] at hs'
    injection hs' with hs'
    subst hs'
    have := hbind pk b b' sig hver hver'
    subst this
    exact hdiff (CanonicalJSON_inj q p b hb' hb)

theorem Verify_changed_signatureInvalid (c : Primitives) (hbind : c.MessageBinding)
    (pk : PublicKey) (p q : FarmProof) (hv : Verify c p pk = .ok ())
    (hsig : hexDecode q.Signature = hexDecode p.Signature)
    (hdiff : ({ q with Signature := "" } : FarmProof) ≠ { p with Signature := "" })
    (hts : q.Timestamp.marshals = true) : Verify c q pk = .error .signatureInvalid := by
  obtain ⟨cause, hc⟩ := Verify_fails_of_changed c hbind pk p q hv hsig hdiff
  obtain ⟨b, sig, _, hs, _⟩ := (Verify_ok_iff c p pk).mp hv
  obtain ⟨b', hb'⟩ := (CanonicalJSON_ok_iff q).mpr hts
  rw [hc]
  unfold Verify at hc
  rw [hb', hsig, hs] at hc
  simp only at hc
  split at hc
  · exact hc.symm
  · cases hc

theorem Hash_ok_of_marshals (c : Primitives) (q : FarmProof) (h : q.Timestamp.marshals = true) :
    ∃ hq, q.Hash c = .ok hq := by
  obtain ⟨b, hb⟩ := (CanonicalJSON_ok_iff q).mpr h
  exact ⟨hexEncode (c.sha256 b), by unfold FarmProof.Hash; rw [hb]⟩

theorem Verify_ok_marshals (c : Primitives) (p : FarmProof) (pk : PublicKey)
    (h : Verify c p pk = .ok ()) : p.Timestamp.marshals = true := by
  obtain ⟨b, _, hb, _, _⟩ := (Verify_ok_iff c p pk).mp h
  exact (CanonicalJSON_ok_iff p).mp ⟨b, hb⟩

/-! ## Where `Chain` fails on a tampered list -/

theorem chainLoop_step (c : Primitives) (pk : PublicKey) (i : Nat) (prev : Option FarmProof)
    (p : FarmProof) (rest rest' : List FarmProof)
    (h : chainLoop c pk i prev (p :: rest) = .ok ()) :
    chainLoop c pk i prev (p :: rest') = chainLoop c pk (i + 1) (some p) rest' := by
  cases prev with
  | none =>
    have hv := ((chainLoop_none_cons c pk i p rest).mp h).1
    rw [chainLoop, hv]
  | some q =>
    obtain ⟨hv, h1, h2, _⟩ := (chainLoop_some_cons c pk i q p rest).mp h
    rw [chainLoop, hv]
    simp only [h2, h1, ne_eq, not_true_eq_false, if_false]

theorem chainLoop_head_verify (c : Primitives) (pk : PublicKey) (i : Nat)
    (prev : Option FarmProof) (p : FarmProof) (rest : List FarmProof)
    (h : chainLoop c pk i prev (p :: rest) = .ok ()) : Verify c p pk = .ok () := by
  cases prev with
  | none => exact ((chainLoop_none_cons c pk i p rest).mp h).1
  | some q => exact ((chainLoop_some_cons c pk i q p rest).mp h).1

theorem chainLoop_tail (c : Primitives) (pk : PublicKey) (i : Nat)
    (prev : Option FarmProof) (p : FarmProof) (rest : List FarmProof)
    (h : chainLoop c pk i prev (p :: rest) = .ok ()) :
    chainLoop c pk (i + 1) (some p) rest = .ok () := by
  cases prev with
  | none => exact ((chainLoop_none_cons c pk i p rest).mp h).2
  | some q => exact ((chainLoop_some_cons c pk i q p rest).mp h).2.2.2

theorem chainLoop_set_invalid (c : Primitives) (pk : PublicKey) (tampered : FarmProof)
    (cause : VerifyError) (hv : Verify c tampered pk = .error cause) :
    ∀ (ps : List FarmProof) (i : Nat) (prev : Option FarmProof) (k : Nat),
      chainLoop c pk i prev ps = .ok () → k < ps.length →
      chainLoop c pk i prev (ps.set k tampered)
        = .error (.invalidSignature (i + k) tampered.ProofID cause) := by
  intro ps
  induction ps with
  | nil => intro i prev k _ hk; simp at hk
  | cons p rest ih =>
    intro i prev k h hk
    cases k with
    | zero =>
      show chainLoop c pk i prev (tampered :: rest) = _
      cases prev <;> rw [chainLoop, hv] <;> rfl
    | succ k =>
      show chainLoop c pk i prev (p :: rest.set k tampered) = _
      rw [chainLoop_step c pk i prev p rest _ h,
        ih (i + 1) (some p) k (chainLoop_tail c pk i prev p rest h)
          (by simp only [List.length_cons] at hk; omega)]
      have e : i + 1 + k = i + (k + 1) := by omega
      rw [e]

theorem chainLoop_relink (c : Primitives) (pk : PublicKey) (i : Nat) (prev : Option FarmProof)
    (p t : FarmProof) (rest rest' : List FarmProof)
    (h : chainLoop c pk i prev (p :: rest) = .ok ())
    (hv : Verify c t pk = .ok ()) (h1 : t.PrevProofID = p.PrevProofID)
    (h2 : t.PrevProofHash = p.PrevProofHash) :
    chainLoop c pk i prev (t :: rest') = chainLoop c pk (i + 1) (some t) rest' := by
  cases prev with
  | none => rw [chainLoop, hv]
  | some q =>
    obtain ⟨_, e1, e2, _⟩ := (chainLoop_some_cons c pk i q p rest).mp h
    rw [chainLoop, hv]
    simp only [e2, h1, h2, e1, ne_eq, not_true_eq_false, if_false]

theorem chainLoop_set_linkage (c : Primitives) (pk : PublicKey) (tampered : FarmProof)
    (hv : Verify c tampered pk = .ok ()) :
    ∀ (ps : List FarmProof) (i : Nat) (prev : Option FarmProof) (k : Nat)
      (orig nxt : FarmProof),
      chainLoop c pk i prev ps = .ok () → ps[k]? = some orig → ps[k + 1]? = some nxt →
      tampered.PrevProofID = orig.PrevProofID → tampered.PrevProofHash = orig.PrevProofHash →
      tampered.Hash c ≠ .ok nxt.PrevProofHash →
      ∃ e, chainLoop c pk i prev (ps.set k tampered) = .error e ∧ e.index = i + k + 1 ∧
        e.isLinkage = true := by
  intro ps
  induction ps with
  | nil => intro i prev k orig nxt _ hk; simp at hk
  | cons p rest ih =>
    intro i prev k orig nxt h hk hn e1 e2 hd
    cases k with
    | zero =>
      simp only [List.getElem?_cons_zero, Option.some.injEq] at hk
      subst hk
      simp only [zero_add, List.getElem?_cons_succ] at hn
      cases rest with
      | nil => simp at hn
      | cons n rest2 =>
        simp only [List.getElem?_cons_zero, Option.some.injEq] at hn
        subst hn
        show ∃ e, chainLoop c pk i prev (tampered :: n :: rest2) = .error e ∧
          e.index = i + 0 + 1 ∧ e.isLinkage = true
        rw [chainLoop_relink c pk i prev p tampered _ _ h hv e1 e2]
        have hvn := chainLoop_head_verify c pk _ _ _ _ (chainLoop_tail c pk i prev p _ h)
        rw [chainLoop, hvn]
        simp only
        cases hh : tampered.Hash c with
        | error e =>
          obtain ⟨b, _, hb, _, _⟩ := (Verify_ok_iff c tampered pk).mp hv
          unfold FarmProof.Hash at hh
          rw [hb] at hh
          cases hh
        | ok h' =>
          simp only
          by_cases hid : n.PrevProofID = tampered.ProofID
          · have hne : n.PrevProofHash ≠ h' := by
              intro heq
              apply hd
              rw [hh, heq]
            simp only [hid, ne_eq, not_true_eq_false, if_false, hne, not_false_eq_true,
              if_true]
            exact ⟨_, rfl, rfl, rfl⟩
          · simp only [ne_eq, hid, not_false_eq_true, if_true]
            exact ⟨_, rfl, rfl, rfl⟩
    | succ k =>
      show ∃ e, chainLoop c pk i prev (p :: rest.set k tampered) = .error e ∧ _
      rw [chainLoop_step c pk i prev p rest _ h]
      obtain ⟨e, he, hi, hl⟩ := ih (i + 1) (some p) k orig nxt
        (chainLoop_tail c pk i prev p rest h) (by simpa using hk) (by simpa using hn) e1 e2 hd
      exact ⟨e, he, by omega, hl⟩

/-! ## Building proofs and chains -/

theorem New_none (c : Primitives) (id : String) (now : Time) (agent : AgentInfo)
    (actor : ActorInfo) (action : ActionInfo) (outcome : OutcomeInfo) (hints : ScoringHints) :
    New c (some id) now agent actor action outcome hints none =
      .ok { SchemaVersion := "1", ProofID := id, PrevProofID := "", PrevProofHash := "",
            Timestamp := now, Agent := agent, Actor := actor, Action := action,
            Outcome := outcome, ScoringHints := hints, Signature := "" } := rfl

theorem New_some (c : Primitives) (id : String) (now : Time) (agent : AgentInfo)
    (actor : ActorInfo) (action : ActionInfo) (outcome : OutcomeInfo) (hints : ScoringHints)
    (prev : FarmProof) (h : String) (hh : prev.Hash c = .ok h) :
    New c (some id) now agent actor action outcome hints (some prev) =
      .ok { SchemaVersion := "1", ProofID := id, PrevProofID := prev.ProofID,
            PrevProofHash := h, Timestamp := now, Agent := agent, Actor := actor,
            Action := action, Outcome := outcome, ScoringHints := hints, Signature := "" } := by
  simp only [New, hh]
  rfl

theorem signedSequence_chainLoop (c : Primitives) (hc : c.Complete) (sk : PrivateKey) :
    ∀ (args : List NewArgs) (prev : Option FarmProof) (i : Nat),
      (∀ a ∈ args, a.now.marshals = true) →
      (∀ q, prev = some q → q.Timestamp.marshals = true) →
      ∃ ps, signedSequence c sk prev args = .ok ps ∧ ps.length = args.length ∧
        chainLoop c (c.publicOf sk) i prev ps = .ok () ∧
        (∀ g, ps.head? = some g → prev = none → g.PrevProofID = "" ∧ g.PrevProofHash = "") := by
  intro args
  induction args with
  | nil =>
    intro prev i _ _
    exact ⟨[], rfl, rfl, rfl, by simp⟩
  | cons a rest ih =>
    intro prev i hts hprev
    have hnow : a.now.marshals = true := hts a (List.mem_cons_self _ _)
    have hrest : ∀ x ∈ rest, x.now.marshals = true :=
      fun x hx => hts x (List.mem_cons_of_mem _ hx)
    obtain ⟨p, hnew, hts_p, hlink, hgen⟩ : ∃ p,
        New c (some a.id) a.now a.agent a.actor a.action a.outcome a.hints prev = .ok p ∧
        p.Timestamp = a.now ∧
        (∀ q, prev = some q → p.PrevProofID = q.ProofID ∧ q.Hash c = .ok p.PrevProofHash) ∧
        (prev = none → p.PrevProofID = "" ∧ p.PrevProofHash = "") := by
      cases prev with
      | none =>
        exact ⟨_, New_none c a.id a.now a.agent a.actor a.action a.outcome a.hints, rfl,
          (by intro q hq; cases hq), fun _ => ⟨rfl, rfl⟩⟩
      | some q =>
        obtain ⟨hq, hhq⟩ := Hash_ok_of_marshals c q (hprev q rfl)
        refine ⟨_, New_some c a.id a.now a.agent a.actor a.action a.outcome a.hints q hq hhq,
          rfl, ?_, (by intro h; cases h)⟩
        intro q' hq'
        injection hq' with hq'
        subst hq'
        exact ⟨rfl, hhq⟩
    obtain ⟨sp, hsign⟩ := (Sign_ok_iff c p sk).mpr (by rw [hts_p]; exact hnow)
    obtain ⟨b, _, hsp⟩ := Sign_eq_ok c p sp sk hsign
    have hv := Verify_Sign c hc p sp sk hsign
    have e1 : sp.PrevProofID = p.PrevProofID := by rw [hsp]
    have e2 : sp.PrevProofHash = p.PrevProofHash := by rw [hsp]
    have e3 : sp.Timestamp = a.now := by rw [hsp]; exact hts_p
    obtain ⟨ps, hps, hlen, hloop, _⟩ := ih (some sp) (i + 1) hrest
      (by intro q hq; injection hq with hq; subst hq; rw [e3]; exact hnow)
    refine ⟨sp :: ps, ?_, by simp [hlen], ?_, ?_⟩
    · simp only [signedSequence, hnew, hsign, hps]
    · cases prev with
      | none => exact (chainLoop_none_cons c _ i sp ps).mpr ⟨hv, hloop⟩
      | some q =>
        obtain ⟨l1, l2⟩ := hlink q rfl
        exact (chainLoop_some_cons c _ i q sp ps).mpr
          ⟨hv, by rw [e1]; exact l1, by rw [e2]; exact l2, hloop⟩
    · intro g hg hnone
      simp only [List.head?_cons, Option.some.injEq] at hg
      subst hg
      rw [e1, e2]
      exact hgen hnone

/-! ## Ingestion: the chain-linkage step -/

theorem mem_bucketPut {α : Type} (key : α → String) (x : α) :
    ∀ (l : List α), x ∈ bucketPut key x l := by
  intro l
  induction l with
  | nil => simp [bucketPut]
  | cons y ys ih =>
    unfold bucketPut
    split
    · exact List.mem_cons_self _ _
    · split
      · exact List.mem_cons_self _ _
      · exact List.mem_cons_of_mem _ ih

theorem bucketGet_isSome_iff {α : Type} (key : α → String) (k : String) (l : List α) :
    (bucketGet key k l).isSome = true ↔ ∃ y ∈ l, key y = k := by
  unfold bucketGet
  rw [List.find?_isSome]
  simp

/-- The handler up to and including signature verification, when the agent is
Active with a usable key and the signature verifies. -/
theorem handleSubmitProof_after_verify (c : Primitives) (score : FarmProof → Int)
    (env : SubmitEnv) (s : Store) (p : FarmProof) (agent : AgentRecord) (pubKey : PublicKey)
    (latest : Option StoredProof)
    (hagent : s.GetAgent env.getAgentFails p.Agent.AgentID = .ok agent)
    (hactive : agent.Status = .active)
    (hkey : DecodePublicKey agent.PublicKey = some pubKey)
    (hsig : Verify c p pubKey = .ok ())
    (hlatest : s.LatestProof env.latestProofFails p.Agent.AgentID = .ok latest) :
    handleSubmitProof c score env s (some p) =
      match chainLinkage c latest p with
      | .error r => (r, s)
      | .ok _ =>
        match s.AppendProof env.appendProofFails env.receivedAt p
            (if p.Outcome.Verified && p.Outcome.Status == OutcomeSuccess then score p
             else 0) with
        | .error .duplicateProof => (.proofDuplicate, s)
        | .error _ => (.error 500 "storage error", s)
        | .ok s' => (.proofAccepted
            (if p.Outcome.Verified && p.Outcome.Status == OutcomeSuccess then score p else 0),
            updateBalance env s'
              (if p.Outcome.Verified && p.Outcome.Status == OutcomeSuccess then score p
               else 0)) := by
  simp only [handleSubmitProof, hagent, hactive, hkey, hsig, hlatest, ne_eq, not_true_eq_false,
    if_false]

theorem UpdateFarm_frame (s s' : Store) (fail : Bool) (now : Time) (farm : FarmState)
    (h : s.UpdateFarm fail now farm = .ok s') :
    s'.proofs = s.proofs ∧ s'.agents = s.agents := by
  unfold Store.UpdateFarm at h
  simp only at h
  split at h
  · cases h
  · split at h
    · cases h
    · injection h with h
      subst h
      exact ⟨rfl, rfl⟩

theorem updateBalance_proofs (env : SubmitEnv) (s : Store) (coins : Int) :
    (updateBalance env s coins).proofs = s.proofs := by
  unfold updateBalance
  split
  · cases hg : s.GetFarm env.getFarmFails with
    | error e => rfl
    | ok farm =>
      simp only
      cases hu : s.UpdateFarm env.updateFarmFails env.updatedAt
          { farm with TotalCoins := addInt farm.TotalCoins coins,
                      CurrentCoins := addInt farm.CurrentCoins coins } with
      | error e => rfl
      | ok s' => exact (UpdateFarm_frame s s' _ _ _ hu).1
  · rfl

/-- Once the linkage step is passed, a proof whose identifier is not yet in
the ledger is accepted and appended when the append does not fail. -/
theorem handleSubmitProof_appends (c : Primitives) (score : FarmProof → Int)
    (env : SubmitEnv) (s : Store) (p : FarmProof) (agent : AgentRecord) (pubKey : PublicKey)
    (latest : Option StoredProof)
    (hagent : s.GetAgent env.getAgentFails p.Agent.AgentID = .ok agent)
    (hactive : agent.Status = .active)
    (hkey : DecodePublicKey agent.PublicKey = some pubKey)
    (hsig : Verify c p pubKey = .ok ())
    (hlatest : s.LatestProof env.latestProofFails p.Agent.AgentID = .ok latest)
    (hlink : chainLinkage c latest p = .ok ())
    (hfail : env.appendProofFails = false) (hnow : env.receivedAt.marshals = true)
    (hnew : ∀ sp ∈ s.proofs, sp.FarmProof.ProofID ≠ p.ProofID)
    (hvalid : putKeyError p.ProofID = none) :
    ∃ coins, (handleSubmitProof c score env s (some p)).1 = .proofAccepted coins ∧
      { FarmProof := p, CoinsAwarded := coins, ReceivedAt := env.receivedAt }
        ∈ (handleSubmitProof c score env s (some p)).2.proofs := by
  rw [handleSubmitProof_after_verify c score env s p agent pubKey latest hagent hactive hkey
    hsig hlatest, hlink]
  have hts := Verify_ok_marshals c p pubKey hsig
  have hget : (bucketGet (fun x : StoredProof => x.FarmProof.ProofID) p.ProofID s.proofs).isSome
      = false := by
    rw [Bool.eq_false_iff]
    intro h
    obtain ⟨y, hy, hk⟩ := (bucketGet_isSome_iff _ _ _).mp h
    exact hnew y hy hk
  simp only [Store.AppendProof, hts, hnow, hfail, hget, hvalid, Bool.and_self, Bool.not_true,
    Bool.false_eq_true, if_false]
  exact ⟨_, rfl, by rw [updateBalance_proofs]; exact mem_bucketPut _ _ _⟩

theorem putKeyError_cases (key : String) (e : StorageError) (h : putKeyError key = some e) :
    e = .keyRequired ∨ e = .keyTooLarge := by
  unfold putKeyError at h
  split at h
  · cases h; exact Or.inl rfl
  · split at h
    · cases h; exact Or.inr rfl
    · cases h

theorem utf8ByteSize_eq_zero_iff (key : String) : key.utf8ByteSize = 0 ↔ key = "" := by
  cases key with
  | mk data =>
    cases data with
    | nil => exact ⟨fun _ => rfl, fun _ => rfl⟩
    | cons ch rest =>
      constructor
      · intro h
        have hpos := Char.utf8Size_pos ch
        simp only [String.utf8ByteSize, String.utf8ByteSize.go] at h
        omega
      · intro h
        exact absurd (congrArg String.data h) (List.cons_ne_nil ch rest)

/-- The engine takes exactly the non-empty keys of at most `MaxKeySize`
bytes. -/
theorem putKeyError_none_iff (key : String) :
    putKeyError key = none ↔ key ≠ "" ∧ key.utf8ByteSize ≤ 32768 := by
  unfold putKeyError MaxKeySize
  rw [ne_eq, ← utf8ByteSize_eq_zero_iff]
  by_cases h0 : key.utf8ByteSize = 0
  · simp [h0]
  · by_cases h1 : key.utf8ByteSize > 32768
    · simp [h0, h1]
    · simp only [h0, h1, if_false, true_iff]
      exact ⟨not_false, by omega⟩

theorem putKeyError_keyRequired_iff (key : String) :
    putKeyError key = some .keyRequired ↔ key = "" := by
  unfold putKeyError MaxKeySize
  rw [← utf8ByteSize_eq_zero_iff]
  by_cases h0 : key.utf8ByteSize = 0
  · simp [h0]
  · by_cases h1 : key.utf8ByteSize > 32768
    · simp [h0, h1]
    · simp [h0, h1]

theorem putKeyError_keyTooLarge_iff (key : String) :
    putKeyError key = some .keyTooLarge ↔ key.utf8ByteSize > 32768 := by
  unfold putKeyError MaxKeySize
  by_cases h0 : key.utf8ByteSize = 0
  · simp [h0]
  · by_cases h1 : key.utf8ByteSize > 32768
    · simp [h0, h1]
    · simp [h0, h1]

/-- Once the linkage step is passed, a proof whose identifier the storage
engine rejects as a key is answered 500 and the database is unchanged. -/
theorem handleSubmitProof_key_rejected (c : Primitives) (score : FarmProof → Int)
    (env : SubmitEnv) (s : Store) (p : FarmProof) (agent : AgentRecord) (pubKey : PublicKey)
    (latest : Option StoredProof)
    (hagent : s.GetAgent env.getAgentFails p.Agent.AgentID = .ok agent)
    (hactive : agent.Status = .active)
    (hkey : DecodePublicKey agent.PublicKey = some pubKey)
    (hsig : Verify c p pubKey = .ok ())
    (hlatest : s.LatestProof env.latestProofFails p.Agent.AgentID = .ok latest)
    (hlink : chainLinkage c latest p = .ok ())
    (hfail : env.appendProofFails = false) (hnow : env.receivedAt.marshals = true)
    (hnew : ∀ sp ∈ s.proofs, sp.FarmProof.ProofID ≠ p.ProofID)
    (e : StorageError) (hrej : putKeyError p.ProofID = some e) :
    handleSubmitProof c score env s (some p) = (.error 500 "storage error", s) := by
  rw [handleSubmitProof_after_verify c score env s p agent pubKey latest hagent hactive hkey
    hsig hlatest, hlink]
  have hts := Verify_ok_marshals c p pubKey hsig
  have hget : (bucketGet (fun x : StoredProof => x.FarmProof.ProofID) p.ProofID s.proofs).isSome
      = false := by
    rw [Bool.eq_false_iff]
    intro h
    obtain ⟨y, hy, hk⟩ := (bucketGet_isSome_iff _ _ _).mp h
    exact hnew y hy hk
  simp only [Store.AppendProof, hts, hnow, hfail, hget, hrej, Bool.and_self, Bool.not_true,
    Bool.false_eq_true, if_false]
  rcases putKeyError_cases _ e hrej with h | h <;> rw [h]

theorem chainLinkage_some_iff (c : Primitives) (l : StoredProof) (p : FarmProof) :
    chainLinkage c (some l) p = .ok () ↔
      p.PrevProofID = l.FarmProof.ProofID ∧ l.FarmProof.Hash c = .ok p.PrevProofHash := by
  cases hh : l.FarmProof.Hash c with
  | error e => simp [chainLinkage, hh]
  | ok prevHash =>
    by_cases h1 : p.PrevProofID = l.FarmProof.ProofID
    · by_cases h2 : p.PrevProofHash = prevHash
      · simp [chainLinkage, hh, h1, h2]
      · have h2' : ¬ prevHash = p.PrevProofHash := fun h => h2 h.symm
        simp [chainLinkage, hh, h1, h2, h2']
    · simp [chainLinkage, hh, h1]

theorem chainLinkage_some_error (c : Primitives) (l : StoredProof) (p : FarmProof)
    (h : chainLinkage c (some l) p ≠ .ok ()) :
    chainLinkage c (some l) p = .error (.error 409 "proof chain linkage invalid") ∨
      chainLinkage c (some l) p = .error (.error 500 "chain hash error") := by
  cases hh : l.FarmProof.Hash c with
  | error e => exact Or.inr (by simp [chainLinkage, hh])
  | ok prevHash =>
    by_cases hc : p.PrevProofID ≠ l.FarmProof.ProofID ∨ p.PrevProofHash ≠ prevHash
    · exact Or.inl (by simp only [chainLinkage, hh, if_pos hc])
    · exfalso
      apply h
      simp only [chainLinkage, hh, if_neg hc]

/-! ## The small instance has the assumed properties -/

theorem demoCharBytes_inj (a b : Char) (h : demoCharBytes a = demoCharBytes b) : a = b := by
  have ha : a.toNat < 4294967296 := a.val.val.isLt
  have hb : b.toNat < 4294967296 := b.val.val.isLt
  simp only [demoCharBytes, List.cons.injEq, Fin.mk.injEq, and_true] at h
  apply Char_eq_of_toNat_eq
  omega

theorem demoEncode_inj : ∀ (m m' : List Char), demoEncode m = demoEncode m' → m = m' := by
  intro m
  induction m with
  | nil =>
    intro m' h
    cases m' with
    | nil => rfl
    | cons b bs => simp [demoEncode, demoCharBytes] at h
  | cons a as ih =>
    intro m' h
    cases m' with
    | nil => simp [demoEncode, demoCharBytes] at h
    | cons b bs =>
      simp only [demoEncode] at h
      have hlen : (demoCharBytes a).length = (demoCharBytes b).length := rfl
      obtain ⟨h1, h2⟩ := List.append_inj h hlen
      rw [demoCharBytes_inj a b h1, ih bs h2]

theorem demo_Complete : demoPrimitives.Complete := by
  intro sk m
  simp [demoPrimitives]

theorem demo_KeyBinding : demoPrimitives.KeyBinding := by
  intro sk m pk h
  simp only [demoPrimitives, decide_eq_true_eq] at h
  exact (List.append_cancel_right h).symm

theorem demo_MessageBinding : demoPrimitives.MessageBinding := by
  intro pk m m' sig h1 h2
  simp only [demoPrimitives, decide_eq_true_eq] at h1 h2
  exact demoEncode_inj m m' (List.append_cancel_left (h1.symm.trans h2))

theorem demoSign_ok (p : FarmProof) (h : p.Timestamp.marshals = true) :
    Sign demoPrimitives p demoKey = .ok (demoSign p) := by
  obtain ⟨sp, hsp⟩ := (Sign_ok_iff demoPrimitives p demoKey).mpr h
  unfold demoSign
  rw [hsp]

theorem demoSign_cleared (p : FarmProof) :
    ({ demoSign p with Signature := "" } : FarmProof) = { p with Signature := "" } := by
  unfold demoSign
  cases hs : Sign demoPrimitives p demoKey with
  | error e => rfl
  | ok sp =>
    obtain ⟨b, _, rfl⟩ := Sign_eq_ok demoPrimitives p sp demoKey hs
    rfl

theorem demoSign_Verify (p : FarmProof) (h : p.Timestamp.marshals = true) :
    Verify demoPrimitives (demoSign p) demoKey = .ok () :=
  Verify_Sign demoPrimitives demo_Complete p (demoSign p) demoKey (demoSign_ok p h)

theorem demoHash_ok (p : FarmProof) (h : p.Timestamp.marshals = true) :
    p.Hash demoPrimitives = .ok (demoHash p) := by
  obtain ⟨hq, hhq⟩ := Hash_ok_of_marshals demoPrimitives p h
  unfold demoHash
  rw [hhq]

theorem tamper_cleared_ne (p q : FarmProof) (h : p.ScoringHints.ImpactRadius ≠ 99)
    (hq : ({ q with Signature := "" } : FarmProof) = { p with Signature := "" }) :
    ({ tamper p with Signature := "" } : FarmProof) ≠ { q with Signature := "" } := by
  intro heq
  have := congrArg (fun x : FarmProof => x.ScoringHints.ImpactRadius) (heq.trans hq)
  exact h this.symm

theorem demoFirst_Verify : Verify demoPrimitives demoFirst demoKey = .ok () :=
  demoSign_Verify _ (by decide)

theorem demoSecond_Verify : Verify demoPrimitives demoSecond demoKey = .ok () :=
  demoSign_Verify _ (by decide)

set_option maxRecDepth 100000 in
theorem demoFirst_marshals : demoFirst.Timestamp.marshals = true := by decide!

set_option maxRecDepth 100000 in
theorem demoFirst_Hash : demoFirst.Hash demoPrimitives = .ok demoSecond.PrevProofHash := by
  have h : demoSecond.PrevProofHash = demoHash demoFirst := by
    have := congrArg (fun x : FarmProof => x.PrevProofHash)
      (demoSign_cleared (demoUnsigned "p1" "p0" (demoHash demoFirst)))
    exact this
  rw [h]
  exact demoHash_ok demoFirst demoFirst_marshals

set_option maxRecDepth 100000 in
theorem demo_Chain_ok : Chain demoPrimitives [demoFirst, demoSecond] demoKey = .ok () :=
  (chainLoop_none_cons demoPrimitives demoKey 0 demoFirst [demoSecond]).mpr
    ⟨demoFirst_Verify,
     (chainLoop_some_cons demoPrimitives demoKey 1 demoFirst demoSecond []).mpr
       ⟨demoSecond_Verify, by decide!, demoFirst_Hash, rfl⟩⟩

set_option maxRecDepth 1000000 in
theorem demo_sha_differs (q : FarmProof)
    (hq : ({ q with Signature := "" } : FarmProof) = { tamper demoFirst with Signature := "" })
    (b b' : List Char) (hb : demoFirst.CanonicalJSON = .ok b) (hb' : q.CanonicalJSON = .ok b') :
    demoPrimitives.sha256 b ≠ demoPrimitives.sha256 b' := by
  have e : (match demoFirst.CanonicalJSON, (tamper demoFirst).CanonicalJSON with
      | .ok x, .ok y => decide (demoPrimitives.sha256 x ≠ demoPrimitives.sha256 y)
      | _, _ => true) = true := by decide!
  rw [CanonicalJSON_eq_of_cleared_eq q (tamper demoFirst) hq] at hb'
  rw [hb, hb'] at e
  simpa using e

set_option maxRecDepth 100000 in
theorem demoFirst_tamper_ne :
    ({ tamper demoFirst with Signature := "" } : FarmProof) ≠ { demoFirst with Signature := "" } :=
  tamper_cleared_ne demoFirst demoFirst (by decide!) rfl

set_option maxRecDepth 100000 in
theorem demo_tamper_signatureInvalid :
    Verify demoPrimitives (tamper demoFirst) demoKey = .error .signatureInvalid :=
  Verify_changed_signatureInvalid demoPrimitives demo_MessageBinding demoKey demoFirst
    (tamper demoFirst) demoFirst_Verify rfl demoFirst_tamper_ne demoFirst_marshals

theorem demo_key_decodes : DecodePublicKey demoAgent.PublicKey = some demoKey := by
  simp [DecodePublicKey, demoAgent, EncodePublicKey, hexDecode_hexEncode, demoKey,
    PublicKeySize]

theorem demoDangling_Verify : Verify demoPrimitives demoDangling demoKey = .ok () :=
  demoSign_Verify _ (by decide)

/-! ## Ingestion: trust check, resubmission and the balance update -/

theorem GetAgent_notFound_iff (s : Store) (agentID : String) :
    s.GetAgent false agentID = .error .notFound ↔ ∀ a ∈ s.agents, a.AgentID ≠ agentID := by
  unfold Store.GetAgent
  simp only [Bool.false_eq_true, if_false]
  cases h : bucketGet (fun a : AgentRecord => a.AgentID) agentID s.agents with
  | none =>
    simp only [true_iff]
    intro a ha hk
    have : (bucketGet (fun a : AgentRecord => a.AgentID) agentID s.agents).isSome = true :=
      (bucketGet_isSome_iff _ _ _).mpr ⟨a, ha, hk⟩
    rw [h] at this
    cases this
  | some a =>
    simp only [reduceCtorEq, false_iff]
    intro hall
    have : (bucketGet (fun a : AgentRecord => a.AgentID) agentID s.agents).isSome = true := by
      rw [h]; rfl
    obtain ⟨y, hy, hk⟩ := (bucketGet_isSome_iff _ _ _).mp this
    exact hall y hy hk

theorem handleSubmitProof_unknown (c : Primitives) (score : FarmProof → Int) (env : SubmitEnv)
    (s : Store) (p : FarmProof)
    (h : s.GetAgent env.getAgentFails p.Agent.AgentID = .error .notFound) :
    handleSubmitProof c score env s (some p)
      = (.error 403 "unknown agent — enroll first", s) := by
  simp only [handleSubmitProof, h]

theorem handleSubmitProof_inactive (c : Primitives) (score : FarmProof → Int) (env : SubmitEnv)
    (s : Store) (p : FarmProof) (agent : AgentRecord)
    (h : s.GetAgent env.getAgentFails p.Agent.AgentID = .ok agent)
    (hs : agent.Status ≠ .active) :
    handleSubmitProof c score env s (some p)
      = (.error 403 ("agent not approved (status: " ++ agent.Status.toString ++ ")"), s) := by
  simp only [handleSubmitProof, h, ne_eq, hs, not_false_eq_true, if_true]

/-- Every response other than an acceptance leaves the database as it was. -/
theorem handleSubmitProof_unchanged_or_accepted (c : Primitives) (score : FarmProof → Int)
    (env : SubmitEnv) (s : Store) (body : Option FarmProof) :
    (handleSubmitProof c score env s body).2 = s ∨
      ∃ p s', body = some p ∧
        s.AppendProof env.appendProofFails env.receivedAt p
          (if p.Outcome.Verified && p.Outcome.Status == OutcomeSuccess then score p else 0)
          = .ok s' ∧
        handleSubmitProof c score env s body =
          (.proofAccepted
            (if p.Outcome.Verified && p.Outcome.Status == OutcomeSuccess then score p else 0),
           updateBalance env s'
            (if p.Outcome.Verified && p.Outcome.Status == OutcomeSuccess then score p
             else 0)) := by
  cases body with
  | none => exact Or.inl rfl
  | some p =>
    unfold handleSubmitProof
    simp only
    cases hg : s.GetAgent env.getAgentFails p.Agent.AgentID with
    | error e => cases e <;> exact Or.inl rfl
    | ok agent =>
      simp only
      by_cases hs : agent.Status = .active
      · simp only [hs, ne_eq, not_true_eq_false, if_false]
        cases hk : DecodePublicKey agent.PublicKey with
        | none => exact Or.inl rfl
        | some pubKey =>
          simp only
          cases hv : Verify c p pubKey with
          | error e => exact Or.inl rfl
          | ok u =>
            simp only
            cases hl : s.LatestProof env.latestProofFails p.Agent.AgentID with
            | error e => exact Or.inl rfl
            | ok latest =>
              simp only
              cases hc : chainLinkage c latest p with
              | error r => exact Or.inl rfl
              | ok u =>
                simp only
                cases ha : s.AppendProof env.appendProofFails env.receivedAt p
                    (if p.Outcome.Verified && p.Outcome.Status == OutcomeSuccess then score p
                     else 0) with
                | error e => cases e <;> exact Or.inl (by simp only [ha])
                | ok s' => exact Or.inr ⟨p, s', rfl, ha, by simp only [ha]⟩
      · simp only [ne_eq, hs, not_false_eq_true, if_true]
        exact Or.inl trivial

theorem GetFarm_false_ok (s : Store) : ∃ farm, s.GetFarm false = .ok farm := by
  unfold Store.GetFarm
  cases s.farm with
  | none => exact ⟨_, rfl⟩
  | some f => exact ⟨f, rfl⟩

theorem updateBalance_agents (env : SubmitEnv) (s : Store) (coins : Int) :
    (updateBalance env s coins).agents = s.agents := by
  unfold updateBalance
  split
  · cases hg : s.GetFarm env.getFarmFails with
    | error e => rfl
    | ok farm =>
      simp only
      cases hu : s.UpdateFarm env.updateFarmFails env.updatedAt
          { farm with TotalCoins := addInt farm.TotalCoins coins,
                      CurrentCoins := addInt farm.CurrentCoins coins } with
      | error e => rfl
      | ok s' => exact (UpdateFarm_frame s s' _ _ _ hu).2
  · rfl

theorem UpdateFarm_fail (s : Store) (now : Time) (farm : FarmState) :
    ∃ e, s.UpdateFarm true now farm = .error e := by
  unfold Store.UpdateFarm
  simp only
  split
  · exact ⟨_, rfl⟩
  · exact ⟨_, rfl⟩

/-- The balance update either credits the coins to the farm aggregate or
leaves it as it was; it leaves it only when the coins are not positive or the
farm read or write fails. -/
theorem updateBalance_farm (env : SubmitEnv) (s : Store) (coins : Int) (farm : FarmState)
    (hf : s.GetFarm false = .ok farm) :
    (updateBalance env s coins).farm
        = some { farm with TotalCoins := addInt farm.TotalCoins coins,
                           CurrentCoins := addInt farm.CurrentCoins coins,
                           UpdatedAt := env.updatedAt } ∨
      ((updateBalance env s coins).farm = s.farm ∧
        (coins ≤ 0 ∨ env.getFarmFails = true ∨ env.updateFarmFails = true ∨
          (env.updatedAt.marshals && (farm.LastActiveAt.map Time.marshals).getD true)
            = false)) := by
  unfold updateBalance
  by_cases hc : coins > 0
  · rw [if_pos hc]
    cases hgf : env.getFarmFails with
    | true =>
      exact Or.inr ⟨rfl, Or.inr (Or.inl rfl)⟩
    | false =>
      rw [hf]
      simp only
      cases huf : env.updateFarmFails with
      | true =>
        refine Or.inr ⟨?_, Or.inr (Or.inr (Or.inl rfl))⟩
        obtain ⟨e, he⟩ := UpdateFarm_fail s env.updatedAt
          { farm with TotalCoins := addInt farm.TotalCoins coins,
                      CurrentCoins := addInt farm.CurrentCoins coins }
        rw [he]
      | false =>
        cases hm : (env.updatedAt.marshals && (farm.LastActiveAt.map Time.marshals).getD true)
        with
        | false =>
          refine Or.inr ⟨?_, Or.inr (Or.inr (Or.inr rfl))⟩
          unfold Store.UpdateFarm
          simp only [hm, Bool.not_false, if_true]
        | true =>
          refine Or.inl ?_
          unfold Store.UpdateFarm
          simp only [hm, Bool.not_true, Bool.false_eq_true, if_false]
  · rw [if_neg hc]
    exact Or.inr ⟨rfl, Or.inl (by omega)⟩

theorem AppendProof_ok (s s' : Store) (fail : Bool) (now : Time) (p : FarmProof) (coins : Int)
    (h : s.AppendProof fail now p coins = .ok s') :
    s' = { s with proofs := (bucketPut (fun x : StoredProof => x.FarmProof.ProofID)
            ⟨p, coins, now⟩ s.proofs) } ∧
      (∀ sp ∈ s.proofs, sp.FarmProof.ProofID ≠ p.ProofID) := by
  unfold Store.AppendProof at h
  simp only at h
  split at h
  · cases h
  · split at h
    · cases h
    · split at h
      · cases h
      · next hd =>
        split at h
        · cases h
        · injection h with h
          refine ⟨h.symm, ?_⟩
          intro sp hsp hk
          apply hd
          exact (bucketGet_isSome_iff _ _ _).mpr ⟨sp, hsp, hk⟩

/-! ## Buckets -/

theorem bucketGet_cons {α : Type} (key : α → String) (k : String) (y : α) (l : List α) :
    bucketGet key k (y :: l) = if key y = k then some y else bucketGet key k l := by
  unfold bucketGet
  rw [List.find?_cons]
  by_cases h : key y = k
  · have hb : (key y == k) = true := by simpa using h
    rw [hb, if_pos h]
  · have hb : (key y == k) = false := by simpa using h
    rw [hb, if_neg h]

theorem bucketGet_bucketPut_self {α : Type} (key : α → String) (x : α) :
    ∀ (l : List α), (∀ y ∈ l, key y ≠ key x) →
      bucketGet key (key x) (bucketPut key x l) = some x := by
  intro l
  induction l with
  | nil => intro _; simp [bucketPut, bucketGet_cons]
  | cons y ys ih =>
    intro h
    have hy : key y ≠ key x := h y (List.mem_cons_self _ _)
    unfold bucketPut
    rw [if_neg hy]
    split
    · simp [bucketGet_cons]
    · rw [bucketGet_cons, if_neg hy]
      exact ih (fun z hz => h z (List.mem_cons_of_mem _ hz))

theorem bucketGet_bucketPut_other {α : Type} (key : α → String) (x : α) (k : String)
    (hk : k ≠ key x) : ∀ (l : List α), bucketGet key k (bucketPut key x l) = bucketGet key k l := by
  intro l
  have hx : ¬ key x = k := fun h => hk h.symm
  induction l with
  | nil => simp [bucketPut, bucketGet_cons, hx, bucketGet]
  | cons y ys ih =>
    unfold bucketPut
    split
    · next h =>
      have hy : ¬ key y = k := by rw [h]; exact hx
      simp [bucketGet_cons, hx, hy]
    · split
      · simp only [bucketGet_cons, if_neg hx]
      · simp only [bucketGet_cons, ih]

theorem mem_bucketPut_iff {α : Type} (key : α → String) (x z : α) :
    ∀ (l : List α), (∀ y ∈ l, key y ≠ key x) → (z ∈ bucketPut key x l ↔ z = x ∨ z ∈ l) := by
  intro l
  induction l with
  | nil => intro _; simp [bucketPut]
  | cons y ys ih =>
    intro h
    have hy : key y ≠ key x := h y (List.mem_cons_self _ _)
    unfold bucketPut
    rw [if_neg hy]
    split
    · simp
    · rw [List.mem_cons, ih (fun w hw => h w (List.mem_cons_of_mem _ hw)), List.mem_cons]
      tauto

/-! ## Key order -/

theorem keyLess_irrefl : ∀ (a : List Char), keyLess a a = false := by
  intro a
  induction a with
  | nil => rfl
  | cons x xs ih => simp [keyLess, ih]

theorem keyLess_asymm : ∀ (a b : List Char), keyLess a b = true → keyLess b a = false := by
  intro a
  induction a with
  | nil => intro b _; cases b <;> rfl
  | cons x xs ih =>
    intro b h
    cases b with
    | nil => simp [keyLess] at h
    | cons y ys =>
      unfold keyLess at h ⊢
      by_cases h1 : x.toNat < y.toNat
      · have h2 : ¬ y.toNat < x.toNat := by omega
        simp [h1, h2]
      · by_cases h2 : y.toNat < x.toNat
        · simp [h1, h2] at h
        · simp only [h1, h2, if_false] at h ⊢
          exact ih ys h

theorem keyLess_trans : ∀ (a b c : List Char), keyLess a b = true → keyLess b c = true →
    keyLess a c = true := by
  intro a
  induction a with
  | nil =>
    intro b c h1 h2
    cases b with
    | nil => simp [keyLess] at h1
    | cons y ys =>
      cases c with
      | nil => simp [keyLess] at h2
      | cons z zs => rfl
  | cons x xs ih =>
    intro b c h1 h2
    cases b with
    | nil => simp [keyLess] at h1
    | cons y ys =>
      cases c with
      | nil => simp [keyLess] at h2
      | cons z zs =>
        unfold keyLess at h1 h2 ⊢
        by_cases a1 : x.toNat < y.toNat
        · by_cases b1 : y.toNat < z.toNat
          · have : x.toNat < z.toNat := by omega
            simp [this]
          · by_cases b2 : z.toNat < y.toNat
            · simp [b1, b2] at h2
            · have : x.toNat < z.toNat := by omega
              simp [this]
        · by_cases a2 : y.toNat < x.toNat
          · simp [a1, a2] at h1
          · simp only [a1, a2, if_false] at h1
            by_cases b1 : y.toNat < z.toNat
            · have : x.toNat < z.toNat := by omega
              simp [this]
            · by_cases b2 : z.toNat < y.toNat
              · simp [b1, b2] at h2
              · simp only [b1, b2, if_false] at h2
                have c1 : ¬ x.toNat < z.toNat := by omega
                have c2 : ¬ z.toNat < x.toNat := by omega
                simp only [c1, c2, if_false]
                exact ih ys zs h1 h2

theorem keyLess_total : ∀ (a b : List Char), keyLess a b = false → keyLess b a = false →
    a = b := by
  intro a
  induction a with
  | nil =>
    intro b h1 _
    cases b with
    | nil => rfl
    | cons y ys => simp [keyLess] at h1
  | cons x xs ih =>
    intro b h1 h2
    cases b with
    | nil => simp [keyLess] at h2
    | cons y ys =>
      unfold keyLess at h1 h2
      by_cases a1 : x.toNat < y.toNat
      · simp [a1] at h1
      · by_cases a2 : y.toNat < x.toNat
        · simp [a2] at h2
        · simp only [a1, a2, if_false] at h1 h2
          have hxy : x = y := Char_eq_of_toNat_eq x y (by omega)
          rw [hxy, ih ys h1 h2]

/-! ## Buckets keep their entries in key order -/

theorem bucketPut_append {α : Type} (key : α → String) (x : α) :
    ∀ (l : List α), (∀ y ∈ l, keyLess (key y).data (key x).data = true) →
      bucketPut key x l = l ++ [x] := by
  intro l
  induction l with
  | nil => intro _; rfl
  | cons y ys ih =>
    intro h
    have hy := h y (List.mem_cons_self _ _)
    have hne : key y ≠ key x := by
      intro e
      rw [e, keyLess_irrefl] at hy
      cases hy
    have hnl : keyLess (key x).data (key y).data = false := keyLess_asymm _ _ hy
    unfold bucketPut
    rw [if_neg hne, hnl]
    simp only [Bool.false_eq_true, if_false, List.cons_append, List.cons.injEq, true_and]
    exact ih (fun z hz => h z (List.mem_cons_of_mem _ hz))

theorem bucketPut_sorted {α : Type} (key : α → String) (x : α) :
    ∀ (l : List α), (∀ y ∈ l, key y ≠ key x) →
      l.Pairwise (fun a b => keyLess (key a).data (key b).data = true) →
      (bucketPut key x l).Pairwise (fun a b => keyLess (key a).data (key b).data = true) := by
  intro l
  induction l with
  | nil => intro _ _; simp [bucketPut]
  | cons y ys ih =>
    intro hne hs
    have hy : key y ≠ key x := hne y (List.mem_cons_self _ _)
    rw [List.pairwise_cons] at hs
    unfold bucketPut
    rw [if_neg hy]
    by_cases hl : keyLess (key x).data (key y).data = true
    · rw [if_pos hl, List.pairwise_cons, List.pairwise_cons]
      refine ⟨?_, hs⟩
      intro z hz
      rcases List.mem_cons.mp hz with rfl | hz
      · exact hl
      · exact keyLess_trans _ _ _ hl (hs.1 z hz)
    · rw [if_neg hl, List.pairwise_cons]
      have hne' : ∀ w ∈ ys, key w ≠ key x := fun w hw => hne w (List.mem_cons_of_mem _ hw)
      refine ⟨?_, ih hne' hs.2⟩
      intro z hz
      rcases (mem_bucketPut_iff key x z ys hne').mp hz with rfl | hz
      · cases hyx : keyLess (key y).data (key z).data with
        | true => rfl
        | false =>
          exfalso
          apply hy
          have := keyLess_total _ _ hyx (by simpa using hl)
          exact String.ext this
      · exact hs.1 z hz

theorem appendAll_sorted : ∀ (calls : List StoredProof) (s s' : Store),
    s.proofs.Pairwise (fun a b =>
      keyLess a.FarmProof.ProofID.data b.FarmProof.ProofID.data = true) →
    appendAll s calls = some s' →
    s'.proofs.Pairwise (fun a b =>
      keyLess a.FarmProof.ProofID.data b.FarmProof.ProofID.data = true) := by
  intro calls
  induction calls with
  | nil =>
    intro s s' hs h
    simp only [appendAll, Option.some.injEq] at h
    rw [← h]
    exact hs
  | cons sp rest ih =>
    intro s s' hs h
    simp only [appendAll] at h
    cases ha : s.AppendProof false sp.ReceivedAt sp.FarmProof sp.CoinsAwarded with
    | error e => rw [ha] at h; cases h
    | ok s1 =>
      rw [ha] at h
      obtain ⟨e, hnew⟩ := AppendProof_ok s s1 _ _ _ _ ha
      apply ih s1 s' _ h
      rw [e]
      exact bucketPut_sorted (fun x : StoredProof => x.FarmProof.ProofID) _ s.proofs hnew hs

theorem find?_reverse_eq_getLast?_filter {α : Type} (q : α → Bool) :
    ∀ (l : List α), l.reverse.find? q = (l.filter q).getLast? := by
  intro l
  induction l using List.reverseRecOn with
  | nil => rfl
  | append_singleton l a ih =>
    have e1 : (l ++ [a]).reverse = a :: l.reverse := by
      rw [List.reverse_append]; rfl
    rw [e1, List.filter_append, List.find?_cons]
    cases hq : q a with
    | true =>
      have e2 : List.filter q [a] = [a] := by rw [List.filter_cons, if_pos hq]; rfl
      rw [e2, List.getLast?_concat]
    | false =>
      have e2 : List.filter q [a] = [] := by
        rw [List.filter_cons, if_neg (by rw [hq]; exact Bool.false_ne_true)]; rfl
      rw [e2, List.append_nil]
      exact ih

theorem appendAll_ascending : ∀ (calls : List StoredProof) (s s' : Store),
    (∀ y ∈ s.proofs, ∀ x ∈ calls,
      keyLess y.FarmProof.ProofID.data x.FarmProof.ProofID.data = true) →
    calls.Pairwise (fun a b =>
      keyLess a.FarmProof.ProofID.data b.FarmProof.ProofID.data = true) →
    appendAll s calls = some s' → s'.proofs = s.proofs ++ calls := by
  intro calls
  induction calls with
  | nil =>
    intro s s' _ _ h
    simp only [appendAll, Option.some.injEq] at h
    rw [← h, List.append_nil]
  | cons sp rest ih =>
    intro s s' hlt hp h
    simp only [appendAll] at h
    rw [List.pairwise_cons] at hp
    cases ha : s.AppendProof false sp.ReceivedAt sp.FarmProof sp.CoinsAwarded with
    | error e => rw [ha] at h; cases h
    | ok s1 =>
      rw [ha] at h
      obtain ⟨e, _⟩ := AppendProof_ok s s1 _ _ _ _ ha
      have hput : s1.proofs = s.proofs ++ [sp] := by
        rw [e]
        exact bucketPut_append (fun x : StoredProof => x.FarmProof.ProofID) sp s.proofs
          (fun y hy => hlt y hy sp (List.mem_cons_self _ _))
      have := ih s1 s' (by
        intro y hy x hx
        rw [hput] at hy
        rcases List.mem_append.mp hy with hy | hy
        · exact hlt y hy x (List.mem_cons_of_mem _ hx)
        · rw [List.mem_singleton] at hy
          rw [hy]
          exact hp.1 x hx) hp.2 h
      rw [this, hput, List.append_assoc]
      rfl

/-- In a bucket in key order, the last entry that satisfies a test has the
greatest key among the entries that satisfy it. -/
theorem last_match_greatest {α : Type} (key : α → String) (q : α → Bool) (l : List α) (x : α)
    (hs : l.Pairwise (fun a b => keyLess (key a).data (key b).data = true))
    (h : l.reverse.find? q = some x) :
    x ∈ l ∧ q x = true ∧
      ∀ y ∈ l, q y = true → y = x ∨ keyLess (key y).data (key x).data = true := by
  obtain ⟨hq, as, bs, hl, hno⟩ := List.find?_eq_some.mp h
  have hl' : l = bs.reverse ++ x :: as.reverse := by
    have := congrArg List.reverse hl
    simpa using this
  refine ⟨by rw [hl']; simp, hq, ?_⟩
  intro y hy hqy
  rw [hl'] at hy hs
  rcases List.mem_append.mp hy with hy | hy
  · right
    rw [List.pairwise_append] at hs
    exact hs.2.2 y hy x (List.mem_cons_self _ _)
  · rcases List.mem_cons.mp hy with rfl | hy
    · exact Or.inl rfl
    · exfalso
      have := hno y (List.mem_reverse.mp hy)
      rw [hqy] at this
      cases this

/-! ## Floating-point arithmetic: consequences of the assumptions -/

theorem truncate_of_nonneg {x : ℚ} (h : 0 ≤ x) : truncate x = ⌊x⌋ := by
  simp [truncate, h]

theorem max_one_truncate (x : ℚ) : max 1 (truncate x) = max 1 ⌊x⌋ := by
  unfold truncate
  split
  · rfl
  · rename_i h
    have hx : x < 0 := lt_of_not_le h
    have h1 : ⌈x⌉ ≤ 0 := Int.ceil_le.mpr (by exact_mod_cast hx.le)
    have h2 : ⌊x⌋ ≤ 0 := le_trans (Int.floor_le_ceil x) h1
    rw [max_eq_left (by omega), max_eq_left (by omega)]

theorem exactFloat_Monotone : exactFloat.Monotone := fun _ _ h => h

theorem exactFloat_Exact : exactFloat.Exact := fun _ _ _ _ => ⟨rfl, rfl⟩

theorem exactFloat_Near : exactFloat.Near := by
  intro x _ _
  show |x - x| ≤ |x| / 2 ^ 53
  rw [sub_self, abs_zero]
  positivity

theorem exactFloat_Converts : exactFloat.Converts := by
  constructor
  · intro x h1 h2
    show (if -(2 ^ 63) ≤ truncate x ∧ truncate x < 2 ^ 63 then truncate x else -(2 ^ 63)) = _
    rw [if_pos ⟨h1, h2⟩]
  · intro x
    show -(2 ^ 63) ≤ (if -(2 ^ 63) ≤ truncate x ∧ truncate x < 2 ^ 63 then truncate x
        else -(2 ^ 63)) ∧
      (if -(2 ^ 63) ≤ truncate x ∧ truncate x < 2 ^ 63 then truncate x else -(2 ^ 63)) < 2 ^ 63
    split
    · rename_i h
      exact h
    · constructor <;> norm_num

theorem FloatOps.Exact.int {fl : FloatOps} (he : fl.Exact) (m : Int) (hm : |m| ≤ 2 ^ 53) :
    fl.rnd (m : ℚ) = m := by
  have h := (he m 0 hm (by norm_num)).1
  simpa using h

theorem FloatOps.Exact.zero {fl : FloatOps} (he : fl.Exact) : fl.rnd 0 = 0 := by
  have h := he.int 0 (by norm_num)
  simpa using h

theorem FloatOps.Exact.one {fl : FloatOps} (he : fl.Exact) : fl.rnd 1 = 1 := by
  have h := he.int 1 (by norm_num)
  simpa using h

theorem rnd_nonneg {fl : FloatOps} (hm : fl.Monotone) (he : fl.Exact) {x : ℚ} (h : 0 ≤ x) :
    0 ≤ fl.rnd x := by
  have := hm 0 x h
  rwa [he.zero] at this

theorem one_le_rnd {fl : FloatOps} (hm : fl.Monotone) (he : fl.Exact) {x : ℚ} (h : 1 ≤ x) :
    1 ≤ fl.rnd x := by
  have := hm 1 x h
  rwa [he.one] at this

/-- Rounding a positive value of ordinary magnitude keeps it within any
interval that allows for one part in `2^53` at both ends. -/
theorem rnd_between {fl : FloatOps} (hn : fl.Near) (x lo hi lo' hi' : ℚ)
    (h1 : lo ≤ x) (h2 : x ≤ hi) (hpos : 1 / 2 ^ 64 ≤ lo) (hle : hi ≤ 2 ^ 64)
    (hlo : lo' ≤ lo * (1 - 1 / 2 ^ 53)) (hhi : hi * (1 + 1 / 2 ^ 53) ≤ hi') :
    lo' ≤ fl.rnd x ∧ fl.rnd x ≤ hi' := by
  have hlo0 : (0 : ℚ) < lo := lt_of_lt_of_le (by positivity) hpos
  have hx0 : 0 < x := lt_of_lt_of_le hlo0 h1
  have habs : |x| = x := abs_of_pos hx0
  have h := hn x (by rw [habs]; exact le_trans hpos h1) (by rw [habs]; exact le_trans h2 hle)
  rw [habs, abs_le] at h
  obtain ⟨ha, hb⟩ := h
  have e1 : lo * (1 - 1 / 2 ^ 53) ≤ x * (1 - 1 / 2 ^ 53) :=
    mul_le_mul_of_nonneg_right h1 (by norm_num)
  have e2 : x * (1 + 1 / 2 ^ 53) ≤ hi * (1 + 1 / 2 ^ 53) :=
    mul_le_mul_of_nonneg_right h2 (by norm_num)
  constructor
  · linarith
  · linarith

/-! ## The scoring engine: the parts of a breakdown -/

theorem Compute_TotalCoins (fl : FloatOps) (p : FarmProof) (cfg : Config) (upgradeMult : ℚ)
    (streakDays : Int) :
    (Compute fl p cfg upgradeMult streakDays).TotalCoins =
      if fl.toInt (Result.product fl (Compute fl p cfg upgradeMult streakDays)) < 1 ∧
          (Compute fl p cfg upgradeMult streakDays).BaseCoins > 0 then 1
      else fl.toInt (Result.product fl (Compute fl p cfg upgradeMult streakDays)) := rfl

/-- With a positive base the total is the converted product, raised to 1. -/
theorem Compute_TotalCoins_of_pos (fl : FloatOps) (p : FarmProof) (cfg : Config)
    (upgradeMult : ℚ) (streakDays : Int)
    (hb : 0 < (Compute fl p cfg upgradeMult streakDays).BaseCoins) :
    (Compute fl p cfg upgradeMult streakDays).TotalCoins =
      max 1 (fl.toInt (Result.product fl (Compute fl p cfg upgradeMult streakDays))) := by
  rw [Compute_TotalCoins]
  split
  · rename_i h
    rw [max_eq_left (by omega)]
  · rename_i h
    have : ¬ fl.toInt (Result.product fl (Compute fl p cfg upgradeMult streakDays)) < 1 :=
      fun h' => h ⟨h', hb⟩
    rw [max_eq_right (by omega)]

/-- With a positive base and a product whose truncation is in the range of
`int`, the total is the floor of the product, raised to 1. -/
theorem Compute_TotalCoins_in_range (fl : FloatOps) (hc : fl.Converts) (p : FarmProof)
    (cfg : Config) (upgradeMult : ℚ) (streakDays : Int)
    (hb : 0 < (Compute fl p cfg upgradeMult streakDays).BaseCoins)
    (h1 : -(2 ^ 63) ≤ truncate (Result.product fl (Compute fl p cfg upgradeMult streakDays)))
    (h2 : truncate (Result.product fl (Compute fl p cfg upgradeMult streakDays)) < 2 ^ 63) :
    (Compute fl p cfg upgradeMult streakDays).TotalCoins =
      max 1 ⌊Result.product fl (Compute fl p cfg upgradeMult streakDays)⌋ := by
  rw [Compute_TotalCoins_of_pos fl p cfg upgradeMult streakDays hb, hc.1 _ h1 h2,
    max_one_truncate]

theorem Compute_ImpactMult (fl : FloatOps) (p : FarmProof) (cfg : Config) (upgradeMult : ℚ)
    (streakDays : Int) :
    (Compute fl p cfg upgradeMult streakDays).ImpactMult =
      if p.ScoringHints.ImpactRadius ≤ 1 then 1
      else linearMult fl (p.ScoringHints.ImpactRadius - 1) cfg.ImpactStep := by
  show (if p.ScoringHints.ImpactRadius > 1 then
      linearMult fl (p.ScoringHints.ImpactRadius - 1) cfg.ImpactStep else 1) = _
  by_cases h : p.ScoringHints.ImpactRadius ≤ 1
  · rw [if_neg (by omega), if_pos h]
  · rw [if_pos (by omega), if_neg h]

theorem Compute_StreakMult (fl : FloatOps) (p : FarmProof) (cfg : Config) (upgradeMult : ℚ)
    (streakDays : Int) :
    (Compute fl p cfg upgradeMult streakDays).StreakMult =
      min (linearMult fl streakDays cfg.StreakStep) cfg.StreakCap := by
  show (if linearMult fl streakDays cfg.StreakStep > cfg.StreakCap then cfg.StreakCap
      else linearMult fl streakDays cfg.StreakStep) = _
  split
  · rename_i h
    rw [min_eq_right (le_of_lt h)]
  · rename_i h
    rw [min_eq_left (not_lt.mp h)]

theorem Compute_UpgradeMult (fl : FloatOps) (p : FarmProof) (cfg : Config) (upgradeMult : ℚ)
    (streakDays : Int) :
    (Compute fl p cfg upgradeMult streakDays).UpgradeMult =
      if upgradeMult = 0 then 1 else upgradeMult := rfl

theorem Compute_BaseCoins (fl : FloatOps) (p : FarmProof) (cfg : Config) (upgradeMult : ℚ)
    (streakDays : Int) :
    (Compute fl p cfg upgradeMult streakDays).BaseCoins =
      if (cfg.BaseCoins p.Action.Category).getD 0 = 0 then 10
      else (cfg.BaseCoins p.Action.Category).getD 0 := rfl

theorem Compute_ComplexityMult (fl : FloatOps) (p : FarmProof) (cfg : Config)
    (upgradeMult : ℚ) (streakDays : Int) :
    (Compute fl p cfg upgradeMult streakDays).ComplexityMult =
      if (cfg.ComplexityMultipliers p.ScoringHints.Complexity).getD 0 = 0 then 1
      else (cfg.ComplexityMultipliers p.ScoringHints.Complexity).getD 0 := rfl

theorem linearMult_zero {fl : FloatOps} (he : fl.Exact) (step : ℚ) :
    linearMult fl 0 step = 1 := by
  simp [linearMult, he.zero, he.one]

/-- A value between a small non-negative integer and its successor converts
to that integer. -/
theorem toInt_of_between {fl : FloatOps} (hc : fl.Converts) (n : Int) (hn0 : 0 ≤ n)
    (hn1 : n < 2 ^ 63) {x : ℚ} (h1 : (n : ℚ) ≤ x) (h2 : x < (n : ℚ) + 1) :
    fl.toInt x = n := by
  have hx : (0 : ℚ) ≤ x := le_trans (by exact_mod_cast hn0) h1
  have ht : truncate x = n := by
    rw [truncate_of_nonneg hx]
    exact Int.floor_eq_iff.mpr ⟨h1, h2⟩
  rw [hc.1 x (by rw [ht]; omega) (by rw [ht]; exact hn1), ht]

theorem DefaultConfig_maintenance_low (fl : FloatOps) (p : FarmProof) (upgradeMult : ℚ)
    (streakDays : Int) (hcat : p.Action.Category = "maintenance")
    (hcx : p.ScoringHints.Complexity = "low") (hrad : p.ScoringHints.ImpactRadius = 1) :
    (Compute fl p (DefaultConfig fl) upgradeMult streakDays).BaseCoins = 10 ∧
    (Compute fl p (DefaultConfig fl) upgradeMult streakDays).ComplexityMult = 1 ∧
    (Compute fl p (DefaultConfig fl) upgradeMult streakDays).ImpactMult = 1 := by
  refine ⟨?_, ?_, ?_⟩
  · simp [Compute_BaseCoins, DefaultConfig, hcat]
  · simp [Compute_ComplexityMult, DefaultConfig, hcx]
  · simp [Compute_ImpactMult, hrad]

theorem DefaultConfig_security_high (fl : FloatOps) (p : FarmProof) (upgradeMult : ℚ)
    (streakDays : Int) (hcat : p.Action.Category = "security")
    (hcx : p.ScoringHints.Complexity = "high") (hrad : p.ScoringHints.ImpactRadius = 10) :
    (Compute fl p (DefaultConfig fl) upgradeMult streakDays).BaseCoins = 25 ∧
    (Compute fl p (DefaultConfig fl) upgradeMult streakDays).ComplexityMult = 3 / 2 ∧
    (Compute fl p (DefaultConfig fl) upgradeMult streakDays).ImpactMult
      = fl.rnd (1 + fl.rnd (fl.rnd 9 * fl.rnd (1 / 10))) := by
  refine ⟨?_, ?_, ?_⟩
  · simp [Compute_BaseCoins, DefaultConfig, hcat]
  · simp [Compute_ComplexityMult, DefaultConfig, hcx]
  · simp [Compute_ImpactMult, hrad, linearMult, DefaultConfig]

theorem DefaultConfig_streak_zero {fl : FloatOps} (he : fl.Exact) (p : FarmProof)
    (upgradeMult : ℚ) :
    (Compute fl p (DefaultConfig fl) upgradeMult 0).StreakMult = 1 := by
  rw [Compute_StreakMult]
  have : linearMult fl ((0 : Int)) (DefaultConfig fl).StreakStep = 1 := linearMult_zero he _
  rw [this]
  show min (1 : ℚ) (3 / 2) = 1
  norm_num

/-- The product of an exact breakdown `base, 1, 1, 1, 1` with small base. -/
theorem coinProduct_ones {fl : FloatOps} (he : fl.Exact) (base : Int)
    (hb : |base| ≤ 2 ^ 53) : coinProduct fl base 1 1 1 1 = base := by
  simp [coinProduct, he.int base hb]

/-- The default impact multiplier of radius 10 is within two thousandths of
1.9. -/
theorem impact_ten_between {fl : FloatOps} (hn : fl.Near) (he : fl.Exact) :
    1898 / 1000 ≤ fl.rnd (1 + fl.rnd (fl.rnd 9 * fl.rnd (1 / 10))) ∧
      fl.rnd (1 + fl.rnd (fl.rnd 9 * fl.rnd (1 / 10))) ≤ 1902 / 1000 := by
  have h9 : fl.rnd 9 = 9 := by
    have := he.int 9 (by norm_num)
    simpa using this
  obtain ⟨s1, s2⟩ := rnd_between hn (1 / 10) (1 / 10) (1 / 10) (999 / 10000) (1001 / 10000) le_rfl
    le_rfl (by norm_num) (by norm_num)
    (by norm_num) (by norm_num)
  obtain ⟨a1, a2⟩ := rnd_between hn (fl.rnd 9 * fl.rnd (1 / 10)) (8991 / 10000) (9009 / 10000)
    (899 / 1000) (901 / 1000)
    (by rw [h9]; linarith) (by rw [h9]; linarith) (by norm_num) (by norm_num)
    (by norm_num) (by norm_num)
  exact rnd_between hn (1 + fl.rnd (fl.rnd 9 * fl.rnd (1 / 10))) (1899 / 1000) (1901 / 1000) _ _
    (by linarith) (by linarith) (by norm_num) (by norm_num)
    (by norm_num) (by norm_num)

/-- The default streak multiplier of 7 days stays below the cap: it is within
two thousandths of 1.49. -/
theorem streak_seven_between {fl : FloatOps} (hn : fl.Near) (he : fl.Exact) :
    1488 / 1000 ≤ linearMult fl 7 (fl.rnd (7 / 100)) ∧
      linearMult fl 7 (fl.rnd (7 / 100)) ≤ 1492 / 1000 := by
  have h7 : fl.rnd ((7 : Int) : ℚ) = 7 := by
    have := he.int 7 (by norm_num)
    simpa using this
  obtain ⟨s1, s2⟩ := rnd_between hn (7 / 100) (7 / 100) (7 / 100) (699 / 10000) (701 / 10000)
    le_rfl le_rfl (by norm_num) (by norm_num)
    (by norm_num) (by norm_num)
  obtain ⟨a1, a2⟩ := rnd_between hn (fl.rnd ((7 : Int) : ℚ) * fl.rnd (7 / 100)) (4893 / 10000)
    (4907 / 10000) (489 / 1000) (491 / 1000)
    (by rw [h7]; linarith) (by rw [h7]; linarith) (by norm_num) (by norm_num)
    (by norm_num) (by norm_num)
  exact rnd_between hn (1 + fl.rnd (fl.rnd ((7 : Int) : ℚ) * fl.rnd (7 / 100))) (1489 / 1000)
    (1491 / 1000) _ _ (by linarith) (by linarith) (by norm_num)
    (by norm_num) (by norm_num) (by norm_num)

/-- The default streak multiplier of 100 days exceeds the cap. -/
theorem streak_hundred_over {fl : FloatOps} (hn : fl.Near) (he : fl.Exact) :
    3 / 2 < linearMult fl 100 (fl.rnd (7 / 100)) := by
  have h100 : fl.rnd ((100 : Int) : ℚ) = 100 := by
    have := he.int 100 (by norm_num)
    simpa using this
  obtain ⟨s1, s2⟩ := rnd_between hn (7 / 100) (7 / 100) (7 / 100) (699 / 10000) (701 / 10000)
    le_rfl le_rfl (by norm_num) (by norm_num)
    (by norm_num) (by norm_num)
  obtain ⟨a1, a2⟩ := rnd_between hn (fl.rnd ((100 : Int) : ℚ) * fl.rnd (7 / 100)) (699 / 100)
    (701 / 100) (69 / 10) (71 / 10)
    (by rw [h100]; linarith) (by rw [h100]; linarith) (by norm_num) (by norm_num)
    (by norm_num) (by norm_num)
  obtain ⟨b1, b2⟩ := rnd_between hn (1 + fl.rnd (fl.rnd ((100 : Int) : ℚ) * fl.rnd (7 / 100)))
    (79 / 10) (81 / 10) (78 / 10) (82 / 10) (by linarith)
    (by linarith) (by norm_num) (by norm_num) (by norm_num) (by norm_num)
  show 3 / 2 < fl.rnd (1 + fl.rnd (fl.rnd ((100 : Int) : ℚ) * fl.rnd (7 / 100)))
  linarith

/-- The product `25 * 1.5 * im * 1 * 1` for an impact multiplier within two
thousandths of 1.9 lies strictly between 71 and 72. -/
theorem coinProduct_security_between {fl : FloatOps} (hn : fl.Near) (he : fl.Exact) {im : ℚ}
    (h1 : 1898 / 1000 ≤ im) (h2 : im ≤ 1902 / 1000) :
    71 ≤ coinProduct fl 25 (3 / 2) im 1 1 ∧ coinProduct fl 25 (3 / 2) im 1 1 < 72 := by
  have h25 : fl.rnd ((25 : Int) : ℚ) = 25 := by
    have := he.int 25 (by norm_num)
    simpa using this
  have h375 : fl.rnd (25 * (3 / 2)) = 75 / 2 := by
    have := (he 75 1 (by norm_num) (by norm_num)).1
    norm_num at this ⊢
    exact this
  obtain ⟨c1, c2⟩ := rnd_between hn (75 / 2 * im) (7117 / 100) (7133 / 100) (711 / 10) (714 / 10)
    (by linarith) (by linarith) (by norm_num)
    (by norm_num) (by norm_num) (by norm_num)
  obtain ⟨d1, d2⟩ := rnd_between hn (fl.rnd (75 / 2 * im) * 1) (711 / 10) (714 / 10) (7105 / 100)
    (7145 / 100) (by linarith) (by linarith)
    (by norm_num) (by norm_num) (by norm_num) (by norm_num)
  obtain ⟨e1, e2⟩ := rnd_between hn (fl.rnd (fl.rnd (75 / 2 * im) * 1) * 1) (7105 / 100)
    (7145 / 100) (7101 / 100) (715 / 10)
    (by linarith) (by linarith) (by norm_num) (by norm_num) (by norm_num) (by norm_num)
  unfold coinProduct
  rw [h25, h375]
  constructor <;> linarith

/-- The product `10 * 1 * 1 * sm * 1` for a streak multiplier within two
thousandths of 1.49 lies strictly between 14 and 15. -/
theorem coinProduct_streak_between {fl : FloatOps} (hn : fl.Near) (he : fl.Exact) {sm : ℚ}
    (h1 : 1488 / 1000 ≤ sm) (h2 : sm ≤ 1492 / 1000) :
    14 ≤ coinProduct fl 10 1 1 sm 1 ∧ coinProduct fl 10 1 1 sm 1 < 15 := by
  have h10 : fl.rnd ((10 : Int) : ℚ) = 10 := by
    have := he.int 10 (by norm_num)
    simpa using this
  have h10' : fl.rnd 10 = 10 := by simpa using h10
  obtain ⟨c1, c2⟩ := rnd_between hn (10 * sm) (1488 / 100) (1492 / 100) (1487 / 100) (1493 / 100)
    (by linarith) (by linarith) (by norm_num)
    (by norm_num) (by norm_num) (by norm_num)
  obtain ⟨d1, d2⟩ := rnd_between hn (fl.rnd (10 * sm) * 1) (1487 / 100) (1493 / 100) (1486 / 100)
    (1494 / 100) (by linarith) (by linarith)
    (by norm_num) (by norm_num) (by norm_num) (by norm_num)
  unfold coinProduct
  rw [h10]
  simp only [mul_one, h10']
  rw [mul_one] at d1 d2
  constructor <;> linarith

/-- The product `10 * 1 * 1 * 1.5 * 1` is 15. -/
theorem coinProduct_capped {fl : FloatOps} (he : fl.Exact) :
    coinProduct fl 10 1 1 (3 / 2) 1 = 15 := by
  have h10 : fl.rnd ((10 : Int) : ℚ) = 10 := by
    have := he.int 10 (by norm_num)
    simpa using this
  have h10' : fl.rnd 10 = 10 := by simpa using h10
  have h15 : fl.rnd 15 = 15 := by
    have := he.int 15 (by norm_num)
    simpa using this
  have e : (10 : ℚ) * (3 / 2) = 15 := by norm_num
  unfold coinProduct
  rw [h10]
  simp only [mul_one, h10', e, h15]

/-- The streak-day count enters a breakdown only through the capped streak
multiplier. -/
theorem Compute_eq_of_streak (fl : FloatOps) (p : FarmProof) (cfg : Config) (upgradeMult : ℚ)
    (d1 d2 : Int)
    (h : (if linearMult fl d1 cfg.StreakStep > cfg.StreakCap then cfg.StreakCap
          else linearMult fl d1 cfg.StreakStep)
       = (if linearMult fl d2 cfg.StreakStep > cfg.StreakCap then cfg.StreakCap
          else linearMult fl d2 cfg.StreakStep)) :
    Compute fl p cfg upgradeMult d1 = Compute fl p cfg upgradeMult d2 := by
  simp only [Compute]
  rw [h]

theorem streak_capped_of_ge {x cap : ℚ} (h : cap ≤ x) :
    (if x > cap then cap else x) = cap := by
  split
  · rfl
  · rename_i h'
    exact le_antisymm (not_lt.mp h') h

/-- The default streak multiplier of 7 days is not capped. -/
theorem DefaultConfig_streak_seven {fl : FloatOps} (hn : fl.Near) (he : fl.Exact)
    (p : FarmProof) (upgradeMult : ℚ) :
    (Compute fl p (DefaultConfig fl) upgradeMult 7).StreakMult
      = linearMult fl 7 (fl.rnd (7 / 100)) := by
  rw [Compute_StreakMult]
  exact min_eq_left (le_trans (streak_seven_between hn he).2 (by norm_num [DefaultConfig]))

/-- The default streak multiplier of 100 days is the cap. -/
theorem DefaultConfig_streak_hundred {fl : FloatOps} (hn : fl.Near) (he : fl.Exact)
    (p : FarmProof) (upgradeMult : ℚ) :
    (Compute fl p (DefaultConfig fl) upgradeMult 100).StreakMult = 3 / 2 := by
  rw [Compute_StreakMult]
  exact min_eq_right (le_of_lt (streak_hundred_over hn he))


/-! ## The scoring engine: monotonicity -/

theorem linearMult_mono {fl : FloatOps} (hm : fl.Monotone) {step : ℚ} (hs : 0 ≤ step)
    {n1 n2 : Int} (h : n1 ≤ n2) : linearMult fl n1 step ≤ linearMult fl n2 step := by
  unfold linearMult
  apply hm
  have h1 : fl.rnd (n1 : ℚ) ≤ fl.rnd (n2 : ℚ) := hm _ _ (by exact_mod_cast h)
  have h2 := hm _ _ (mul_le_mul_of_nonneg_right h1 hs)
  linarith

theorem one_le_linearMult {fl : FloatOps} (hm : fl.Monotone) (he : fl.Exact) {step : ℚ}
    (hs : 0 ≤ step) {n : Int} (hn : 0 ≤ n) : 1 ≤ linearMult fl n step := by
  unfold linearMult
  apply one_le_rnd hm he
  have h1 : 0 ≤ fl.rnd (n : ℚ) := rnd_nonneg hm he (by exact_mod_cast hn)
  have h2 := rnd_nonneg hm he (mul_nonneg h1 hs)
  linarith

theorem coinProduct_nonneg {fl : FloatOps} (hm : fl.Monotone) (he : fl.Exact) {base : Int}
    (hb : 0 ≤ base) {c i s u : ℚ} (hc : 0 ≤ c) (hi : 0 ≤ i) (hs : 0 ≤ s) (hu : 0 ≤ u) :
    0 ≤ coinProduct fl base c i s u := by
  unfold coinProduct
  have h0 : 0 ≤ fl.rnd (base : ℚ) := rnd_nonneg hm he (by exact_mod_cast hb)
  have h1 := rnd_nonneg hm he (mul_nonneg h0 hc)
  have h2 := rnd_nonneg hm he (mul_nonneg h1 hi)
  have h3 := rnd_nonneg hm he (mul_nonneg h2 hs)
  exact rnd_nonneg hm he (mul_nonneg h3 hu)

theorem coinProduct_mono {fl : FloatOps} (hm : fl.Monotone) (he : fl.Exact) {base : Int}
    (hb : 0 ≤ base) {c1 c2 i1 i2 s1 s2 u : ℚ} (hc : 0 ≤ c1) (hcc : c1 ≤ c2) (hi : 0 ≤ i1)
    (hii : i1 ≤ i2) (hs : 0 ≤ s1) (hss : s1 ≤ s2) (hu : 0 ≤ u) :
    coinProduct fl base c1 i1 s1 u ≤ coinProduct fl base c2 i2 s2 u := by
  unfold coinProduct
  have h0 : 0 ≤ fl.rnd (base : ℚ) := rnd_nonneg hm he (by exact_mod_cast hb)
  have a1 := rnd_nonneg hm he (mul_nonneg h0 hc)
  have m1 := hm _ _ (mul_le_mul_of_nonneg_left hcc h0)
  have a2 := rnd_nonneg hm he (mul_nonneg a1 hi)
  have m2 := hm _ _ (mul_le_mul m1 hii hi (le_trans a1 m1))
  have a3 := rnd_nonneg hm he (mul_nonneg a2 hs)
  have m3 := hm _ _ (mul_le_mul m2 hss hs (le_trans a2 m2))
  exact hm _ _ (mul_le_mul_of_nonneg_right m3 hu)

theorem DefaultConfig_steps_nonneg {fl : FloatOps} (hm : fl.Monotone) (he : fl.Exact) :
    0 ≤ (DefaultConfig fl).ImpactStep ∧ 0 ≤ (DefaultConfig fl).StreakStep :=
  ⟨rnd_nonneg hm he (by norm_num), rnd_nonneg hm he (by norm_num)⟩

theorem DefaultConfig_base_pos (fl : FloatOps) (p : FarmProof) (upgradeMult : ℚ)
    (streakDays : Int) :
    0 < (Compute fl p (DefaultConfig fl) upgradeMult streakDays).BaseCoins := by
  rw [Compute_BaseCoins]
  simp only [DefaultConfig]
  split_ifs <;> simp_all

theorem DefaultConfig_base_eq (fl : FloatOps) (p1 p2 : FarmProof) (u1 u2 : ℚ) (d1 d2 : Int)
    (h : p1.Action.Category = p2.Action.Category) :
    (Compute fl p1 (DefaultConfig fl) u1 d1).BaseCoins
      = (Compute fl p2 (DefaultConfig fl) u2 d2).BaseCoins := by
  rw [Compute_BaseCoins, Compute_BaseCoins, h]

/-- The default complexity multiplier: 1 for low and for an unknown tier,
1.25 for medium, 1.5 for high. -/
theorem DefaultConfig_complexity (fl : FloatOps) (p : FarmProof) (upgradeMult : ℚ)
    (streakDays : Int) :
    (Compute fl p (DefaultConfig fl) upgradeMult streakDays).ComplexityMult =
      if p.ScoringHints.Complexity = "medium" then 5 / 4
      else if p.ScoringHints.Complexity = "high" then 3 / 2 else 1 := by
  rw [Compute_ComplexityMult]
  simp only [DefaultConfig]
  split_ifs <;> simp_all

theorem DefaultConfig_complexity_mono (fl : FloatOps) (p1 p2 : FarmProof) (u1 u2 : ℚ)
    (d1 d2 : Int)
    (h : p1.ScoringHints.Complexity = p2.ScoringHints.Complexity ∨
      (p1.ScoringHints.Complexity = "low" ∧
        (p2.ScoringHints.Complexity = "medium" ∨ p2.ScoringHints.Complexity = "high")) ∨
      (p1.ScoringHints.Complexity = "medium" ∧ p2.ScoringHints.Complexity = "high")) :
    0 ≤ (Compute fl p1 (DefaultConfig fl) u1 d1).ComplexityMult ∧
    (Compute fl p1 (DefaultConfig fl) u1 d1).ComplexityMult
      ≤ (Compute fl p2 (DefaultConfig fl) u2 d2).ComplexityMult := by
  rw [DefaultConfig_complexity, DefaultConfig_complexity]
  rcases h with h | ⟨h1, h2 | h2⟩ | ⟨h1, h2⟩
  · rw [h]
    split_ifs <;> norm_num
  · rw [h1, h2, if_neg (by decide), if_neg (by decide), if_pos rfl]; norm_num
  · rw [h1, h2, if_neg (by decide), if_neg (by decide), if_neg (by decide), if_pos rfl]
    norm_num
  · rw [h1, h2, if_pos rfl, if_neg (by decide), if_pos rfl]; norm_num

theorem DefaultConfig_impact_mono {fl : FloatOps} (hm : fl.Monotone) (he : fl.Exact)
    (p1 p2 : FarmProof) (u1 u2 : ℚ) (d1 d2 : Int)
    (h : p1.ScoringHints.ImpactRadius ≤ p2.ScoringHints.ImpactRadius) :
    0 ≤ (Compute fl p1 (DefaultConfig fl) u1 d1).ImpactMult ∧
    (Compute fl p1 (DefaultConfig fl) u1 d1).ImpactMult
      ≤ (Compute fl p2 (DefaultConfig fl) u2 d2).ImpactMult := by
  have hs := (DefaultConfig_steps_nonneg hm he).1
  rw [Compute_ImpactMult, Compute_ImpactMult]
  by_cases h1 : p1.ScoringHints.ImpactRadius ≤ 1
  · rw [if_pos h1]
    refine ⟨by norm_num, ?_⟩
    split
    · exact le_rfl
    · exact one_le_linearMult hm he hs (by omega)
  · rw [if_neg h1, if_neg (by omega)]
    exact ⟨le_trans (by norm_num) (one_le_linearMult hm he hs (by omega)),
      linearMult_mono hm hs (by omega)⟩

theorem DefaultConfig_streak_mono {fl : FloatOps} (hm : fl.Monotone) (he : fl.Exact)
    (p1 p2 : FarmProof) (u1 u2 : ℚ) (d1 d2 : Int) (h0 : 0 ≤ d1) (h : d1 ≤ d2) :
    0 ≤ (Compute fl p1 (DefaultConfig fl) u1 d1).StreakMult ∧
    (Compute fl p1 (DefaultConfig fl) u1 d1).StreakMult
      ≤ (Compute fl p2 (DefaultConfig fl) u2 d2).StreakMult := by
  have hs := (DefaultConfig_steps_nonneg hm he).2
  rw [Compute_StreakMult, Compute_StreakMult]
  refine ⟨le_min (le_trans (by norm_num) (one_le_linearMult hm he hs h0)) ?_,
    min_le_min (linearMult_mono hm hs h) le_rfl⟩
  show (0 : ℚ) ≤ 3 / 2
  norm_num

/-- The conversion of a non-negative product below `2^63` is its floor. -/
theorem toInt_of_range {fl : FloatOps} (hc : fl.Converts) {x : ℚ} (h0 : 0 ≤ x)
    (h1 : x < 2 ^ 63) : fl.toInt x = ⌊x⌋ := by
  have ht := truncate_of_nonneg h0
  have f0 : 0 ≤ ⌊x⌋ := Int.floor_nonneg.mpr h0
  have f1 : ⌊x⌋ < 2 ^ 63 := Int.floor_lt.mpr (by exact_mod_cast h1)
  rw [hc.1 x (by rw [ht]; omega) (by rw [ht]; exact f1), ht]

/-- Rounding does not fall below an exact value under the argument. -/
theorem le_rnd_of_exact {fl : FloatOps} (hm : fl.Monotone) {a x : ℚ} (ha : fl.rnd a = a)
    (h : a ≤ x) : a ≤ fl.rnd x := by
  have := hm a x h
  rwa [ha] at this

/-- In every `float64` arithmetic whose rounding is monotonic, keeps short
binary fractions exact and converts into the range of `int`, the default
total of a proof of category incident with complexity low and impact radius
`9 * 10^18` is below `2^63`, and the floor of its product is not. -/
theorem Compute_total_lt_floor {fl : FloatOps} (hm : fl.Monotone) (he : fl.Exact)
    (hc : fl.Converts) :
    (Compute fl (makeProof "incident" "low" 9000000000000000000) (DefaultConfig fl) 1
        0).TotalCoins < 2 ^ 63 ∧
    2 ^ 63 ≤ ⌊Result.product fl
      (Compute fl (makeProof "incident" "low" 9000000000000000000) (DefaultConfig fl) 1 0)⌋ := by
  have hb : (Compute fl (makeProof "incident" "low" 9000000000000000000) (DefaultConfig fl) 1
      0).BaseCoins = 30 := by
    simp [Compute_BaseCoins, DefaultConfig, makeProof]
  have hcm : (Compute fl (makeProof "incident" "low" 9000000000000000000) (DefaultConfig fl) 1
      0).ComplexityMult = 1 := by
    simp [Compute_ComplexityMult, DefaultConfig, makeProof]
  have him : (Compute fl (makeProof "incident" "low" 9000000000000000000) (DefaultConfig fl) 1
      0).ImpactMult = fl.rnd (1 + fl.rnd (fl.rnd 8999999999999999999 * fl.rnd (1 / 10))) := by
    simp [Compute_ImpactMult, DefaultConfig, makeProof, linearMult]
  have hsm := DefaultConfig_streak_zero he (makeProof "incident" "low" 9000000000000000000) 1
  have hum : (Compute fl (makeProof "incident" "low" 9000000000000000000) (DefaultConfig fl) 1
      0).UpgradeMult = 1 := by
    rw [Compute_UpgradeMult]; norm_num
  constructor
  · rw [Compute_TotalCoins_of_pos fl _ _ 1 0 (by rw [hb]; norm_num)]
    have := (hc.2 (Result.product fl (Compute fl
      (makeProof "incident" "low" 9000000000000000000) (DefaultConfig fl) 1 0))).2
    exact max_lt (by norm_num) this
  · have e62 : fl.rnd (2 ^ 62) = 2 ^ 62 := by
      have := (he 1 62 (by norm_num) (by norm_num)).2
      simpa using this
    have e63 : fl.rnd (2 ^ 63) = 2 ^ 63 := by
      have := (he 1 63 (by norm_num) (by norm_num)).2
      simpa using this
    have e332 : fl.rnd (3 / 32) = 3 / 32 := by
      have := (he 3 5 (by norm_num) (by norm_num)).1
      norm_num at this ⊢
      exact this
    have e357 : fl.rnd (3 * 2 ^ 57) = 3 * 2 ^ 57 := by
      have := (he 3 57 (by norm_num) (by norm_num)).2
      simpa using this
    have e30 : fl.rnd ((30 : Int) : ℚ) = 30 := by
      have := he.int 30 (by norm_num)
      simpa using this
    have e30' : fl.rnd 30 = 30 := by simpa using e30
    have a1 : (2 : ℚ) ^ 62 ≤ fl.rnd 8999999999999999999 := le_rnd_of_exact hm e62 (by norm_num)
    have a2 : (3 : ℚ) / 32 ≤ fl.rnd (1 / 10) := le_rnd_of_exact hm e332 (by norm_num)
    have a3 : (3 : ℚ) * 2 ^ 57 ≤ fl.rnd (fl.rnd 8999999999999999999 * fl.rnd (1 / 10)) := by
      apply le_rnd_of_exact hm e357
      have := mul_le_mul a1 a2 (by norm_num) (le_trans (by norm_num) a1)
      linarith
    have a4 : (3 : ℚ) * 2 ^ 57
        ≤ fl.rnd (1 + fl.rnd (fl.rnd 8999999999999999999 * fl.rnd (1 / 10))) := by
      apply le_rnd_of_exact hm e357
      linarith
    have a5 : (2 : ℚ) ^ 63
        ≤ fl.rnd (30 * fl.rnd (1 + fl.rnd (fl.rnd 8999999999999999999 * fl.rnd (1 / 10)))) := by
      apply le_rnd_of_exact hm e63
      linarith
    have a6 := le_rnd_of_exact hm e63 a5
    have a7 := le_rnd_of_exact hm e63 a6
    have hp : (2 : ℚ) ^ 63 ≤ Result.product fl (Compute fl
        (makeProof "incident" "low" 9000000000000000000) (DefaultConfig fl) 1 0) := by
      unfold Result.product
      rw [hb, hcm, him, hsm, hum]
      unfold coinProduct
      rw [e30]
      simp only [mul_one, e30']
      exact a7
    exact Int.le_floor.mpr (by exact_mod_cast hp)

/-! ## Ingestion: the coins awarded and the farm aggregate -/

theorem addInt_of_range (a b : Int) (h1 : -(2 ^ 63) ≤ a + b) (h2 : a + b < 2 ^ 63) :
    addInt a b = a + b := by
  unfold addInt
  omega

theorem addInt_addInt_zero (x c : Int) : addInt (addInt x 0) c = addInt (x + c) 0 := by
  unfold addInt
  omega

theorem updateBalance_nonpos (env : SubmitEnv) (s : Store) (coins : Int) (h : coins ≤ 0) :
    updateBalance env s coins = s := by
  unfold updateBalance
  rw [if_neg (by omega)]

/-- When the read and the write of the farm succeed, positive coins are added
to both totals and nothing else but the update time changes. -/
theorem updateBalance_ok (env : SubmitEnv) (s : Store) (coins : Int) (farm : FarmState)
    (hpos : 0 < coins) (hg : env.getFarmFails = false) (hu : env.updateFarmFails = false)
    (hnow : env.updatedAt.marshals = true)
    (hlast : (farm.LastActiveAt.map Time.marshals).getD true = true)
    (hf : s.GetFarm false = .ok farm) :
    updateBalance env s coins =
      { s with farm := some { farm with TotalCoins := addInt farm.TotalCoins coins,
                                        CurrentCoins := addInt farm.CurrentCoins coins,
                                        UpdatedAt := env.updatedAt } } := by
  unfold updateBalance
  rw [if_pos hpos, hg, hf]
  simp only [Store.UpdateFarm, hu, hnow, hlast, Bool.and_self, Bool.not_true,
    Bool.false_eq_true, if_false]

/-- The name, the streak-day count and the last-active instant of the farm
are as before the balance update, whatever fails. -/
theorem updateBalance_view (env : SubmitEnv) (s : Store) (coins : Int) (farm : FarmState)
    (hf : s.GetFarm false = .ok farm) :
    ∃ farm', (updateBalance env s coins).GetFarm false = .ok farm' ∧
      farm'.Name = farm.Name ∧ farm'.StreakDays = farm.StreakDays ∧
      farm'.LastActiveAt = farm.LastActiveAt := by
  rcases updateBalance_farm env s coins farm hf with h | ⟨h, _⟩
  · refine ⟨{ farm with TotalCoins := addInt farm.TotalCoins coins,
                         CurrentCoins := addInt farm.CurrentCoins coins,
                         UpdatedAt := env.updatedAt }, ?_, rfl, rfl, rfl⟩
    unfold Store.GetFarm
    rw [h]
    simp only [Bool.false_eq_true, if_false]
  · refine ⟨farm, ?_, rfl, rfl, rfl⟩
    unfold Store.GetFarm at hf ⊢
    rw [h]
    exact hf

theorem AppendProof_GetFarm (s s' : Store) (fail : Bool) (now : Time) (p : FarmProof)
    (coins : Int) (h : s.AppendProof fail now p coins = .ok s') :
    s'.GetFarm false = s.GetFarm false := by
  rw [(AppendProof_ok s s' fail now p coins h).1]
  rfl

/-- Under the default configuration every eligible proof scores at least one
coin. -/
theorem handlerScore_default_pos (fl : FloatOps) (p : FarmProof) :
    1 ≤ handlerScore fl (DefaultConfig fl) p := by
  unfold handlerScore
  rw [Compute_TotalCoins_of_pos fl p _ 1 0 (DefaultConfig_base_pos fl p 1 0)]
  exact le_max_left _ _

theorem chainLinkage_error (c : Primitives) (latest : Option StoredProof) (p : FarmProof)
    (r : Response) (h : chainLinkage c latest p = .error r) :
    r = .error 409 "proof chain linkage invalid" ∨ r = .error 500 "chain hash error" := by
  unfold chainLinkage at h
  split at h
  · cases h
  · split at h
    · cases h
      exact Or.inr rfl
    · split at h
      · cases h
        exact Or.inl rfl
      · cases h

/-- The accepted response names the coins computed by the handler. -/
theorem handleSubmitProof_accepted (c : Primitives) (score : FarmProof → Int) (env : SubmitEnv)
    (s : Store) (body : Option FarmProof) (coins : Int)
    (h : (handleSubmitProof c score env s body).1 = .proofAccepted coins) :
    ∃ p s', body = some p ∧
      coins = (if p.Outcome.Verified && p.Outcome.Status == OutcomeSuccess then score p
               else 0) ∧
      s.AppendProof env.appendProofFails env.receivedAt p coins = .ok s' ∧
      (handleSubmitProof c score env s body).2 = updateBalance env s' coins := by
  have key : ∀ r, handleSubmitProof c score env s body = r → r.1 = .proofAccepted coins →
      ∃ p s', body = some p ∧
        coins = (if p.Outcome.Verified && p.Outcome.Status == OutcomeSuccess then score p
                 else 0) ∧
        s.AppendProof env.appendProofFails env.receivedAt p coins = .ok s' ∧
        r.2 = updateBalance env s' coins := by
    intro r hr hacc
    unfold handleSubmitProof at hr
    split at hr
    · subst hr; cases hacc
    · rename_i p
      split at hr
      · subst hr; cases hacc
      · subst hr; cases hacc
      · split at hr
        · subst hr; cases hacc
        · split at hr
          · subst hr; cases hacc
          · split at hr
            · subst hr; cases hacc
            · split at hr
              · subst hr; cases hacc
              · split at hr
                · rename_i r hl
                  subst hr
                  rcases chainLinkage_error c _ p r hl with h1 | h1 <;>
                    · rw [h1] at hacc; cases hacc
                · simp only at hr
                  split at hr
                  · subst hr; cases hacc
                  · subst hr; cases hacc
                  · rename_i s' ha
                    subst hr
                    simp only [Response.proofAccepted.injEq] at hacc
                    refine ⟨p, s', rfl, hacc.symm, ?_, ?_⟩
                    · rw [← hacc]; exact ha
                    · rw [← hacc]
  exact key _ rfl h

theorem demoHugeFirst_Verify : Verify demoPrimitives demoHugeFirst demoKey = .ok () :=
  demoSign_Verify _ (by decide)

theorem demoHugeSecond_Verify : Verify demoPrimitives demoHugeSecond demoKey = .ok () :=
  demoSign_Verify _ (by decide)

set_option maxRecDepth 100000 in
theorem demoHugeFirst_marshals : demoHugeFirst.Timestamp.marshals = true := by decide!

set_option maxRecDepth 100000 in
theorem demoHugeFirst_Hash :
    demoHugeFirst.Hash demoPrimitives = .ok demoHugeSecond.PrevProofHash := by
  have h : demoHugeSecond.PrevProofHash = demoHash demoHugeFirst := by
    have := congrArg (fun x : FarmProof => x.PrevProofHash)
      (demoSign_cleared (demoHugeUnsigned "h1" "h0" (demoHash demoHugeFirst)))
    exact this
  rw [h]
  exact demoHash_ok demoHugeFirst demoHugeFirst_marshals

set_option maxRecDepth 100000 in
/-- The tracker accepts `h0` for `9000000000000000027` coins. -/
theorem demoStore_accepts_huge :
    handleSubmitProof demoPrimitives demoHandlerScore demoEnv demoStore (some demoHugeFirst)
      = (.proofAccepted 9000000000000000027, demoStoreHuge) := by
  rw [handleSubmitProof_after_verify demoPrimitives demoHandlerScore demoEnv demoStore
    demoHugeFirst demoAgent demoKey none (by decide!) rfl demo_key_decodes demoHugeFirst_Verify
    (by decide!)]
  have hs : demoHandlerScore demoHugeFirst = 9000000000000000027 := by decide!
  have ho : (demoHugeFirst.Outcome.Verified && demoHugeFirst.Outcome.Status == OutcomeSuccess)
      = true := by decide!
  simp only [ho, if_true, hs]
  rfl

set_option maxRecDepth 100000 in
/-- The tracker then accepts `h1` for as many coins, and the sum wraps
around. -/
theorem demoStoreHuge_accepts_huge :
    handleSubmitProof demoPrimitives demoHandlerScore demoEnv demoStoreHuge (some demoHugeSecond)
      = (.proofAccepted 9000000000000000027, demoStoreHugeTwice) := by
  rw [handleSubmitProof_after_verify demoPrimitives demoHandlerScore demoEnv demoStoreHuge
    demoHugeSecond demoAgent demoKey
    (some { FarmProof := demoHugeFirst, CoinsAwarded := 9000000000000000027,
            ReceivedAt := demoEnv.receivedAt })
    (by decide!) rfl demo_key_decodes demoHugeSecond_Verify (by rfl)]
  have hl : chainLinkage demoPrimitives
      (some { FarmProof := demoHugeFirst, CoinsAwarded := 9000000000000000027,
              ReceivedAt := demoEnv.receivedAt }) demoHugeSecond = .ok () :=
    (chainLinkage_some_iff _ _ _).mpr ⟨by decide!, demoHugeFirst_Hash⟩
  have hs : demoHandlerScore demoHugeSecond = 9000000000000000027 := by decide!
  have ho : (demoHugeSecond.Outcome.Verified && demoHugeSecond.Outcome.Status == OutcomeSuccess)
      = true := by decide!
  rw [hl]
  simp only [ho, if_true, hs]
  rfl

/-! ## The trust store: enroll, approve, revoke -/

theorem bucketGet_bucketPut_same {α : Type} (key : α → String) (x : α) :
    ∀ (l : List α), bucketGet key (key x) (bucketPut key x l) = some x := by
  intro l
  induction l with
  | nil => simp [bucketPut, bucketGet]
  | cons y ys ih =>
    unfold bucketPut
    split
    · simp [bucketGet]
    · split
      · simp [bucketGet]
      · rename_i h _
        rw [bucketGet_cons]
        rw [if_neg h]
        exact ih

theorem mem_of_mem_bucketPut {α : Type} (key : α → String) (x z : α) :
    ∀ (l : List α), z ∈ bucketPut key x l → z = x ∨ z ∈ l := by
  intro l
  induction l with
  | nil => simp [bucketPut]
  | cons y ys ih =>
    unfold bucketPut
    split
    · intro h
      rcases List.mem_cons.mp h with h | h
      · exact Or.inl h
      · exact Or.inr (List.mem_cons_of_mem _ h)
    · split
      · intro h
        rcases List.mem_cons.mp h with h | h
        · exact Or.inl h
        · exact Or.inr h
      · intro h
        rcases List.mem_cons.mp h with h | h
        · exact Or.inr (by rw [h]; exact List.mem_cons_self _ _)
        · rcases ih h with h | h
          · exact Or.inl h
          · exact Or.inr (List.mem_cons_of_mem _ h)

theorem mem_bucketPut_of_mem {α : Type} (key : α → String) (x z : α) (hz : key z ≠ key x) :
    ∀ (l : List α), z ∈ l → z ∈ bucketPut key x l := by
  intro l
  induction l with
  | nil => simp
  | cons y ys ih =>
    intro h
    unfold bucketPut
    split
    · rename_i hk
      rcases List.mem_cons.mp h with h | h
      · exact absurd (by rw [h]; exact hk) hz
      · exact List.mem_cons_of_mem _ h
    · split
      · exact List.mem_cons_of_mem _ h
      · rcases List.mem_cons.mp h with h | h
        · rw [h]; exact List.mem_cons_self _ _
        · exact List.mem_cons_of_mem _ (ih h)

theorem bucketGet_some {α : Type} (key : α → String) (k : String) (l : List α) (y : α)
    (h : bucketGet key k l = some y) : y ∈ l ∧ key y = k := by
  unfold bucketGet at h
  exact ⟨List.mem_of_find?_eq_some h, by simpa using List.find?_some h⟩

theorem GetAgent_ok (s : Store) (id : String) (agent : AgentRecord)
    (h : s.GetAgent false id = .ok agent) :
    bucketGet (fun a : AgentRecord => a.AgentID) id s.agents = some agent ∧
      agent ∈ s.agents ∧ agent.AgentID = id := by
  unfold Store.GetAgent at h
  simp only [Bool.false_eq_true, if_false] at h
  split at h
  · cases h
  · rename_i a ha
    cases h
    exact ⟨ha, bucketGet_some _ _ _ _ ha⟩

/-- A successful `UpsertAgent`: the record is found under its identifier,
every other identifier is looked up as before, and nothing else changes. -/
theorem UpsertAgent_ok (s : Store) (agent : AgentRecord)
    (he : agent.EnrolledAt.marshals = true)
    (hr : (agent.RevokedAt.map Time.marshals).getD true = true) :
    s.UpsertAgent false agent
        = .ok { s with agents := bucketPut (fun a : AgentRecord => a.AgentID) agent s.agents } ∧
      ({ s with agents := bucketPut (fun a : AgentRecord => a.AgentID) agent s.agents }
        : Store).GetAgent false agent.AgentID = .ok agent ∧
      ∀ id, id ≠ agent.AgentID →
        ({ s with agents := bucketPut (fun a : AgentRecord => a.AgentID) agent s.agents }
          : Store).GetAgent false id = s.GetAgent false id := by
  refine ⟨?_, ?_, ?_⟩
  · unfold Store.UpsertAgent
    simp only [he, hr, Bool.and_self, Bool.not_true, Bool.false_eq_true, if_false]
  · unfold Store.GetAgent
    simp only [Bool.false_eq_true, if_false]
    rw [bucketGet_bucketPut_same (fun a : AgentRecord => a.AgentID) agent s.agents]
  · intro id hid
    unfold Store.GetAgent
    simp only [Bool.false_eq_true, if_false]
    rw [bucketGet_bucketPut_other (fun a : AgentRecord => a.AgentID) agent id hid]

/-- `setAgentStatus` on an existing record, with storage that does not
fail. -/
theorem setAgentStatus_ok (s : Store) (id : String) (status : AgentStatus)
    (agent : AgentRecord) (hg : s.GetAgent false id = .ok agent)
    (he : agent.EnrolledAt.marshals = true)
    (hr : (agent.RevokedAt.map Time.marshals).getD true = true) :
    setAgentStatus false false s id status
      = (.agentStatus status,
         { s with agents := (bucketPut (fun a : AgentRecord => a.AgentID)
            ({ agent with Status := status }) s.agents) }) := by
  unfold setAgentStatus
  rw [hg]
  simp only
  rw [(UpsertAgent_ok s { agent with Status := status } he hr).1]

theorem serveAll_cons (c : Primitives) (score : FarmProof → Int) (s : Store) (r : Request)
    (rest : List Request) :
    (serveAll c score s (r :: rest)).2 = (serveAll c score (ServeHTTP c score s r).2 rest).2 :=
  rfl

/-- The cursor loop once it is past the starting point: the entries of the
agent are appended to the results until the limit is reached. -/
theorem listProofsLoop_past (agentID afterProofID : String) (limit : Int) :
    ∀ (l results : List StoredProof), (limit ≤ 0 ∨ (results.length : Int) < limit) →
      listProofsLoop agentID afterProofID limit true results l =
        if limit > 0 then
          (results ++ l.filter (fun sp => sp.FarmProof.Agent.AgentID == agentID)).take
            limit.toNat
        else results ++ l.filter (fun sp => sp.FarmProof.Agent.AgentID == agentID) := by
  intro l
  induction l with
  | nil =>
    intro results h
    simp only [listProofsLoop, List.filter_nil, List.append_nil]
    split
    · rw [List.take_of_length_le]
      omega
    · rfl
  | cons sp rest ih =>
    intro results h
    unfold listProofsLoop
    simp only [Bool.not_true, Bool.false_eq_true, if_false]
    by_cases ha : sp.FarmProof.Agent.AgentID = agentID
    · have hq : (sp.FarmProof.Agent.AgentID == agentID) = true := by simpa using ha
      have hf : (sp :: rest).filter (fun sp => sp.FarmProof.Agent.AgentID == agentID)
          = sp :: rest.filter (fun sp => sp.FarmProof.Agent.AgentID == agentID) := by
        rw [List.filter_cons]; simp only [hq, if_true]
      rw [if_neg (by simpa using ha), hf]
      by_cases hl : limit > 0 ∧ ((results ++ [sp]).length : Int) ≥ limit
      · rw [if_pos hl, if_pos hl.1]
        have hlen : limit.toNat = results.length + 1 := by
          have := hl.2
          simp only [List.length_append, List.length_singleton] at this
          push_cast at this
          omega
        rw [hlen, List.take_append_eq_append_take]
        simp
      · rw [if_neg hl]
        have hpre : limit ≤ 0 ∨ ((results ++ [sp]).length : Int) < limit := by
          by_cases h0 : limit > 0
          · right
            have : ¬ ((results ++ [sp]).length : Int) ≥ limit := fun h' => hl ⟨h0, h'⟩
            omega
          · left; omega
        rw [ih (results ++ [sp]) hpre]
        simp only [List.append_assoc, List.singleton_append]
    · have hq : (sp.FarmProof.Agent.AgentID == agentID) = false := by simpa using ha
      have hf : (sp :: rest).filter (fun sp => sp.FarmProof.Agent.AgentID == agentID)
          = rest.filter (fun sp => sp.FarmProof.Agent.AgentID == agentID) := by
        rw [List.filter_cons]; simp only [hq, Bool.false_eq_true, if_false]
      rw [if_pos (by simpa using ha), hf]
      exact ih results h

/-- The cursor loop before the starting point: it skips up to and including
the first entry whose key is `afterProofID`. -/
theorem listProofsLoop_before (agentID afterProofID : String) (limit : Int) :
    ∀ (l results : List StoredProof),
      listProofsLoop agentID afterProofID limit false results l =
        listProofsLoop agentID afterProofID limit true results
          ((l.dropWhile (fun sp => sp.FarmProof.ProofID != afterProofID)).drop 1) := by
  intro l
  induction l with
  | nil =>
    intro results
    simp [listProofsLoop]
  | cons sp rest ih =>
    intro results
    rw [listProofsLoop]
    simp only [Bool.not_false, if_true]
    by_cases hk : sp.FarmProof.ProofID = afterProofID
    · rw [if_pos hk, List.dropWhile_cons_of_neg (by simp [hk])]
      simp
    · rw [if_neg hk, List.dropWhile_cons_of_pos (by simpa using hk)]
      exact ih results

/-- In a bucket the entries after the entry of a key are those with a greater
key; there are none when the key is not stored. -/
theorem dropWhile_sorted {α : Type} (key : α → String) (k : String) :
    ∀ (l : List α), l.Pairwise (fun a b => keyLess (key a).data (key b).data = true) →
      (l.dropWhile (fun y => key y != k)).drop 1 =
        if l.any (fun y => key y == k) then l.filter (fun y => keyLess k.data (key y).data)
        else [] := by
  intro l
  induction l with
  | nil => intro _; simp
  | cons y ys ih =>
    intro hs
    rw [List.pairwise_cons] at hs
    by_cases hk : key y = k
    · rw [List.dropWhile_cons_of_neg (by simp [hk])]
      have hany : (y :: ys).any (fun y => key y == k) = true := by simp [hk]
      have hf : (y :: ys).filter (fun y => keyLess k.data (key y).data)
          = ys.filter (fun y => keyLess k.data (key y).data) := by
        rw [List.filter_cons, hk, keyLess_irrefl]; simp
      rw [hany, if_pos rfl, List.drop_one, List.tail_cons, hf]
      symm
      rw [List.filter_eq_self]
      intro z hz
      rw [← hk]
      exact hs.1 z hz
    · rw [List.dropWhile_cons_of_pos (by simpa using hk), ih hs.2]
      have hany : (y :: ys).any (fun y => key y == k) = ys.any (fun y => key y == k) := by
        simp [hk]
      rw [hany]
      split
      · rename_i h
        obtain ⟨z, hz, hzk⟩ := List.any_eq_true.mp h
        have hzk' : key z = k := by simpa using hzk
        have := hs.1 z hz
        rw [hzk'] at this
        have hlt : keyLess k.data (key y).data = false := keyLess_asymm _ _ this
        rw [List.filter_cons, hlt]
        simp
      · rfl

/-! ## Concurrent submissions: checks and commit -/

/-- Handling a submission alone is its checks followed by its commit, on the
same database. -/
theorem handleSubmitProof_eq_check_finish (c : Primitives) (score : FarmProof → Int)
    (env : SubmitEnv) (s : Store) (body : Option FarmProof) :
    handleSubmitProof c score env s body
      = submitFinish env s (submitCheck c score env s body) := by
  unfold handleSubmitProof submitCheck
  cases body with
  | none => rfl
  | some p =>
    simp only
    cases s.GetAgent env.getAgentFails p.Agent.AgentID with
    | error e => cases e <;> rfl
    | ok agent =>
      simp only
      by_cases hst : agent.Status ≠ .active
      · rw [if_pos hst, if_pos hst]; rfl
      · rw [if_neg hst, if_neg hst]
        cases DecodePublicKey agent.PublicKey with
        | none => rfl
        | some pubKey =>
          simp only
          cases Verify c p pubKey with
          | error e => rfl
          | ok _ =>
            simp only
            cases s.LatestProof env.latestProofFails p.Agent.AgentID with
            | error e => rfl
            | ok latest =>
              simp only
              cases chainLinkage c latest p with
              | error r => rfl
              | ok _ => rfl

/-- The checks of a submission that passes the trust and signature checks. -/
theorem submitCheck_after_verify (c : Primitives) (score : FarmProof → Int)
    (env : SubmitEnv) (s : Store) (p : FarmProof) (agent : AgentRecord) (pubKey : PublicKey)
    (latest : Option StoredProof)
    (hagent : s.GetAgent env.getAgentFails p.Agent.AgentID = .ok agent)
    (hactive : agent.Status = .active)
    (hkey : DecodePublicKey agent.PublicKey = some pubKey)
    (hsig : Verify c p pubKey = .ok ())
    (hlatest : s.LatestProof env.latestProofFails p.Agent.AgentID = .ok latest)
    (hlink : chainLinkage c latest p = .ok ()) :
    submitCheck c score env s (some p)
      = .ok (p, if p.Outcome.Verified && p.Outcome.Status == OutcomeSuccess then score p
                else 0) := by
  unfold submitCheck
  simp only [hagent, hactive, ne_eq, not_true_eq_false, if_false, hkey, hsig, hlatest, hlink]

/-- What passed checks tell. -/
theorem submitCheck_ok (c : Primitives) (score : FarmProof → Int) (env : SubmitEnv)
    (s : Store) (body : Option FarmProof) (p : FarmProof) (coins : Int)
    (h : submitCheck c score env s body = .ok (p, coins)) :
    body = some p ∧
    ∃ agent pubKey latest,
      s.GetAgent env.getAgentFails p.Agent.AgentID = .ok agent ∧ agent.Status = .active ∧
      DecodePublicKey agent.PublicKey = some pubKey ∧ Verify c p pubKey = .ok () ∧
      s.LatestProof env.latestProofFails p.Agent.AgentID = .ok latest ∧
      chainLinkage c latest p = .ok () := by
  unfold submitCheck at h
  split at h
  · cases h
  · rename_i q
    split at h
    · cases h
    · cases h
    · rename_i agent hagent
      split at h
      · cases h
      · rename_i hst
        split at h
        · cases h
        · rename_i pubKey hkey
          split at h
          · cases h
          · rename_i u hsig
            split at h
            · cases h
            · rename_i latest hlatest
              split at h
              · cases h
              · rename_i u' hlink
                simp only [Except.ok.injEq, Prod.mk.injEq] at h
                obtain ⟨hq, _⟩ := h
                subst hq
                exact ⟨rfl, agent, pubKey, latest, hagent, by simpa using hst, hkey, hsig,
                  hlatest, hlink⟩

theorem AppendProof_new (s : Store) (now : Time) (p : FarmProof) (coins : Int)
    (hts : p.Timestamp.marshals = true) (hnow : now.marshals = true)
    (hnew : ∀ sp ∈ s.proofs, sp.FarmProof.ProofID ≠ p.ProofID)
    (hvalid : putKeyError p.ProofID = none) :
    s.AppendProof false now p coins
      = .ok { s with proofs := (bucketPut (fun x : StoredProof => x.FarmProof.ProofID)
          ⟨p, coins, now⟩ s.proofs) } := by
  have hget : (bucketGet (fun x : StoredProof => x.FarmProof.ProofID) p.ProofID
      s.proofs).isSome = false := by
    rw [Bool.eq_false_iff]
    intro h
    obtain ⟨y, hy, hk⟩ := (bucketGet_isSome_iff _ _ _).mp h
    exact hnew y hy hk
  unfold Store.AppendProof
  simp only [hts, hnow, hget, hvalid, Bool.and_self, Bool.not_true, Bool.false_eq_true,
    if_false]

/-- The commit of a new proof, with an append that does not fail, accepts
it. -/
theorem submitCommit_new (env : SubmitEnv) (s : Store) (p : FarmProof) (coins : Int)
    (hts : p.Timestamp.marshals = true) (hnow : env.receivedAt.marshals = true)
    (hfail : env.appendProofFails = false)
    (hnew : ∀ sp ∈ s.proofs, sp.FarmProof.ProofID ≠ p.ProofID)
    (hvalid : putKeyError p.ProofID = none) :
    submitCommit env s p coins
      = (.proofAccepted coins,
         updateBalance env
          { s with proofs := (bucketPut (fun x : StoredProof => x.FarmProof.ProofID)
              ⟨p, coins, env.receivedAt⟩ s.proofs) } coins) := by
  unfold submitCommit
  rw [hfail, AppendProof_new s env.receivedAt p coins hts hnow hnew hvalid]

theorem LatestProof_ok_flag (s : Store) (fail : Bool) (agentID : String)
    (latest : Option StoredProof) (h : s.LatestProof fail agentID = .ok latest) :
    fail = false := by
  cases fail with
  | false => rfl
  | true => simp [Store.LatestProof] at h

theorem GetAgent_congr (s s' : Store) (fail : Bool) (agentID : String)
    (h : s'.agents = s.agents) : s'.GetAgent fail agentID = s.GetAgent fail agentID := by
  unfold Store.GetAgent
  rw [h]

/-- A submission never changes the trust store. -/
theorem handleSubmitProof_agents (c : Primitives) (score : FarmProof → Int) (env : SubmitEnv)
    (s : Store) (body : Option FarmProof) :
    (handleSubmitProof c score env s body).2.agents = s.agents := by
  rcases handleSubmitProof_unchanged_or_accepted c score env s body with h | h
  · rw [h]
  · obtain ⟨p, s', _, ha, hr⟩ := h
    rw [hr]
    simp only
    rw [updateBalance_agents, (AppendProof_ok s s' _ _ p _ ha).1]

/-- The linkage check fails for a proof that does not name the latest stored
proof, when the hash of that proof can be computed. -/
theorem chainLinkage_other_id (c : Primitives) (l : StoredProof) (p : FarmProof)
    (hts : l.FarmProof.Timestamp.marshals = true)
    (hne : p.PrevProofID ≠ l.FarmProof.ProofID) :
    chainLinkage c (some l) p = .error (.error 409 "proof chain linkage invalid") := by
  obtain ⟨hq, hhq⟩ := Hash_ok_of_marshals c l.FarmProof hts
  unfold chainLinkage
  simp only [hhq]
  rw [if_pos (Or.inl hne)]

theorem demoSecondB_Verify : Verify demoPrimitives demoSecondB demoKey = .ok () :=
  demoSign_Verify _ (by decide)

set_option maxRecDepth 100000 in
theorem demoFirst_Hash_B : demoFirst.Hash demoPrimitives = .ok demoSecondB.PrevProofHash := by
  have h : demoSecondB.PrevProofHash = demoHash demoFirst := by
    have := congrArg (fun x : FarmProof => x.PrevProofHash)
      (demoSign_cleared (demoUnsigned "p1b" "p0" (demoHash demoFirst)))
    exact this
  rw [h]
  exact demoHash_ok demoFirst demoFirst_marshals

set_option maxRecDepth 100000 in
theorem demoSecond_check :
    submitCheck demoPrimitives demoScore demoEnv demoStoreAccepted (some demoSecond)
      = .ok (demoSecond, 10) := by
  rw [submitCheck_after_verify demoPrimitives demoScore demoEnv demoStoreAccepted demoSecond
    demoAgent demoKey
    (some { FarmProof := demoFirst, CoinsAwarded := 10, ReceivedAt := demoEnv.receivedAt })
    (by decide!) rfl demo_key_decodes demoSecond_Verify (by rfl)
    ((chainLinkage_some_iff _ _ _).mpr ⟨by decide!, demoFirst_Hash⟩)]
  rfl

set_option maxRecDepth 100000 in
theorem demoSecondB_check :
    submitCheck demoPrimitives demoScore demoEnv demoStoreAccepted (some demoSecondB)
      = .ok (demoSecondB, 10) := by
  rw [submitCheck_after_verify demoPrimitives demoScore demoEnv demoStoreAccepted demoSecondB
    demoAgent demoKey
    (some { FarmProof := demoFirst, CoinsAwarded := 10, ReceivedAt := demoEnv.receivedAt })
    (by decide!) rfl demo_key_decodes demoSecondB_Verify (by rfl)
    ((chainLinkage_some_iff _ _ _).mpr ⟨by decide!, demoFirst_Hash_B⟩)]
  rfl

/-! ## Invariants of the database under sequential requests -/

theorem sum_bucketPut {α : Type} (key : α → String) (f : α → Int) (x : α) :
    ∀ (l : List α), (∀ y ∈ l, key y ≠ key x) →
      ((bucketPut key x l).map f).sum = f x + (l.map f).sum := by
  intro l
  induction l with
  | nil => intro _; simp [bucketPut]
  | cons y ys ih =>
    intro h
    unfold bucketPut
    rw [if_neg (h y (List.mem_cons_self _ _))]
    split
    · simp
    · simp only [List.map_cons, List.sum_cons]
      rw [ih (fun z hz => h z (List.mem_cons_of_mem _ hz))]
      omega

theorem UpsertAgent_frame (s s' : Store) (fail : Bool) (agent : AgentRecord)
    (h : s.UpsertAgent fail agent = .ok s') : s'.proofs = s.proofs ∧ s'.farm = s.farm := by
  unfold Store.UpsertAgent at h
  split at h
  · cases h
  · split at h
    · cases h
    · cases h
      exact ⟨rfl, rfl⟩

theorem handleEnrollAgent_frame (upsertFails : Bool) (s : Store) (body : Option enrollRequest) :
    (handleEnrollAgent upsertFails s body).2.proofs = s.proofs ∧
      (handleEnrollAgent upsertFails s body).2.farm = s.farm := by
  unfold handleEnrollAgent
  split
  · exact ⟨rfl, rfl⟩
  · split
    · exact ⟨rfl, rfl⟩
    · split
      · exact ⟨rfl, rfl⟩
      · simp only
        split
        · exact ⟨rfl, rfl⟩
        · rename_i s' h
          exact UpsertAgent_frame s s' _ _ h

theorem setAgentStatus_frame (getFails upsertFails : Bool) (s : Store) (id : String)
    (status : AgentStatus) :
    (setAgentStatus getFails upsertFails s id status).2.proofs = s.proofs ∧
      (setAgentStatus getFails upsertFails s id status).2.farm = s.farm := by
  unfold setAgentStatus
  split
  · exact ⟨rfl, rfl⟩
  · exact ⟨rfl, rfl⟩
  · split
    · exact ⟨rfl, rfl⟩
    · rename_i s' h
      exact UpsertAgent_frame s s' _ _ h

theorem Conserved_empty : Conserved Store.empty := by
  refine ⟨List.Pairwise.nil, by simp [Store.empty], _, rfl, rfl, ?_, ?_⟩ <;>
    simp [Store.empty, addInt]

/-- Membership in a put, for a new key or not. -/
theorem coins_nonneg_bucketPut (x : StoredProof) (l : List StoredProof)
    (hx : 0 ≤ x.CoinsAwarded) (hl : ∀ sp ∈ l, 0 ≤ sp.CoinsAwarded) :
    ∀ sp ∈ bucketPut (fun y : StoredProof => y.FarmProof.ProofID) x l, 0 ≤ sp.CoinsAwarded := by
  intro sp hsp
  rcases mem_of_mem_bucketPut _ _ _ _ hsp with h | h
  · rw [h]; exact hx
  · exact hl sp h

/-- A submission whose storage operations all succeed keeps the invariant,
when the scoring awards no negative coins. -/
theorem handleSubmitProof_conserved (c : Primitives) (score : FarmProof → Int)
    (hscore : ∀ p, 0 ≤ score p) (env : SubmitEnv) (s : Store) (body : Option FarmProof)
    (hok : (Request.submitProof env body).storageSucceeds = true) (h : Conserved s) :
    Conserved (handleSubmitProof c score env s body).2 := by
  rcases handleSubmitProof_unchanged_or_accepted c score env s body with hu | hu
  · rw [hu]; exact h
  · obtain ⟨p, s', _, ha, hr⟩ := hu
    obtain ⟨hs', hnew⟩ := AppendProof_ok s s' _ _ p _ ha
    obtain ⟨hsorted, hnonneg, farm, hf, hlast, ht, hc⟩ := h
    simp only [Request.storageSucceeds, Bool.and_eq_true, Bool.not_eq_true'] at hok
    obtain ⟨⟨⟨⟨⟨⟨_, _⟩, _⟩, hgf⟩, huf⟩, _⟩, hnow⟩ := hok
    have hcoins : 0 ≤ (if p.Outcome.Verified && p.Outcome.Status == OutcomeSuccess then score p
        else 0) := by
      split
      · exact hscore p
      · exact le_rfl
    generalize (if p.Outcome.Verified && p.Outcome.Status == OutcomeSuccess then score p
        else 0) = coins at ha hr hs' hcoins
    have hf' : s'.GetFarm false = .ok farm := by rw [hs']; exact hf
    have hsum : (s'.proofs.map (fun sp => sp.CoinsAwarded)).sum
        = coins + (s.proofs.map (fun sp => sp.CoinsAwarded)).sum := by
      rw [hs']
      exact sum_bucketPut (fun x : StoredProof => x.FarmProof.ProofID)
        (fun sp => sp.CoinsAwarded) ⟨p, coins, env.receivedAt⟩ s.proofs hnew
    have hsorted' : s'.proofs.Pairwise (fun a b =>
        keyLess a.FarmProof.ProofID.data b.FarmProof.ProofID.data = true) := by
      rw [hs']
      exact bucketPut_sorted (fun x : StoredProof => x.FarmProof.ProofID)
        ⟨p, coins, env.receivedAt⟩ s.proofs hnew hsorted
    have hnonneg' : ∀ sp ∈ s'.proofs, 0 ≤ sp.CoinsAwarded := by
      rw [hs']
      exact coins_nonneg_bucketPut ⟨p, coins, env.receivedAt⟩ s.proofs hcoins hnonneg
    rw [hr]
    simp only
    refine ⟨by rw [updateBalance_proofs]; exact hsorted',
      by rw [updateBalance_proofs]; exact hnonneg', ?_⟩
    rw [updateBalance_proofs, hsum]
    by_cases hpos : 0 < coins
    · rw [updateBalance_ok env s' coins farm hpos hgf huf hnow (by rw [hlast]; rfl) hf']
      refine ⟨_, rfl, hlast, ?_, ?_⟩
      · show addInt farm.TotalCoins coins = _
        rw [ht, addInt_addInt_zero, add_comm]
      · show addInt farm.CurrentCoins coins = _
        rw [hc, addInt_addInt_zero, add_comm]
    · have h0 : coins = 0 := by omega
      rw [updateBalance_nonpos env s' coins (by omega)]
      refine ⟨farm, hf', hlast, ?_, ?_⟩
      · rw [ht, h0, zero_add]
      · rw [hc, h0, zero_add]

theorem Conserved_of_frame (s s' : Store) (hp : s'.proofs = s.proofs) (hf : s'.farm = s.farm)
    (h : Conserved s) : Conserved s' := by
  unfold Conserved Store.GetFarm at *
  rw [hp, hf]
  exact h

/-- Every request whose storage operations succeed keeps the invariant. -/
theorem ServeHTTP_conserved (c : Primitives) (score : FarmProof → Int)
    (hscore : ∀ p, 0 ≤ score p) (s : Store) (r : Request) (hok : r.storageSucceeds = true)
    (h : Conserved s) : Conserved (ServeHTTP c score s r).2 := by
  cases r with
  | submitProof env body => exact handleSubmitProof_conserved c score hscore env s body hok h
  | enrollAgent f body =>
    exact Conserved_of_frame s _ (handleEnrollAgent_frame f s body).1
      (handleEnrollAgent_frame f s body).2 h
  | approveAgent g u id =>
    exact Conserved_of_frame s _ (setAgentStatus_frame g u s id .active).1
      (setAgentStatus_frame g u s id .active).2 h
  | revokeAgent g u id =>
    exact Conserved_of_frame s _ (setAgentStatus_frame g u s id .revoked).1
      (setAgentStatus_frame g u s id .revoked).2 h

theorem serveAll_conserved (c : Primitives) (score : FarmProof → Int)
    (hscore : ∀ p, 0 ≤ score p) :
    ∀ (reqs : List Request) (s : Store), (∀ r ∈ reqs, r.storageSucceeds = true) →
      Conserved s → Conserved (serveAll c score s reqs).2 := by
  intro reqs
  induction reqs with
  | nil => intro s _ h; exact h
  | cons r rest ih =>
    intro s hok h
    rw [serveAll_cons]
    exact ih _ (fun r' hr' => hok r' (List.mem_cons_of_mem _ hr'))
      (ServeHTTP_conserved c score hscore s r (hok r (List.mem_cons_self _ _)) h)

theorem sum_nonneg_of_coins (l : List StoredProof) (h : ∀ sp ∈ l, 0 ≤ sp.CoinsAwarded) :
    0 ≤ (l.map (fun sp => sp.CoinsAwarded)).sum := by
  induction l with
  | nil => simp
  | cons x xs ih =>
    simp only [List.map_cons, List.sum_cons]
    have := h x (List.mem_cons_self _ _)
    have := ih (fun sp hsp => h sp (List.mem_cons_of_mem _ hsp))
    omega

theorem nodup_of_sorted (l : List StoredProof)
    (h : l.Pairwise (fun a b =>
      keyLess a.FarmProof.ProofID.data b.FarmProof.ProofID.data = true)) :
    (l.map (fun sp => sp.FarmProof.ProofID)).Nodup := by
  rw [List.Nodup, List.pairwise_map]
  refine h.imp ?_
  intro a b hab heq
  rw [heq, keyLess_irrefl] at hab
  cases hab

set_option maxRecDepth 100000 in
theorem demo_enroll_approve :
    (serveAll demoPrimitives demoHandlerScore Store.empty
      [.enrollAgent false (some demoEnroll), .approveAgent false false "agent-1"]).2
      = demoStore := by
  decide!

theorem serveAll_append (c : Primitives) (score : FarmProof → Int) :
    ∀ (xs ys : List Request) (s : Store),
      (serveAll c score s (xs ++ ys)).2 = (serveAll c score (serveAll c score s xs).2 ys).2 := by
  intro xs
  induction xs with
  | nil => intro ys s; rfl
  | cons x rest ih =>
    intro ys s
    rw [List.cons_append, serveAll_cons, serveAll_cons]
    exact ih ys _

/-- The tracker, started on an empty database, after enroll, approve and the
submissions of `h0` and `h1`. -/
theorem demo_serve_huge :
    (serveAll demoPrimitives demoHandlerScore Store.empty
      [.enrollAgent false (some demoEnroll), .approveAgent false false "agent-1",
       .submitProof demoEnv (some demoHugeFirst), .submitProof demoEnv (some demoHugeSecond)]).2
      = demoStoreHugeTwice := by
  have h := serveAll_append demoPrimitives demoHandlerScore
    [.enrollAgent false (some demoEnroll), .approveAgent false false "agent-1"]
    [.submitProof demoEnv (some demoHugeFirst), .submitProof demoEnv (some demoHugeSecond)]
    Store.empty
  simp only [List.cons_append, List.nil_append] at h
  rw [h, demo_enroll_approve, serveAll_cons, serveAll_cons]
  show (serveAll demoPrimitives demoHandlerScore
    (handleSubmitProof demoPrimitives demoHandlerScore demoEnv
      (handleSubmitProof demoPrimitives demoHandlerScore demoEnv demoStore
        (some demoHugeFirst)).2 (some demoHugeSecond)).2 []).2 = demoStoreHugeTwice
  rw [demoStore_accepts_huge]
  simp only
  rw [demoStoreHuge_accepts_huge]
  rfl

/-! ## The keys in the trust store -/

theorem handleEnrollAgent_keys (upsertFails : Bool) (s : Store) (body : Option enrollRequest)
    (h : ∀ a ∈ s.agents, ∃ key, DecodePublicKey a.PublicKey = some key) :
    ∀ a ∈ (handleEnrollAgent upsertFails s body).2.agents,
      ∃ key, DecodePublicKey a.PublicKey = some key := by
  unfold handleEnrollAgent
  split
  · exact h
  · rename_i req
    split
    · exact h
    · split
      · exact h
      · rename_i pubKey hkey
        simp only
        split
        · exact h
        · rename_i s' hu
          unfold Store.UpsertAgent at hu
          split at hu
          · cases hu
          · split at hu
            · cases hu
            · cases hu
              intro a ha
              rcases mem_of_mem_bucketPut _ _ _ _ ha with h1 | h1
              · rw [h1]
                exact ⟨pubKey, hkey⟩
              · exact h a h1

theorem setAgentStatus_keys (getFails upsertFails : Bool) (s : Store) (id : String)
    (status : AgentStatus)
    (h : ∀ a ∈ s.agents, ∃ key, DecodePublicKey a.PublicKey = some key) :
    ∀ a ∈ (setAgentStatus getFails upsertFails s id status).2.agents,
      ∃ key, DecodePublicKey a.PublicKey = some key := by
  unfold setAgentStatus
  split
  · exact h
  · exact h
  · rename_i agent hg
    have hmem : agent ∈ s.agents := by
      cases getFails with
      | true => simp [Store.GetAgent] at hg
      | false => exact (GetAgent_ok s id agent hg).2.1
    split
    · exact h
    · rename_i s' hu
      unfold Store.UpsertAgent at hu
      split at hu
      · cases hu
      · split at hu
        · cases hu
        · cases hu
          intro a ha
          rcases mem_of_mem_bucketPut _ _ _ _ ha with h1 | h1
          · rw [h1]
            exact h agent hmem
          · exact h a h1

theorem ServeHTTP_keys (c : Primitives) (score : FarmProof → Int) (s : Store) (r : Request)
    (h : ∀ a ∈ s.agents, ∃ key, DecodePublicKey a.PublicKey = some key) :
    ∀ a ∈ (ServeHTTP c score s r).2.agents, ∃ key, DecodePublicKey a.PublicKey = some key := by
  cases r with
  | submitProof env body =>
    show ∀ a ∈ (handleSubmitProof c score env s body).2.agents, _
    rw [handleSubmitProof_agents]
    exact h
  | enrollAgent f body => exact handleEnrollAgent_keys f s body h
  | approveAgent g u id => exact setAgentStatus_keys g u s id .active h
  | revokeAgent g u id => exact setAgentStatus_keys g u s id .revoked h

theorem serveAll_keys (c : Primitives) (score : FarmProof → Int) :
    ∀ (reqs : List Request) (s : Store),
      (∀ a ∈ s.agents, ∃ key, DecodePublicKey a.PublicKey = some key) →
      ∀ a ∈ (serveAll c score s reqs).2.agents,
        ∃ key, DecodePublicKey a.PublicKey = some key := by
  intro reqs
  induction reqs with
  | nil => intro s h; exact h
  | cons r rest ih =>
    intro s h
    rw [serveAll_cons]
    exact ih _ (ServeHTTP_keys c score s r h)

/-- The response `invalid agent key in trust store` is written only for a
stored record whose key does not decode. -/
theorem handleSubmitProof_invalid_key (c : Primitives) (score : FarmProof → Int)
    (env : SubmitEnv) (s : Store) (body : Option FarmProof)
    (h : (handleSubmitProof c score env s body).1
      = .error 500 "invalid agent key in trust store") :
    ∃ a ∈ s.agents, DecodePublicKey a.PublicKey = none := by
  rw [handleSubmitProof_eq_check_finish] at h
  cases hc : submitCheck c score env s body with
  | ok pc =>
    rw [hc] at h
    obtain ⟨p, coins⟩ := pc
    simp only [submitFinish, submitCommit] at h
    split at h
    · cases h
    · simp only [Response.error.injEq] at h
      exact absurd h.2 (by decide)
    · cases h
  | error r =>
    rw [hc] at h
    simp only [submitFinish] at h
    subst h
    unfold submitCheck at hc
    split at hc
    · simp only [Except.error.injEq, Response.error.injEq] at hc
      exact absurd hc.1 (by decide)
    · rename_i p
      split at hc
      · simp only [Except.error.injEq, Response.error.injEq] at hc
        exact absurd hc.1 (by decide)
      · simp only [Except.error.injEq, Response.error.injEq] at hc
        exact absurd hc.2 (by decide)
      · rename_i agent hg
        have hmem : agent ∈ s.agents := by
          cases hf : env.getAgentFails with
          | true => rw [hf] at hg; simp [Store.GetAgent] at hg
          | false => rw [hf] at hg; exact (GetAgent_ok s _ agent hg).2.1
        split at hc
        · simp only [Except.error.injEq, Response.error.injEq] at hc
          exact absurd hc.1 (by decide)
        · split at hc
          · rename_i hk
            exact ⟨agent, hmem, hk⟩
          · split at hc
            · cases hc
            · split at hc
              · simp only [Except.error.injEq, Response.error.injEq] at hc
                exact absurd hc.2 (by decide)
              · split at hc
                · rename_i r hl
                  simp only [Except.error.injEq] at hc
                  subst hc
                  rcases chainLinkage_error c _ p _ hl with h1 | h1
                  · simp only [Response.error.injEq] at h1
                    exact absurd h1.1 (by decide)
                  · simp only [Response.error.injEq] at h1
                    exact absurd h1.2 (by decide)
                · cases hc

/-! ## Proofs without a predecessor -/

theorem hexEncode_ne_empty (bs : List Byte) (h : bs ≠ []) : hexEncode bs ≠ "" := by
  cases bs with
  | nil => exact absurd rfl h
  | cons b rest =>
    intro he
    have := congrArg String.data he
    simp [hexEncode, hexEncodeChars, hexByte] at this

/-- A recomputed hash is never the empty string. -/
theorem Hash_ne_empty (c : Primitives) (p : FarmProof) (h : String) (hh : p.Hash c = .ok h) :
    h ≠ "" := by
  unfold FarmProof.Hash at hh
  split at hh
  · cases hh
  · rename_i b _
    cases hh
    apply hexEncode_ne_empty
    intro he
    have := c.sha256_size b
    rw [he] at this
    cases this

theorem chainLinkage_empty_hash (c : Primitives) (l : StoredProof) (p : FarmProof)
    (h : p.PrevProofHash = "") : chainLinkage c (some l) p ≠ .ok () := by
  intro hc
  have := ((chainLinkage_some_iff c l p).mp hc).2
  exact Hash_ne_empty c l.FarmProof p.PrevProofHash this h

theorem LatestProof_some (s : Store) (agentID : String)
    (h : ∃ sp ∈ s.proofs, sp.FarmProof.Agent.AgentID = agentID) :
    ∃ l, s.LatestProof false agentID = .ok (some l) := by
  obtain ⟨sp, hsp, ha⟩ := h
  unfold Store.LatestProof
  simp only [Bool.false_eq_true, if_false]
  cases hf : s.proofs.reverse.find? (fun sp => sp.FarmProof.Agent.AgentID == agentID) with
  | some l => exact ⟨l, rfl⟩
  | none =>
    rw [List.find?_eq_none] at hf
    exact absurd (by simpa using ha) (hf sp (List.mem_reverse.mpr hsp))

/-- A failed check never writes the accepted response. -/
theorem submitCheck_error (c : Primitives) (score : FarmProof → Int) (env : SubmitEnv)
    (s : Store) (body : Option FarmProof) (r : Response)
    (h : submitCheck c score env s body = .error r) : r.isAccepted = false := by
  unfold submitCheck at h
  split at h
  · cases h; rfl
  · split at h
    · cases h; rfl
    · cases h; rfl
    · split at h
      · cases h; rfl
      · split at h
        · cases h; rfl
        · split at h
          · cases h; rfl
          · split at h
            · cases h; rfl
            · split at h
              · rename_i r' hl
                cases h
                rcases chainLinkage_error c _ _ _ hl with h1 | h1 <;> rw [h1] <;> rfl
              · cases h

/-- A proof with an empty `PrevProofHash` of an agent that has a stored proof
is not accepted, and the database is unchanged, whatever else happens. -/
theorem handleSubmitProof_empty_hash (c : Primitives) (score : FarmProof → Int)
    (env : SubmitEnv) (s : Store) (p : FarmProof) (hp : p.PrevProofHash = "")
    (hs : ∃ sp ∈ s.proofs, sp.FarmProof.Agent.AgentID = p.Agent.AgentID) :
    (handleSubmitProof c score env s (some p)).2 = s ∧
      (handleSubmitProof c score env s (some p)).1.isAccepted = false := by
  rw [handleSubmitProof_eq_check_finish]
  cases hc : submitCheck c score env s (some p) with
  | error r => exact ⟨rfl, submitCheck_error c score env s _ r hc⟩
  | ok pc =>
    obtain ⟨q, coins⟩ := pc
    obtain ⟨hq, agent, pubKey, latest, _, _, _, _, hl, hlink⟩ :=
      submitCheck_ok c score env s (some p) q coins hc
    cases hq
    obtain ⟨l, hlat⟩ := LatestProof_some s p.Agent.AgentID hs
    rw [LatestProof_ok_flag s _ _ _ hl, hlat] at hl
    cases hl
    exact absurd hlink (chainLinkage_empty_hash c l p hp)

/-- An accepted proof is in the ledger afterwards. -/
theorem handleSubmitProof_accepted_stored (c : Primitives) (score : FarmProof → Int)
    (env : SubmitEnv) (s : Store) (p : FarmProof)
    (h : (handleSubmitProof c score env s (some p)).1.isAccepted = true) :
    ∃ sp ∈ (handleSubmitProof c score env s (some p)).2.proofs,
      sp.FarmProof.Agent.AgentID = p.Agent.AgentID := by
  cases hr : (handleSubmitProof c score env s (some p)).1 with
  | proofAccepted coins =>
    obtain ⟨q, s', hq, _, ha, hst⟩ := handleSubmitProof_accepted c score env s (some p) coins hr
    cases hq
    refine ⟨⟨p, coins, env.receivedAt⟩, ?_, rfl⟩
    rw [hst, updateBalance_proofs, (AppendProof_ok s s' _ _ p coins ha).1]
    exact mem_bucketPut _ _ _
  | error st m => rw [hr] at h; cases h
  | signatureInvalid e => rw [hr] at h; cases h
  | invalidPublicKey => rw [hr] at h; cases h
  | proofDuplicate => rw [hr] at h; cases h
  | agentEnrolled m => rw [hr] at h; cases h
  | agentStatus st => rw [hr] at h; cases h

theorem handleEnrollAgent_not_accepted (upsertFails : Bool) (s : Store)
    (body : Option enrollRequest) :
    (handleEnrollAgent upsertFails s body).1.isAccepted = false := by
  unfold handleEnrollAgent
  split
  · rfl
  · split
    · rfl
    · split
      · rfl
      · simp only
        split <;> rfl

theorem setAgentStatus_not_accepted (getFails upsertFails : Bool) (s : Store) (id : String)
    (status : AgentStatus) :
    (setAgentStatus getFails upsertFails s id status).1.isAccepted = false := by
  unfold setAgentStatus
  split
  · rfl
  · rfl
  · split <;> rfl

/-- The ledger only grows. -/
theorem ServeHTTP_proofs_mono (c : Primitives) (score : FarmProof → Int) (s : Store)
    (r : Request) : ∀ sp ∈ s.proofs, sp ∈ (ServeHTTP c score s r).2.proofs := by
  intro sp hsp
  cases r with
  | submitProof env body =>
    show sp ∈ (handleSubmitProof c score env s body).2.proofs
    rcases handleSubmitProof_unchanged_or_accepted c score env s body with h | h
    · rw [h]; exact hsp
    · obtain ⟨p, s', _, ha, hr⟩ := h
      obtain ⟨hs', hnew⟩ := AppendProof_ok s s' _ _ p _ ha
      rw [hr]
      simp only
      rw [updateBalance_proofs, hs']
      exact mem_bucketPut_of_mem (fun x : StoredProof => x.FarmProof.ProofID) _ sp
        (hnew sp hsp) _ hsp
  | enrollAgent f body =>
    show sp ∈ (handleEnrollAgent f s body).2.proofs
    rw [(handleEnrollAgent_frame f s body).1]; exact hsp
  | approveAgent g u id =>
    show sp ∈ (setAgentStatus g u s id .active).2.proofs
    rw [(setAgentStatus_frame g u s id .active).1]; exact hsp
  | revokeAgent g u id =>
    show sp ∈ (setAgentStatus g u s id .revoked).2.proofs
    rw [(setAgentStatus_frame g u s id .revoked).1]; exact hsp

theorem serveAll_cons_responses (c : Primitives) (score : FarmProof → Int) (s : Store)
    (r : Request) (rest : List Request) :
    (serveAll c score s (r :: rest)).1
      = (ServeHTTP c score s r).1 :: (serveAll c score (ServeHTTP c score s r).2 rest).1 :=
  rfl

/-- Once the agent has a stored proof, none of its proofs without a
predecessor is accepted. -/
theorem serveAll_none_accepted (c : Primitives) (score : FarmProof → Int) (agentID : String) :
    ∀ (reqs : List Request) (s : Store),
      (∀ r ∈ reqs, ∀ env p, r = .submitProof env (some p) →
        p.PrevProofHash = "" ∧ p.Agent.AgentID = agentID) →
      (∃ sp ∈ s.proofs, sp.FarmProof.Agent.AgentID = agentID) →
      (serveAll c score s reqs).1.countP Response.isAccepted = 0 := by
  intro reqs
  induction reqs with
  | nil => intro s _ _; rfl
  | cons r rest ih =>
    intro s hreqs hs
    rw [serveAll_cons_responses]
    have hrest := ih (ServeHTTP c score s r).2
      (fun r' hr' => hreqs r' (List.mem_cons_of_mem _ hr'))
      (by
        obtain ⟨sp, hsp, ha⟩ := hs
        exact ⟨sp, ServeHTTP_proofs_mono c score s r sp hsp, ha⟩)
    have hfirst : (ServeHTTP c score s r).1.isAccepted = false := by
      cases r with
      | submitProof env body =>
        cases body with
        | none => rfl
        | some p =>
          obtain ⟨hp, hag⟩ := hreqs _ (List.mem_cons_self _ _) env p rfl
          exact (handleSubmitProof_empty_hash c score env s p hp (by rw [hag]; exact hs)).2
      | enrollAgent f body => exact handleEnrollAgent_not_accepted f s body
      | approveAgent g u id => exact setAgentStatus_not_accepted g u s id .active
      | revokeAgent g u id => exact setAgentStatus_not_accepted g u s id .revoked
    rw [List.countP_cons_of_neg _ _ (by rw [hfirst]; simp), hrest]

/-- Of the proofs without a predecessor that one agent submits, at most one
is accepted. -/
theorem serveAll_accepted_le_one (c : Primitives) (score : FarmProof → Int)
    (agentID : String) :
    ∀ (reqs : List Request) (s : Store),
      (∀ r ∈ reqs, ∀ env p, r = .submitProof env (some p) →
        p.PrevProofHash = "" ∧ p.Agent.AgentID = agentID) →
      (serveAll c score s reqs).1.countP Response.isAccepted ≤ 1 := by
  intro reqs
  induction reqs with
  | nil => intro s _; exact Nat.zero_le _
  | cons r rest ih =>
    intro s hreqs
    rw [serveAll_cons_responses]
    have hrest' : ∀ r' ∈ rest, ∀ env p, r' = .submitProof env (some p) →
        p.PrevProofHash = "" ∧ p.Agent.AgentID = agentID :=
      fun r' hr' => hreqs r' (List.mem_cons_of_mem _ hr')
    by_cases hacc : (ServeHTTP c score s r).1.isAccepted = true
    · have hstored : ∃ sp ∈ (ServeHTTP c score s r).2.proofs,
          sp.FarmProof.Agent.AgentID = agentID := by
        cases r with
        | submitProof env body =>
          cases body with
          | none => cases hacc
          | some p =>
            obtain ⟨_, hag⟩ := hreqs _ (List.mem_cons_self _ _) env p rfl
            rw [← hag]
            exact handleSubmitProof_accepted_stored c score env s p hacc
        | enrollAgent f body =>
          rw [show (ServeHTTP c score s (.enrollAgent f body)).1.isAccepted = false from
            handleEnrollAgent_not_accepted f s body] at hacc
          cases hacc
        | approveAgent g u id =>
          rw [show (ServeHTTP c score s (.approveAgent g u id)).1.isAccepted = false from
            setAgentStatus_not_accepted g u s id .active] at hacc
          cases hacc
        | revokeAgent g u id =>
          rw [show (ServeHTTP c score s (.revokeAgent g u id)).1.isAccepted = false from
            setAgentStatus_not_accepted g u s id .revoked] at hacc
          cases hacc
      rw [List.countP_cons_of_pos _ _ hacc,
        serveAll_none_accepted c score agentID rest _ hrest' hstored]
    · rw [List.countP_cons_of_neg _ _ hacc]
      exact ih _ hrest'

/-- With a stored latest proof whose hash can be computed, a proof with an
empty `PrevProofHash` fails the linkage check. -/
theorem chainLinkage_empty_hash_conflict (c : Primitives) (l : StoredProof) (p : FarmProof)
    (hts : l.FarmProof.Timestamp.marshals = true) (hp : p.PrevProofHash = "") :
    chainLinkage c (some l) p = .error (.error 409 "proof chain linkage invalid") := by
  obtain ⟨hq, hhq⟩ := Hash_ok_of_marshals c l.FarmProof hts
  have hne : p.PrevProofHash ≠ hq := by
    rw [hp]
    exact fun h => Hash_ne_empty c l.FarmProof hq hhq h.symm
  unfold chainLinkage
  simp only [hhq]
  rw [if_pos (Or.inr hne)]

theorem LatestProof_mem (s : Store) (agentID : String) (l : StoredProof)
    (h : s.LatestProof false agentID = .ok (some l)) : l ∈ s.proofs := by
  unfold Store.LatestProof at h
  simp only [Bool.false_eq_true, if_false, Except.ok.injEq] at h
  exact List.mem_reverse.mp (List.mem_of_find?_eq_some h)

/-- The proof the watcher emits has no predecessor. -/
theorem observePodHealth_fields (c : Primitives) (cfg : WatcherConfig) (privKey : PrivateKey)
    (id : Option String) (now : Time) (total healthy crashLooping : Nat) (p : FarmProof)
    (h : observePodHealth c cfg privKey id now total healthy crashLooping = some p) :
    p.PrevProofID = "" ∧ p.PrevProofHash = "" ∧ p.Agent.AgentID = cfg.AgentID ∧
      p.Outcome.Verified = true ∧ p.Outcome.Status = OutcomeSuccess := by
  unfold observePodHealth at h
  split at h
  · cases h
  · simp only at h
    split at h
    · cases h
    · rename_i q hq
      split at h
      · cases h
      · rename_i sp hsp
        cases h
        cases id with
        | none => simp [New] at hq
        | some i =>
          simp only [New, Except.ok.injEq] at hq
          subst hq
          unfold Sign at hsp
          split at hsp
          · cases hsp
          · cases hsp
            exact ⟨rfl, rfl, rfl, rfl, rfl⟩

/-- The observation of the watcher of `agent-1` is the signed proof
`demoObserved`. -/
theorem demoObserve_eq (id : String) (now : Time) (h : now.marshals = true) :
    demoObserve id now = some (demoSign (demoObserved id now)) := by
  have hs := demoSign_ok (demoObserved id now) h
  unfold demoObserve observePodHealth
  rw [if_neg (by decide)]
  simp only [New]
  show (match Sign demoPrimitives (demoObserved id now) demoKey with
    | .error _ => none
    | .ok sp => some sp) = _
  rw [hs]

/-- Requests served one after another remove no proof from the ledger. -/
theorem serveAll_proofs_mono (c : Primitives) (score : FarmProof → Int) :
    ∀ (reqs : List Request) (s : Store), ∀ sp ∈ s.proofs,
      sp ∈ (serveAll c score s reqs).2.proofs := by
  intro reqs
  induction reqs with
  | nil => intro s sp h; exact h
  | cons r rest ih =>
    intro s sp h
    rw [serveAll_cons]
    exact ih _ sp (ServeHTTP_proofs_mono c score s r sp h)

/-- When one of the proofs without a predecessor that an agent submits has
been accepted, the ledger holds a proof of that agent afterwards. -/
theorem serveAll_accepted_stored (c : Primitives) (score : FarmProof → Int)
    (agentID : String) :
    ∀ (reqs : List Request) (s : Store),
      (∀ r ∈ reqs, ∀ env p, r = .submitProof env (some p) →
        p.PrevProofHash = "" ∧ p.Agent.AgentID = agentID) →
      (serveAll c score s reqs).1.countP Response.isAccepted ≠ 0 →
      ∃ sp ∈ (serveAll c score s reqs).2.proofs, sp.FarmProof.Agent.AgentID = agentID := by
  intro reqs
  induction reqs with
  | nil => intro s _ h; exact absurd rfl h
  | cons r rest ih =>
    intro s hreqs hcount
    rw [serveAll_cons]
    rw [serveAll_cons_responses] at hcount
    have hrest' : ∀ r' ∈ rest, ∀ env p, r' = .submitProof env (some p) →
        p.PrevProofHash = "" ∧ p.Agent.AgentID = agentID :=
      fun r' hr' => hreqs r' (List.mem_cons_of_mem _ hr')
    by_cases hacc : (ServeHTTP c score s r).1.isAccepted = true
    · have hstored : ∃ sp ∈ (ServeHTTP c score s r).2.proofs,
          sp.FarmProof.Agent.AgentID = agentID := by
        cases r with
        | submitProof env body =>
          cases body with
          | none => cases hacc
          | some p =>
            obtain ⟨_, hag⟩ := hreqs _ (List.mem_cons_self _ _) env p rfl
            rw [← hag]
            exact handleSubmitProof_accepted_stored c score env s p hacc
        | enrollAgent f body =>
          rw [show (ServeHTTP c score s (.enrollAgent f body)).1.isAccepted = false from
            handleEnrollAgent_not_accepted f s body] at hacc
          cases hacc
        | approveAgent g u id =>
          rw [show (ServeHTTP c score s (.approveAgent g u id)).1.isAccepted = false from
            setAgentStatus_not_accepted g u s id .active] at hacc
          cases hacc
        | revokeAgent g u id =>
          rw [show (ServeHTTP c score s (.revokeAgent g u id)).1.isAccepted = false from
            setAgentStatus_not_accepted g u s id .revoked] at hacc
          cases hacc
      obtain ⟨sp, hsp, ha⟩ := hstored
      exact ⟨sp, serveAll_proofs_mono c score rest _ sp hsp, ha⟩
    · rw [List.countP_cons_of_neg _ _ hacc] at hcount
      exact ih _ hrest' hcount

/-- Which of the proofs without a predecessor is accepted: one that is
submitted while the ledger holds no proof of the agent; none before it and
none after it is accepted. -/
theorem serveAll_accepted_position (c : Primitives) (score : FarmProof → Int)
    (agentID : String) (pre post : List Request) (env : SubmitEnv) (p : FarmProof) (s : Store)
    (hreqs : ∀ r ∈ pre ++ .submitProof env (some p) :: post, ∀ env' q,
      r = .submitProof env' (some q) → q.PrevProofHash = "" ∧ q.Agent.AgentID = agentID)
    (hacc : (handleSubmitProof c score env (serveAll c score s pre).2 (some p)).1.isAccepted
      = true) :
    (∀ sp ∈ (serveAll c score s pre).2.proofs, sp.FarmProof.Agent.AgentID ≠ agentID) ∧
    (serveAll c score s pre).1.countP Response.isAccepted = 0 ∧
    (serveAll c score (handleSubmitProof c score env (serveAll c score s pre).2 (some p)).2
      post).1.countP Response.isAccepted = 0 := by
  have hpre : ∀ r ∈ pre, ∀ env' q, r = .submitProof env' (some q) →
      q.PrevProofHash = "" ∧ q.Agent.AgentID = agentID :=
    fun r hr => hreqs r (List.mem_append_left _ hr)
  have hpost : ∀ r ∈ post, ∀ env' q, r = .submitProof env' (some q) →
      q.PrevProofHash = "" ∧ q.Agent.AgentID = agentID :=
    fun r hr => hreqs r (List.mem_append_right _ (List.mem_cons_of_mem _ hr))
  obtain ⟨hp, hag⟩ := hreqs _ (List.mem_append_right _ (List.mem_cons_self _ _)) env p rfl
  have hfree : ∀ sp ∈ (serveAll c score s pre).2.proofs,
      sp.FarmProof.Agent.AgentID ≠ agentID := by
    intro sp hsp ha
    have hno := (handleSubmitProof_empty_hash c score env _ p hp
      ⟨sp, hsp, by rw [ha, hag]⟩).2
    rw [hno] at hacc
    cases hacc
  refine ⟨hfree, ?_, ?_⟩
  · by_contra hcount
    obtain ⟨sp, hsp, ha⟩ := serveAll_accepted_stored c score agentID pre s hpre hcount
    exact hfree sp hsp ha
  · obtain ⟨sp, hsp, ha⟩ := handleSubmitProof_accepted_stored c score env _ p hacc
    exact serveAll_none_accepted c score agentID post _ hpost ⟨sp, hsp, by rw [ha, hag]⟩

/-! ## Claim C1 -/

/-- C1. For every public key and every oldest-first list of proofs, `Chain`
returns no error if and only if `Verify` accepts every proof of the list under
that key and every proof after the first names its predecessor in
`PrevProofID` and carries in `PrevProofHash` the hash that `Hash` recomputes
from the predecessor as it stands in the list. Nothing is required of the
`PrevProofID` and `PrevProofHash` of the first proof: a one-element list is
accepted exactly when its signature is. -/
theorem Chain_accepts_iff (c : Primitives) (pubKey : PublicKey) (proofs : List FarmProof) :
    (Chain c proofs pubKey = .ok () ↔
      (∀ p ∈ proofs, Verify c p pubKey = .ok ()) ∧
      (∀ i prev p, proofs[i]? = some prev → proofs[i + 1]? = some p →
        p.PrevProofID = prev.ProofID ∧ prev.Hash c = .ok p.PrevProofHash)) ∧
    (∀ p, Chain c [p] pubKey = .ok () ↔ Verify c p pubKey = .ok ()) := by
  refine ⟨Chain_ok_iff_links c pubKey proofs, ?_⟩
  intro p
  rw [Chain_ok_iff_links]
  simp

/-! ## Claim C2 -/

/-- C2. For a list of proofs that `Chain` accepts under a public key,
replacing a proof that is not the last by one that differs from it in a signed
field (any field other than `Signature`), every other proof left untouched,
makes `Chain` return an error, provided SHA-256 does not collide on the two
canonical payloads (so that the recomputed hash differs). -/
theorem Chain_rejects_tampered (c : Primitives) (pubKey : PublicKey)
    (proofs : List FarmProof) (k : Nat) (orig tampered : FarmProof)
    (hchain : Chain c proofs pubKey = .ok ())
    (hk : k + 1 < proofs.length)
    (horig : proofs[k]? = some orig)
    (hfield : ({ tampered with Signature := "" } : FarmProof) ≠ { orig with Signature := "" })
    (hsha : ∀ b b', orig.CanonicalJSON = .ok b → tampered.CanonicalJSON = .ok b' → b ≠ b' →
      c.sha256 b ≠ c.sha256 b') :
    ∃ e, Chain c (proofs.set k tampered) pubKey = .error e := by
  rcases Except_ok_or_error (Chain c (proofs.set k tampered) pubKey) with hok | herr
  · exfalso
    obtain ⟨nxt, hnxt⟩ : ∃ nxt, proofs[k + 1]? = some nxt :=
      ⟨proofs[k + 1], List.getElem?_eq_getElem hk⟩
    have l1 := ((Chain_ok_iff_links c pubKey proofs).mp hchain).2 k orig nxt horig hnxt
    have hset1 : (proofs.set k tampered)[k]? = some tampered := by
      rw [List.getElem?_set_self (by omega)]
    have hset2 : (proofs.set k tampered)[k + 1]? = some nxt := by
      rw [List.getElem?_set_ne (by omega)]; exact hnxt
    have l2 := ((Chain_ok_iff_links c pubKey _).mp hok).2 k tampered nxt hset1 hset2
    exact hfield (cleared_eq_of_Hash_eq c orig tampered _ l1.2 l2.2 hsha).symm
  · exact herr

/-- Witness for C2: the chain of `TestChain_TamperedProof` with its first proof
tampered is rejected. -/
theorem Chain_rejects_tampered_witness :
    Chain demoPrimitives [demoFirst, demoSecond] demoKey = .ok () ∧
      ∃ e, Chain demoPrimitives ([demoFirst, demoSecond].set 0 (tamper demoFirst)) demoKey
        = .error e :=
  ⟨demo_Chain_ok,
    Chain_rejects_tampered demoPrimitives demoKey [demoFirst, demoSecond] 0 demoFirst
      (tamper demoFirst) demo_Chain_ok (by decide) rfl demoFirst_tamper_ne
      (fun b b' hb hb' _ => demo_sha_differs (tamper demoFirst) rfl b b' hb hb')⟩

/-! ## Claim C3 -/

set_option maxRecDepth 100000 in
/-- C3, counterexample. The chain of `TestChain_TamperedProof` is valid, and
after `ImpactRadius = 99` is written into its first proof (index 0) `Chain`
fails at index 0 with an invalid-signature error, not at index 1 with a
linkage error. -/
theorem Chain_tampered_fails_at_same_index :
    Chain demoPrimitives [demoFirst, demoSecond] demoKey = .ok () ∧
      Chain demoPrimitives [tamper demoFirst, demoSecond] demoKey
        = .error (.invalidSignature 0 "p0" .signatureInvalid) := by
  refine ⟨demo_Chain_ok, ?_⟩
  unfold Chain
  rw [chainLoop, demo_tamper_signatureInvalid]
  decide!

/-- C3, amended. For a list that `Chain` accepts, replace proof `k` by a proof
that differs from it in a signed field. If the replacement still carries the
old signature (a field mutated without signing again), `Chain` fails with an
invalid-signature error that names index `k`, given that a signature verifies
for one payload only. If instead the replacement's signature verifies, it
keeps the link fields of the original, it is not the last proof and SHA-256
does not collide on the two payloads, `Chain` fails with a linkage error
(`prev_proof_id` or `prev_proof_hash` mismatch) that names index `k + 1`. -/
theorem Chain_tampered_error_index (c : Primitives) (pubKey : PublicKey)
    (proofs : List FarmProof) (k : Nat) (orig tampered : FarmProof)
    (hchain : Chain c proofs pubKey = .ok ())
    (horig : proofs[k]? = some orig)
    (hfield : ({ tampered with Signature := "" } : FarmProof) ≠ { orig with Signature := "" }) :
    (c.MessageBinding → tampered.Signature = orig.Signature →
      ∃ cause, Chain c (proofs.set k tampered) pubKey
        = .error (.invalidSignature k tampered.ProofID cause)) ∧
    (Verify c tampered pubKey = .ok () → tampered.PrevProofID = orig.PrevProofID →
      tampered.PrevProofHash = orig.PrevProofHash → k + 1 < proofs.length →
      (∀ b b', orig.CanonicalJSON = .ok b → tampered.CanonicalJSON = .ok b' → b ≠ b' →
        c.sha256 b ≠ c.sha256 b') →
      ∃ e, Chain c (proofs.set k tampered) pubKey = .error e ∧ e.index = k + 1 ∧
        e.isLinkage = true) := by
  have hklt : k < proofs.length := by
    by_contra hge
    rw [List.getElem?_eq_none (by omega)] at horig
    cases horig
  constructor
  · intro hbind hsig
    have hvo : Verify c orig pubKey = .ok () :=
      ((Chain_ok_iff_links c pubKey proofs).mp hchain).1 orig (List.getElem?_mem horig)
    obtain ⟨cause, hc⟩ := Verify_fails_of_changed c hbind pubKey orig tampered hvo
      (congrArg hexDecode hsig) hfield
    refine ⟨cause, ?_⟩
    have := chainLoop_set_invalid c pubKey tampered cause hc proofs 0 none k hchain hklt
    simpa [Chain] using this
  · intro hv e1 e2 hk hsha
    obtain ⟨nxt, hnxt⟩ : ∃ nxt, proofs[k + 1]? = some nxt :=
      ⟨proofs[k + 1], List.getElem?_eq_getElem hk⟩
    have l1 := ((Chain_ok_iff_links c pubKey proofs).mp hchain).2 k orig nxt horig hnxt
    have hd : tampered.Hash c ≠ .ok nxt.PrevProofHash := by
      intro heq
      exact hfield (cleared_eq_of_Hash_eq c orig tampered _ l1.2 heq hsha).symm
    have := chainLoop_set_linkage c pubKey tampered hv proofs 0 none k orig nxt hchain horig
      hnxt e1 e2 hd
    simpa [Chain] using this

set_option maxRecDepth 100000 in
/-- Witness for C3 as amended, on the chain of `TestChain_TamperedProof`: the
tampered first proof makes `Chain` fail at index 0 with an invalid signature;
the same proof signed again makes it fail at index 1 with a linkage error. -/
theorem Chain_tampered_error_index_witness :
    (∃ cause, Chain demoPrimitives ([demoFirst, demoSecond].set 0 (tamper demoFirst)) demoKey
        = .error (.invalidSignature 0 (tamper demoFirst).ProofID cause)) ∧
    (∃ e, Chain demoPrimitives ([demoFirst, demoSecond].set 0 (demoSign (tamper demoFirst)))
        demoKey = .error e ∧ e.index = 0 + 1 ∧ e.isLinkage = true) :=
  ⟨(Chain_tampered_error_index demoPrimitives demoKey [demoFirst, demoSecond] 0 demoFirst
      (tamper demoFirst) demo_Chain_ok rfl demoFirst_tamper_ne).1 demo_MessageBinding rfl,
   (Chain_tampered_error_index demoPrimitives demoKey [demoFirst, demoSecond] 0 demoFirst
      (demoSign (tamper demoFirst)) demo_Chain_ok rfl
      (by rw [demoSign_cleared]; exact demoFirst_tamper_ne)).2
      (demoSign_Verify (tamper demoFirst) (by decide!)) (by decide!) (by decide!) (by decide)
      (fun b b' hb hb' _ =>
        demo_sha_differs (demoSign (tamper demoFirst)) (demoSign_cleared _) b b' hb hb')⟩

/-! ## Claim C4 -/

/-- C4. `Sign` succeeds on every proof whose canonical payload exists (its
timestamp can be marshalled), and after `Sign(P, sk)` has succeeded
`Verify(P, pk')` succeeds if and only if `pk'` is the public key of `sk`; in
particular it succeeds for that key. This rests on Ed25519 accepting its own
signatures and on a signature verifying under the signer's key only. -/
theorem Verify_after_Sign_iff (c : Primitives) (hc : c.Complete) (hk : c.KeyBinding)
    (p : FarmProof) (sk : PrivateKey) :
    (p.Timestamp.marshals = true → ∃ sp, Sign c p sk = .ok sp) ∧
    (∀ sp, Sign c p sk = .ok sp →
      (∀ pk', Verify c sp pk' = .ok () ↔ pk' = c.publicOf sk) ∧
        Verify c sp (c.publicOf sk) = .ok ()) := by
  refine ⟨(Sign_ok_iff c p sk).mpr, ?_⟩
  intro sp hs
  refine ⟨?_, Verify_Sign c hc p sp sk hs⟩
  intro pk'
  constructor
  · intro hv
    obtain ⟨b, _, hver⟩ := (Verify_Sign_iff c p sp sk pk' hs).mp hv
    exact hk sk b pk' hver
  · intro h
    rw [h]
    exact Verify_Sign c hc p sp sk hs

set_option maxRecDepth 1000000 in
/-- Witness for C4: the genesis proof of the test, signed with the demo key,
verifies under that key. -/
theorem Verify_after_Sign_iff_witness :
    ∃ sp, Sign demoPrimitives (demoUnsigned "p0" "" "") demoKey = .ok sp ∧
      Verify demoPrimitives sp (demoPrimitives.publicOf demoKey) = .ok () := by
  have h := Verify_after_Sign_iff demoPrimitives demo_Complete demo_KeyBinding
    (demoUnsigned "p0" "" "") demoKey
  obtain ⟨sp, hsp⟩ := h.1 (by decide)
  exact ⟨sp, hsp, (h.2 sp hsp).2⟩

/-! ## Claim C5 -/

/-- C5. Two proofs that differ in a field other than `Signature` (a scoring
hint included) have different canonical signing payloads; hence, a signature
verifying for one payload only, a signature that `Verify` accepts for one of
them is rejected for the other. -/
theorem signed_content_binds_signature (c : Primitives) (p q : FarmProof)
    (hdiff : ({ p with Signature := "" } : FarmProof) ≠ { q with Signature := "" }) :
    (∀ b b', p.CanonicalJSON = .ok b → q.CanonicalJSON = .ok b' → b ≠ b') ∧
    (c.MessageBinding → ∀ pk, Verify c p pk = .ok () →
      hexDecode q.Signature = hexDecode p.Signature → ∃ cause, Verify c q pk = .error cause) := by
  constructor
  · intro b b' hb hb' heq
    subst heq
    exact hdiff (CanonicalJSON_inj p q b hb hb')
  · intro hbind pk hv hsig
    exact Verify_fails_of_changed c hbind pk p q hv hsig (fun h => hdiff h.symm)

/-- Witness for C5: the signed genesis proof of the test and the same proof
with `ImpactRadius = 99` have different payloads, and the signature no longer
verifies. -/
theorem signed_content_binds_signature_witness :
    (∀ b b', demoFirst.CanonicalJSON = .ok b → (tamper demoFirst).CanonicalJSON = .ok b' →
      b ≠ b') ∧
    ∃ cause, Verify demoPrimitives (tamper demoFirst) demoKey = .error cause :=
  have h := signed_content_binds_signature demoPrimitives demoFirst (tamper demoFirst)
    (fun e => demoFirst_tamper_ne e.symm)
  ⟨h.1, h.2 demo_MessageBinding demoKey demoFirst_Verify rfl⟩

/-! ## Claim C6 -/

/-- C6. Two proofs that agree on every field except `Signature` have the same
canonical payload and the same hash; `Sign` changes `Signature` only, so the
hash of a proof is the same before and after signing. -/
theorem CanonicalJSON_Hash_ignore_Signature (c : Primitives) (p q : FarmProof)
    (h : ({ p with Signature := "" } : FarmProof) = { q with Signature := "" }) :
    p.CanonicalJSON = q.CanonicalJSON ∧ p.Hash c = q.Hash c ∧
    (∀ sk sp, Sign c p sk = .ok sp →
      ({ sp with Signature := "" } : FarmProof) = { p with Signature := "" } ∧
        sp.Hash c = p.Hash c) := by
  have h1 := CanonicalJSON_eq_of_cleared_eq p q h
  refine ⟨h1, ?_, ?_⟩
  · unfold FarmProof.Hash
    rw [h1]
  · intro sk sp hs
    obtain ⟨b, _, rfl⟩ := Sign_eq_ok c p sp sk hs
    exact ⟨rfl, rfl⟩

/-- Witness for C6: the unsigned and the signed genesis proof of the test. -/
theorem CanonicalJSON_Hash_ignore_Signature_witness :
    (demoUnsigned "p0" "" "").CanonicalJSON = demoFirst.CanonicalJSON ∧
      (demoUnsigned "p0" "" "").Hash demoPrimitives = demoFirst.Hash demoPrimitives :=
  have h := CanonicalJSON_Hash_ignore_Signature demoPrimitives (demoUnsigned "p0" "" "")
    demoFirst (demoSign_cleared (demoUnsigned "p0" "" "")).symm
  ⟨h.1, h.2.1⟩

/-! ## Claim C7 -/

/-- C7. For every key pair and every list of `New` arguments whose clock
readings can be marshalled, the loop `p := New(..., prev); Sign(p, sk);
prev := p`, started with no predecessor, produces one proof per element and
the list it produces is accepted by `Chain` under the public key of `sk`; its
first proof has empty `PrevProofID` and `PrevProofHash`. For one element this
is a signed genesis proof. Ed25519 is assumed to accept its own signatures. -/
theorem signedSequence_accepted (c : Primitives) (hc : c.Complete) (sk : PrivateKey)
    (args : List NewArgs) (hn : 1 ≤ args.length)
    (hts : ∀ a ∈ args, a.now.marshals = true) :
    ∃ ps, signedSequence c sk none args = .ok ps ∧ ps.length = args.length ∧
      Chain c ps (c.publicOf sk) = .ok () ∧
      ∃ g, ps.head? = some g ∧ g.PrevProofID = "" ∧ g.PrevProofHash = "" := by
  obtain ⟨ps, h1, h2, h3, h4⟩ := signedSequence_chainLoop c hc sk args none 0 hts
    (by intro q hq; cases hq)
  refine ⟨ps, h1, h2, h3, ?_⟩
  cases ps with
  | nil => simp at h2; omega
  | cons g rest => exact ⟨g, rfl, h4 g rfl rfl⟩

/-- Witness for C7: the three-proof loop of `TestChain_ValidSequence`. -/
theorem signedSequence_accepted_witness :
    ∃ ps, signedSequence demoPrimitives demoKey none
        [demoArgs "p0", demoArgs "p1", demoArgs "p2"] = .ok ps ∧ ps.length = 3 ∧
      Chain demoPrimitives ps (demoPrimitives.publicOf demoKey) = .ok () := by
  obtain ⟨ps, h1, h2, h3, _⟩ := signedSequence_accepted demoPrimitives demo_Complete demoKey
    [demoArgs "p0", demoArgs "p1", demoArgs "p2"] (by decide) (by decide)
  exact ⟨ps, h1, h2, h3⟩

/-! ## Claim C8 -/

/-- C8. Without a predecessor `New` returns the proof with empty `PrevProofID`
and `PrevProofHash`; with a predecessor whose hash can be computed it returns
the proof whose `PrevProofID` is the predecessor's `ProofID` and whose
`PrevProofHash` is `Hash(predecessor)`, and it returns a proof only then. In
both cases the agent, actor, action, outcome and scoring-hint fields are the
arguments, `SchemaVersion` is "1" and `Signature` is empty. -/
theorem New_fields (c : Primitives) (id : String) (now : Time) (agent : AgentInfo)
    (actor : ActorInfo) (action : ActionInfo) (outcome : OutcomeInfo) (hints : ScoringHints) :
    New c (some id) now agent actor action outcome hints none =
      .ok { SchemaVersion := "1", ProofID := id, PrevProofID := "", PrevProofHash := "",
            Timestamp := now, Agent := agent, Actor := actor, Action := action,
            Outcome := outcome, ScoringHints := hints, Signature := "" } ∧
    (∀ prev h, prev.Hash c = .ok h →
      New c (some id) now agent actor action outcome hints (some prev) =
        .ok { SchemaVersion := "1", ProofID := id, PrevProofID := prev.ProofID,
              PrevProofHash := h, Timestamp := now, Agent := agent, Actor := actor,
              Action := action, Outcome := outcome, ScoringHints := hints,
              Signature := "" }) ∧
    (∀ prev p, New c (some id) now agent actor action outcome hints (some prev) = .ok p →
      prev.Hash c = .ok p.PrevProofHash) := by
  refine ⟨rfl, New_some c id now agent actor action outcome hints, ?_⟩
  intro prev p hp
  cases hh : prev.Hash c with
  | error e => simp [New, hh] at hp
  | ok h =>
    rw [New_some c id now agent actor action outcome hints prev h hh] at hp
    injection hp with hp
    rw [← hp]

set_option maxRecDepth 100000 in
/-- Witness for C8: a proof created after the signed genesis proof of the
test links to it. -/
theorem New_fields_witness :
    New demoPrimitives (some "p1") (demoArgs "p1").now (demoArgs "p1").agent
        (demoArgs "p1").actor (demoArgs "p1").action (demoArgs "p1").outcome
        (demoArgs "p1").hints (some demoFirst)
      = .ok { demoUnsigned "p1" "" "" with
              PrevProofID := demoFirst.ProofID, PrevProofHash := demoHash demoFirst } :=
  (New_fields demoPrimitives "p1" (demoArgs "p1").now (demoArgs "p1").agent
    (demoArgs "p1").actor (demoArgs "p1").action (demoArgs "p1").outcome
    (demoArgs "p1").hints).2.1 demoFirst (demoHash demoFirst)
    (demoHash_ok demoFirst demoFirst_marshals)

/-! ## Claim C9 -/

set_option maxRecDepth 100000 in
/-- C9, counterexample. `agent-1` is Active and has no proof in the ledger;
the validly signed proof `p9` names a predecessor `ghost`; ingestion accepts
it with the coins of the scoring function, appends it and credits the farm. -/
theorem ingest_accepts_dangling_predecessor :
    demoStore.LatestProof false "agent-1" = .ok none ∧
      demoDangling.PrevProofID = "ghost" ∧
      handleSubmitProof demoPrimitives demoScore demoEnv demoStore (some demoDangling)
        = (.proofAccepted 10,
           { proofs := [{ FarmProof := demoDangling, CoinsAwarded := 10,
                          ReceivedAt := demoEnv.receivedAt }],
             agents := [demoAgent],
             farm := some { Name := "My Farm", TotalCoins := 10, CurrentCoins := 10,
                            StreakDays := 0, LastActiveAt := none,
                            UpdatedAt := demoEnv.updatedAt } }) := by
  refine ⟨by decide!, by decide!, ?_⟩
  rw [handleSubmitProof_after_verify demoPrimitives demoScore demoEnv demoStore demoDangling
    demoAgent demoKey none (by decide!) rfl demo_key_decodes demoDangling_Verify (by decide!)]
  rfl

/-- C9, amended. When the ledger holds no proof for the submitting agent,
ingestion of a validly signed proof from an Active agent passes the
chain-linkage step whatever the proof's `PrevProofID` and `PrevProofHash` are:
the response is never the broken-chain rejection, and a proof whose identifier
is not yet in the ledger is accepted and appended when the append does not
fail: the storage engine reports no error and takes the identifier as a key
(non-empty, at most 32768 bytes). An identifier the engine rejects as a key is
a storage failure, answered 500 with the database unchanged. -/
theorem ingest_without_predecessor (c : Primitives) (score : FarmProof → Int)
    (env : SubmitEnv) (s : Store) (p : FarmProof) (agent : AgentRecord) (pubKey : PublicKey)
    (hagent : s.GetAgent env.getAgentFails p.Agent.AgentID = .ok agent)
    (hactive : agent.Status = .active)
    (hkey : DecodePublicKey agent.PublicKey = some pubKey)
    (hsig : Verify c p pubKey = .ok ())
    (hnone : s.LatestProof env.latestProofFails p.Agent.AgentID = .ok none) :
    chainLinkage c none p = .ok () ∧
    (handleSubmitProof c score env s (some p)).1 ≠ .error 409 "proof chain linkage invalid" ∧
    (env.appendProofFails = false → env.receivedAt.marshals = true →
      (∀ sp ∈ s.proofs, sp.FarmProof.ProofID ≠ p.ProofID) →
      (putKeyError p.ProofID = none →
        ∃ coins, (handleSubmitProof c score env s (some p)).1 = .proofAccepted coins ∧
          { FarmProof := p, CoinsAwarded := coins, ReceivedAt := env.receivedAt }
            ∈ (handleSubmitProof c score env s (some p)).2.proofs) ∧
      (∀ e, putKeyError p.ProofID = some e →
        handleSubmitProof c score env s (some p) = (.error 500 "storage error", s))) := by
  refine ⟨rfl, ?_, ?_⟩
  · rw [handleSubmitProof_after_verify c score env s p agent pubKey none hagent hactive hkey
      hsig hnone]
    simp only [chainLinkage]
    split
    · next h => simp [h]
    · next h => simp [h]
    · next h => simp [h]
  · intro hfail hnow hnew
    exact ⟨fun hvalid => handleSubmitProof_appends c score env s p agent pubKey none hagent
        hactive hkey hsig hnone rfl hfail hnow hnew hvalid,
      fun e hrej => handleSubmitProof_key_rejected c score env s p agent pubKey none hagent
        hactive hkey hsig hnone rfl hfail hnow hnew e hrej⟩

set_option maxRecDepth 100000 in
/-- Witness for C9 as amended: the proof `p9` with the dangling predecessor
passes the linkage step and is appended. -/
theorem ingest_without_predecessor_witness :
    chainLinkage demoPrimitives none demoDangling = .ok () ∧
      ∃ coins,
        (handleSubmitProof demoPrimitives demoScore demoEnv demoStore (some demoDangling)).1
          = .proofAccepted coins ∧
        { FarmProof := demoDangling, CoinsAwarded := coins, ReceivedAt := demoEnv.receivedAt }
          ∈ (handleSubmitProof demoPrimitives demoScore demoEnv demoStore
              (some demoDangling)).2.proofs :=
  have h := ingest_without_predecessor demoPrimitives demoScore demoEnv demoStore demoDangling
    demoAgent demoKey (by decide!) rfl demo_key_decodes demoDangling_Verify (by decide!)
  ⟨h.1, (h.2.2 rfl (by decide) (by decide)).1 (by decide!)⟩

/-! ## Claim C10 -/

/-- C10. When the ledger holds a latest proof `L` for the submitting agent,
ingestion of a validly signed proof from an Active agent passes the
chain-linkage step if and only if the proof's `PrevProofID` is `L`'s
`ProofID` and its `PrevProofHash` is the hash recomputed from `L`; otherwise
the submission is rejected (409, or 500 when the hash cannot be computed) and
the database, ledger and farm aggregate included, is unchanged. When the step
is passed the response is not the broken-chain rejection, and a proof whose
identifier is not yet in the ledger is accepted and appended when the append
does not fail: the storage engine reports no error and takes the identifier as
a key (non-empty, at most 32768 bytes). An identifier the engine rejects as a
key is a storage failure, answered 500 with the database unchanged. -/
theorem ingest_with_predecessor (c : Primitives) (score : FarmProof → Int)
    (env : SubmitEnv) (s : Store) (p : FarmProof) (agent : AgentRecord) (pubKey : PublicKey)
    (L : StoredProof)
    (hagent : s.GetAgent env.getAgentFails p.Agent.AgentID = .ok agent)
    (hactive : agent.Status = .active)
    (hkey : DecodePublicKey agent.PublicKey = some pubKey)
    (hsig : Verify c p pubKey = .ok ())
    (hlatest : s.LatestProof env.latestProofFails p.Agent.AgentID = .ok (some L)) :
    (chainLinkage c (some L) p = .ok () ↔
      p.PrevProofID = L.FarmProof.ProofID ∧ L.FarmProof.Hash c = .ok p.PrevProofHash) ∧
    (¬ (p.PrevProofID = L.FarmProof.ProofID ∧ L.FarmProof.Hash c = .ok p.PrevProofHash) →
      handleSubmitProof c score env s (some p)
          = (.error 409 "proof chain linkage invalid", s) ∨
        handleSubmitProof c score env s (some p) = (.error 500 "chain hash error", s)) ∧
    (p.PrevProofID = L.FarmProof.ProofID ∧ L.FarmProof.Hash c = .ok p.PrevProofHash →
      (handleSubmitProof c score env s (some p)).1 ≠ .error 409 "proof chain linkage invalid" ∧
      (env.appendProofFails = false → env.receivedAt.marshals = true →
        (∀ sp ∈ s.proofs, sp.FarmProof.ProofID ≠ p.ProofID) →
        (putKeyError p.ProofID = none →
          ∃ coins, (handleSubmitProof c score env s (some p)).1 = .proofAccepted coins ∧
            { FarmProof := p, CoinsAwarded := coins, ReceivedAt := env.receivedAt }
              ∈ (handleSubmitProof c score env s (some p)).2.proofs) ∧
        (∀ e, putKeyError p.ProofID = some e →
          handleSubmitProof c score env s (some p) = (.error 500 "storage error", s)))) := by
  have hstep := handleSubmitProof_after_verify c score env s p agent pubKey (some L) hagent
    hactive hkey hsig hlatest
  refine ⟨chainLinkage_some_iff c L p, ?_, ?_⟩
  · intro hno
    have hne : chainLinkage c (some L) p ≠ .ok () :=
      fun h => hno ((chainLinkage_some_iff c L p).mp h)
    rcases chainLinkage_some_error c L p hne with h | h
    · exact Or.inl (by rw [hstep, h])
    · exact Or.inr (by rw [hstep, h])
  · intro hyes
    have hlink := (chainLinkage_some_iff c L p).mpr hyes
    constructor
    · rw [hstep, hlink]
      simp only
      split
      · next h => simp [h]
      · next h => simp [h]
      · next h => simp [h]
    · intro hfail hnow hnew
      exact ⟨fun hvalid => handleSubmitProof_appends c score env s p agent pubKey (some L)
          hagent hactive hkey hsig hlatest hlink hfail hnow hnew hvalid,
        fun e hrej => handleSubmitProof_key_rejected c score env s p agent pubKey (some L)
          hagent hactive hkey hsig hlatest hlink hfail hnow hnew e hrej⟩

set_option maxRecDepth 100000 in
/-- Witness for C10: with `p0` in the ledger, the proof `p1` that links to it
is accepted and appended, and the proof `p9` that names `ghost` is rejected
with the database unchanged. -/
theorem ingest_with_predecessor_witness :
    (∃ coins,
      (handleSubmitProof demoPrimitives demoScore demoEnv demoStoreWithFirst
        (some demoSecond)).1 = .proofAccepted coins ∧
      { FarmProof := demoSecond, CoinsAwarded := coins, ReceivedAt := demoEnv.receivedAt }
        ∈ (handleSubmitProof demoPrimitives demoScore demoEnv demoStoreWithFirst
            (some demoSecond)).2.proofs) ∧
    (handleSubmitProof demoPrimitives demoScore demoEnv demoStoreWithFirst (some demoDangling)
        = (.error 409 "proof chain linkage invalid", demoStoreWithFirst) ∨
      handleSubmitProof demoPrimitives demoScore demoEnv demoStoreWithFirst (some demoDangling)
        = (.error 500 "chain hash error", demoStoreWithFirst)) :=
  ⟨(((ingest_with_predecessor demoPrimitives demoScore demoEnv demoStoreWithFirst demoSecond
      demoAgent demoKey
      { FarmProof := demoFirst, CoinsAwarded := 10, ReceivedAt := demoEnv.receivedAt }
      (by decide!) rfl demo_key_decodes demoSecond_Verify (by rfl)).2.2
      ⟨by decide!, demoFirst_Hash⟩).2 rfl (by decide) (by decide!)).1 (by decide!),
   (ingest_with_predecessor demoPrimitives demoScore demoEnv demoStoreWithFirst demoDangling
      demoAgent demoKey
      { FarmProof := demoFirst, CoinsAwarded := 10, ReceivedAt := demoEnv.receivedAt }
      (by decide!) rfl demo_key_decodes demoDangling_Verify (by rfl)).2.1
      (fun h => absurd h.1 (by decide!))⟩

/-! ## Claim C11 -/

/-- C11. For every store state and every submitted proof, whatever its
signature and linkage: when the trust store can be read, a proof whose agent
identifier has no record is rejected as an unknown agent (403, `unknown agent`)
and a proof whose agent record has a status other than Active is rejected as
not approved (403, `agent not approved`, naming the status); in both cases the
database, ledger and farm aggregate included, is unchanged. -/
theorem ingest_rejects_untrusted (c : Primitives) (score : FarmProof → Int) (env : SubmitEnv)
    (s : Store) (p : FarmProof) (hread : env.getAgentFails = false) :
    ((∀ a ∈ s.agents, a.AgentID ≠ p.Agent.AgentID) →
      handleSubmitProof c score env s (some p)
        = (.error 403 "unknown agent — enroll first", s)) ∧
    (∀ agent, s.GetAgent false p.Agent.AgentID = .ok agent → agent.Status ≠ .active →
      handleSubmitProof c score env s (some p)
        = (.error 403 ("agent not approved (status: " ++ agent.Status.toString ++ ")"), s)) := by
  constructor
  · intro h
    apply handleSubmitProof_unknown
    rw [hread]
    exact (GetAgent_notFound_iff s _).mpr h
  · intro agent hg hs
    apply handleSubmitProof_inactive c score env s p agent _ hs
    rw [hread]
    exact hg

set_option maxRecDepth 100000 in
/-- Witness for C11: the signed genesis proof of the test is rejected by a
database without agents and by one in which `agent-1` is Pending. -/
theorem ingest_rejects_untrusted_witness :
    handleSubmitProof demoPrimitives demoScore demoEnv Store.empty (some demoFirst)
        = (.error 403 "unknown agent — enroll first", Store.empty) ∧
      handleSubmitProof demoPrimitives demoScore demoEnv demoStorePending (some demoFirst)
        = (.error 403 "agent not approved (status: pending)", demoStorePending) :=
  ⟨(ingest_rejects_untrusted demoPrimitives demoScore demoEnv Store.empty demoFirst rfl).1
      (by decide),
   (ingest_rejects_untrusted demoPrimitives demoScore demoEnv demoStorePending demoFirst
      rfl).2 { demoAgent with Status := .pending } (by decide!) (by decide)⟩

/-! ## Claim C12 -/

set_option maxRecDepth 100000 in
/-- C12, the code at the failing input. `demoStore` accepts the signed genesis
proof `p0` for 10 coins; the same proof submitted again is answered with 409,
`proof chain linkage invalid`, not with the duplicate response: the stored
`p0` is now the agent's latest proof and the resubmitted `p0` does not name it
as predecessor, so the handler returns before it reaches the append. The
database, farm totals included, is unchanged by the second attempt. -/
theorem resubmission_answered_as_broken_chain :
    handleSubmitProof demoPrimitives demoScore demoEnv demoStore (some demoFirst)
        = (.proofAccepted 10, demoStoreAccepted) ∧
      handleSubmitProof demoPrimitives demoScore demoEnv demoStoreAccepted (some demoFirst)
        = (.error 409 "proof chain linkage invalid", demoStoreAccepted) := by
  constructor
  · rw [handleSubmitProof_after_verify demoPrimitives demoScore demoEnv demoStore demoFirst
      demoAgent demoKey none (by decide!) rfl demo_key_decodes demoFirst_Verify (by decide!)]
    rfl
  · rw [handleSubmitProof_after_verify demoPrimitives demoScore demoEnv demoStoreAccepted
      demoFirst demoAgent demoKey
      (some { FarmProof := demoFirst, CoinsAwarded := 10, ReceivedAt := demoEnv.receivedAt })
      (by decide!) rfl demo_key_decodes demoFirst_Verify (by rfl)]
    have h : chainLinkage demoPrimitives
        (some { FarmProof := demoFirst, CoinsAwarded := 10, ReceivedAt := demoEnv.receivedAt })
        demoFirst = .error (.error 409 "proof chain linkage invalid") := by
      have hne : demoFirst.PrevProofID ≠ demoFirst.ProofID := by decide!
      simp only [chainLinkage, demoHash_ok demoFirst demoFirst_marshals, ne_eq, hne,
        not_false_eq_true, true_or, if_true]
    rw [h]

/-! ## Claim C13 -/

set_option maxRecDepth 100000 in
/-- C13, counterexample. The write of the farm aggregate fails during the
submission of the signed genesis proof `p0`: ingestion answers that the proof
is accepted with 10 coins, the proof is in the ledger with 10 coins recorded,
and the farm aggregate is as before (absent, that is zero coins). -/
theorem ingest_persists_without_balance_update :
    handleSubmitProof demoPrimitives demoScore demoEnvUpdateFails demoStore (some demoFirst)
      = (.proofAccepted 10,
         { proofs := [{ FarmProof := demoFirst, CoinsAwarded := 10,
                        ReceivedAt := demoEnv.receivedAt }],
           agents := [demoAgent], farm := none }) ∧
    demoStore.farm = none := by
  refine ⟨?_, rfl⟩
  rw [handleSubmitProof_after_verify demoPrimitives demoScore demoEnvUpdateFails demoStore
    demoFirst demoAgent demoKey none (by decide!) rfl demo_key_decodes demoFirst_Verify
    (by decide!)]
  rfl

/-- C13, amended. For every submission and every way the storage calls may
fail, when ingestion returns one of three holds: (b) the database is exactly
as before; (a) the proof is in the ledger with its coins recorded, the
response reports those coins, and the farm's `TotalCoins` and `CurrentCoins`
have each grown by exactly them, in the arithmetic of `int`; (c) the proof is in the ledger with its coins
recorded and is reported accepted while the farm aggregate is as before, which
happens only when the coins are not positive or when the read or the write of
the farm after the append fails (those errors are ignored). Agent records
never change. -/
theorem ingest_outcomes (c : Primitives) (score : FarmProof → Int) (env : SubmitEnv)
    (s : Store) (body : Option FarmProof) :
    (handleSubmitProof c score env s body).2 = s ∨
    ∃ p coins farm, body = some p ∧ s.GetFarm false = .ok farm ∧
      (handleSubmitProof c score env s body).1 = .proofAccepted coins ∧
      (handleSubmitProof c score env s body).2.proofs
        = bucketPut (fun x : StoredProof => x.FarmProof.ProofID)
            ⟨p, coins, env.receivedAt⟩ s.proofs ∧
      (⟨p, coins, env.receivedAt⟩ : StoredProof)
        ∈ (handleSubmitProof c score env s body).2.proofs ∧
      (handleSubmitProof c score env s body).2.agents = s.agents ∧
      ((handleSubmitProof c score env s body).2.farm
          = some { farm with TotalCoins := addInt farm.TotalCoins coins,
                             CurrentCoins := addInt farm.CurrentCoins coins,
                             UpdatedAt := env.updatedAt } ∨
        ((handleSubmitProof c score env s body).2.farm = s.farm ∧
          (coins ≤ 0 ∨ env.getFarmFails = true ∨ env.updateFarmFails = true ∨
            (env.updatedAt.marshals && (farm.LastActiveAt.map Time.marshals).getD true)
              = false))) := by
  rcases handleSubmitProof_unchanged_or_accepted c score env s body with h | h
  · exact Or.inl h
  · obtain ⟨p, s', hb, ha, hr⟩ := h
    obtain ⟨hs', _⟩ := AppendProof_ok s s' _ _ p _ ha
    obtain ⟨farm, hf⟩ := GetFarm_false_ok s
    have hf' : s'.GetFarm false = .ok farm := by rw [hs']; exact hf
    refine Or.inr ⟨p,
      (if p.Outcome.Verified && p.Outcome.Status == OutcomeSuccess then score p else 0),
      farm, hb, hf, ?_, ?_, ?_, ?_, ?_⟩
    · rw [hr]
    · rw [hr]
      simp only
      rw [updateBalance_proofs, hs']
    · rw [hr]
      simp only
      rw [updateBalance_proofs, hs']
      exact mem_bucketPut _ _ _
    · rw [hr]
      simp only
      rw [updateBalance_agents, hs']
    · rw [hr]
      simp only
      have := updateBalance_farm env s'
        (if p.Outcome.Verified && p.Outcome.Status == OutcomeSuccess then score p else 0)
        farm hf'
      rw [hs'] at this ⊢
      exact this

/-! ## Claim C14 -/

set_option maxRecDepth 100000 in
/-- C14, counterexample. The ledger holds `p0` only. Appending a proof whose
`ProofID` is the empty string, with a storage engine that reports no error of
its own, neither fails with `ErrDuplicateProof` nor succeeds: `Bucket.Put`
refuses the empty key with `ErrKeyRequired`. -/
theorem AppendProof_rejects_empty_id :
    (demoUnsigned "" "" "").ProofID = "" ∧
    (∀ sp ∈ demoStoreWithFirst.proofs,
      sp.FarmProof.ProofID ≠ (demoUnsigned "" "" "").ProofID) ∧
    demoStoreWithFirst.AppendProof false demoEnv.receivedAt (demoUnsigned "" "" "") 7
      = .error .keyRequired := by
  refine ⟨rfl, by decide!, by decide!⟩

/-- C14, amended. For a proof and a receipt time that can be marshalled and a
storage engine that reports no error of its own, `AppendProof(p, coins)` fails
with `ErrDuplicateProof` if and only if a proof with the same `ProofID` is
already stored, whichever agent it belongs to (an error returns no new
database: the store is unchanged). Otherwise the outcome depends on the
`ProofID` as a key of the storage engine. A key the engine takes, that is a
non-empty one of at most 32768 bytes, makes the call succeed:
`GetProof(p.ProofID)` afterwards returns `p` with `CoinsAwarded = coins`, every
other identifier is looked up as before, the stored proofs are the old ones
and the new one, and the agent records and the farm aggregate are unchanged.
An empty `ProofID` or one over 32768 bytes makes the call fail with the
engine's error (`ErrKeyRequired`, `ErrKeyTooLarge`), the store unchanged. -/
theorem AppendProof_contract (s : Store) (now : Time) (p : FarmProof) (coins : Int)
    (hts : p.Timestamp.marshals = true) (hnow : now.marshals = true) :
    (s.AppendProof false now p coins = .error .duplicateProof ↔
      ∃ sp ∈ s.proofs, sp.FarmProof.ProofID = p.ProofID) ∧
    ((∀ sp ∈ s.proofs, sp.FarmProof.ProofID ≠ p.ProofID) →
      (p.ProofID ≠ "" ∧ p.ProofID.utf8ByteSize ≤ 32768 →
        ∃ s', s.AppendProof false now p coins = .ok s' ∧
          s'.GetProof false p.ProofID = .ok ⟨p, coins, now⟩ ∧
          (∀ id, id ≠ p.ProofID → s'.GetProof false id = s.GetProof false id) ∧
          (∀ sp, sp ∈ s'.proofs ↔ sp = ⟨p, coins, now⟩ ∨ sp ∈ s.proofs) ∧
          s'.agents = s.agents ∧ s'.farm = s.farm) ∧
      (p.ProofID = "" → s.AppendProof false now p coins = .error .keyRequired) ∧
      (p.ProofID.utf8ByteSize > 32768 →
        s.AppendProof false now p coins = .error .keyTooLarge)) := by
  constructor
  · unfold Store.AppendProof
    simp only [hts, hnow, Bool.and_self, Bool.not_true, Bool.false_eq_true, if_false]
    rw [← bucketGet_isSome_iff (fun x : StoredProof => x.FarmProof.ProofID)]
    cases (bucketGet (fun x : StoredProof => x.FarmProof.ProofID) p.ProofID s.proofs).isSome
    · simp only [Bool.false_eq_true, if_false, iff_false]
      cases hk : putKeyError p.ProofID with
      | none => simp
      | some e => rcases putKeyError_cases _ e hk with h | h <;> simp [h]
    · simp
  · intro hnew
    have hget : (bucketGet (fun x : StoredProof => x.FarmProof.ProofID) p.ProofID s.proofs).isSome
        = false := by
      rw [Bool.eq_false_iff]
      intro h
      obtain ⟨y, hy, hk⟩ := (bucketGet_isSome_iff _ _ _).mp h
      exact hnew y hy hk
    refine ⟨?_, ?_, ?_⟩
    · intro hkey
      have hvalid := (putKeyError_none_iff p.ProofID).mpr hkey
      refine ⟨{ s with proofs := (bucketPut (fun x : StoredProof => x.FarmProof.ProofID)
        ⟨p, coins, now⟩ s.proofs) }, ?_, ?_, ?_, ?_, rfl, rfl⟩
      · unfold Store.AppendProof
        simp only [hts, hnow, hget, hvalid, Bool.and_self, Bool.not_true, Bool.false_eq_true,
          if_false]
      · unfold Store.GetProof
        simp only [Bool.false_eq_true, if_false]
        rw [bucketGet_bucketPut_self (fun x : StoredProof => x.FarmProof.ProofID)
          ⟨p, coins, now⟩ s.proofs hnew]
      · intro id hid
        unfold Store.GetProof
        simp only [Bool.false_eq_true, if_false]
        rw [bucketGet_bucketPut_other (fun x : StoredProof => x.FarmProof.ProofID)
          ⟨p, coins, now⟩ id hid]
      · intro sp
        exact mem_bucketPut_iff (fun x : StoredProof => x.FarmProof.ProofID) ⟨p, coins, now⟩ sp
          s.proofs hnew
    · intro hempty
      have hrej := (putKeyError_keyRequired_iff p.ProofID).mpr hempty
      unfold Store.AppendProof
      simp only [hts, hnow, hget, hrej, Bool.and_self, Bool.not_true, Bool.false_eq_true,
        if_false]
    · intro hlarge
      have hrej := (putKeyError_keyTooLarge_iff p.ProofID).mpr hlarge
      unfold Store.AppendProof
      simp only [hts, hnow, hget, hrej, Bool.and_self, Bool.not_true, Bool.false_eq_true,
        if_false]

set_option maxRecDepth 100000 in
/-- Witness for C14 as amended: appending `p1` to the ledger that holds `p0`
succeeds and `p1` is then found with its coins, appending `p0` again is a
duplicate, and appending a proof with an empty identifier is refused by the
engine. -/
theorem AppendProof_contract_witness :
    (∃ s', demoStoreWithFirst.AppendProof false demoEnv.receivedAt demoSecond 7 = .ok s' ∧
      s'.GetProof false demoSecond.ProofID = .ok ⟨demoSecond, 7, demoEnv.receivedAt⟩) ∧
    demoStoreWithFirst.AppendProof false demoEnv.receivedAt demoFirst 7
      = .error .duplicateProof ∧
    demoStoreWithFirst.AppendProof false demoEnv.receivedAt (demoUnsigned "" "" "") 7
      = .error .keyRequired := by
  refine ⟨?_, ?_, ?_⟩
  · obtain ⟨s', h1, h2, _⟩ := ((AppendProof_contract demoStoreWithFirst demoEnv.receivedAt
      demoSecond 7 (by decide!) (by decide)).2 (by decide!)).1 (by decide!)
    exact ⟨s', h1, h2⟩
  · exact (AppendProof_contract demoStoreWithFirst demoEnv.receivedAt demoFirst 7
      demoFirst_marshals (by decide)).1.mpr ⟨_, List.mem_cons_self _ _, rfl⟩
  · exact ((AppendProof_contract demoStoreWithFirst demoEnv.receivedAt (demoUnsigned "" "" "") 7
      (by decide) (by decide)).2 (by decide!)).2.1 rfl

/-! ## Claim C15 -/

set_option maxRecDepth 100000 in
/-- C15, counterexample. `AppendProof` succeeds for `p2` and then for `p1`,
both of `agent-1`; `LatestProof("agent-1")` returns `p2`, the proof with the
greater identifier, although `p1` was appended last. -/
theorem LatestProof_not_last_appended :
    appendAll Store.empty demoCalls
        = some { proofs := demoCalls.reverse, agents := [], farm := none } ∧
      ({ proofs := demoCalls.reverse, agents := [], farm := none } : Store).LatestProof false
          "agent-1" = .ok demoCalls.head? ∧
      demoCalls.head? ≠ demoCalls.getLast? ∧
      ∀ sp ∈ demoCalls, sp.FarmProof.Agent.AgentID = "agent-1" := by
  refine ⟨?_, ?_, ?_, ?_⟩ <;> decide!

/-- C15, amended. After any sequence of successful `AppendProof` calls on an
empty database, `LatestProof(agentID)` returns none exactly when no stored
proof belongs to that agent; otherwise it returns the stored proof of that
agent with the greatest proof identifier in byte order. When the identifiers
ascend in the order of the calls, as time-ordered identifiers do, that is the
proof of the agent that was appended most recently. -/
theorem LatestProof_after_appends (calls : List StoredProof) (s : Store) (agentID : String)
    (h : appendAll Store.empty calls = some s) :
    (s.LatestProof false agentID = .ok none ↔
      ∀ sp ∈ s.proofs, sp.FarmProof.Agent.AgentID ≠ agentID) ∧
    (∀ sp, s.LatestProof false agentID = .ok (some sp) →
      sp ∈ s.proofs ∧ sp.FarmProof.Agent.AgentID = agentID ∧
      ∀ sp' ∈ s.proofs, sp'.FarmProof.Agent.AgentID = agentID →
        sp' = sp ∨ keyLess sp'.FarmProof.ProofID.data sp.FarmProof.ProofID.data = true) ∧
    (calls.Pairwise (fun a b =>
        keyLess a.FarmProof.ProofID.data b.FarmProof.ProofID.data = true) →
      s.LatestProof false agentID
        = .ok ((calls.filter (fun sp => sp.FarmProof.Agent.AgentID == agentID)).getLast?)) := by
  have hsorted := appendAll_sorted calls Store.empty s (by simp [Store.empty]) h
  refine ⟨?_, ?_, ?_⟩
  · simp only [Store.LatestProof, Bool.false_eq_true, if_false, Except.ok.injEq,
      List.find?_eq_none, List.mem_reverse, beq_iff_eq]
  · intro sp hsp
    simp only [Store.LatestProof, Bool.false_eq_true, if_false, Except.ok.injEq] at hsp
    obtain ⟨h1, h2, h3⟩ := last_match_greatest (fun x : StoredProof => x.FarmProof.ProofID)
      (fun sp => sp.FarmProof.Agent.AgentID == agentID) s.proofs sp hsorted hsp
    refine ⟨h1, by simpa using h2, ?_⟩
    intro sp' hm ha
    exact h3 sp' hm (by simpa using ha)
  · intro hasc
    have hp := appendAll_ascending calls Store.empty s (by simp [Store.empty]) hasc h
    simp only [Store.LatestProof, Bool.false_eq_true, if_false, Except.ok.injEq]
    rw [hp]
    simp only [Store.empty, List.nil_append]
    exact find?_reverse_eq_getLast?_filter _ calls

set_option maxRecDepth 100000 in
/-- Witness for C15 as amended: `p1` and then `p2` appended in ascending
order; `LatestProof` returns `p2`, the last appended. -/
theorem LatestProof_after_appends_witness :
    appendAll Store.empty demoCalls.reverse
        = some { proofs := demoCalls.reverse, agents := [], farm := none } ∧
      ({ proofs := demoCalls.reverse, agents := [], farm := none } : Store).LatestProof false
          "agent-1"
        = .ok ((demoCalls.reverse.filter
            (fun sp => sp.FarmProof.Agent.AgentID == "agent-1")).getLast?) :=
  ⟨by decide!,
   (LatestProof_after_appends demoCalls.reverse
      { proofs := demoCalls.reverse, agents := [], farm := none } "agent-1"
      (by decide!)).2.2 (by decide!)⟩

/-! ## Claim C16 -/

/-- C16, counterexample. The total is not always the floor of the product
raised to 1: the product is converted to `int`, and a product beyond the
range of `int` does not convert to its floor. Under the default configuration
a proof of category incident with complexity low and impact radius
`9 * 10^18` has base 30 and a product of `27000000000000000027`; on amd64 the
conversion yields `-2^63` and the total is 1. On every platform the total is
an `int`, below `2^63`, while the floor of this product is not
(`Compute_total_lt_floor`). -/
theorem Compute_total_not_floor_beyond_int :
    exactFloat.Converts ∧
    (Compute exactFloat (makeProof "incident" "low" 9000000000000000000)
        (DefaultConfig exactFloat) 1 0).BaseCoins = 30 ∧
    (Compute exactFloat (makeProof "incident" "low" 9000000000000000000)
        (DefaultConfig exactFloat) 1 0).TotalCoins = 1 ∧
    max 1 ⌊Result.product exactFloat
        (Compute exactFloat (makeProof "incident" "low" 9000000000000000000)
          (DefaultConfig exactFloat) 1 0)⌋ = 27000000000000000027 := by
  refine ⟨exactFloat_Converts, ?_, ?_, ?_⟩ <;> decide!

/-- C16, amended. For every proof, configuration, upgrade multiplier and
streak-day count, in the arithmetic of `float64`: ImpactMult is 1 when the
impact radius is at most 1 and `1 + (radius-1) * ImpactStep` otherwise;
StreakMult is the smaller of `1 + streakDays * StreakStep` and StreakCap;
UpgradeMult is the supplied value, or 1 when that is 0; and whenever
BaseCoins is positive, TotalCoins is at least 1, and it is the floor of
`BaseCoins * ComplexityMult * ImpactMult * StreakMult * UpgradeMult` raised
to 1 provided the truncated product is in the range of `int`. -/
theorem Compute_breakdown (fl : FloatOps) (hc : fl.Converts) (p : FarmProof) (cfg : Config)
    (upgradeMult : ℚ) (streakDays : Int) :
    (Compute fl p cfg upgradeMult streakDays).ImpactMult =
      (if p.ScoringHints.ImpactRadius ≤ 1 then 1
       else fl.rnd (1 + fl.rnd (fl.rnd ((p.ScoringHints.ImpactRadius - 1 : Int) : ℚ)
          * cfg.ImpactStep))) ∧
    (Compute fl p cfg upgradeMult streakDays).StreakMult =
      min (fl.rnd (1 + fl.rnd (fl.rnd (streakDays : ℚ) * cfg.StreakStep))) cfg.StreakCap ∧
    (Compute fl p cfg upgradeMult streakDays).UpgradeMult =
      (if upgradeMult = 0 then 1 else upgradeMult) ∧
    (0 < (Compute fl p cfg upgradeMult streakDays).BaseCoins →
      1 ≤ (Compute fl p cfg upgradeMult streakDays).TotalCoins ∧
      (-(2 ^ 63) ≤ truncate (Result.product fl (Compute fl p cfg upgradeMult streakDays)) →
        truncate (Result.product fl (Compute fl p cfg upgradeMult streakDays)) < 2 ^ 63 →
        (Compute fl p cfg upgradeMult streakDays).TotalCoins =
          max 1 ⌊Result.product fl (Compute fl p cfg upgradeMult streakDays)⌋)) := by
  refine ⟨Compute_ImpactMult fl p cfg upgradeMult streakDays,
    Compute_StreakMult fl p cfg upgradeMult streakDays,
    Compute_UpgradeMult fl p cfg upgradeMult streakDays, fun hb => ⟨?_, fun h1 h2 => ?_⟩⟩
  · rw [Compute_TotalCoins_of_pos fl p cfg upgradeMult streakDays hb]
    exact le_max_left _ _
  · exact Compute_TotalCoins_in_range fl hc p cfg upgradeMult streakDays hb h1 h2

/-- C16, witness: the breakdown of a proof of category security with
complexity high and impact radius 10 under the default configuration, in
arithmetic without rounding error. -/
theorem Compute_breakdown_witness :
    exactFloat.Converts ∧
    (Compute exactFloat (makeProof "security" "high" 10) (DefaultConfig exactFloat) 1 3).ImpactMult
      = 19 / 10 ∧
    (Compute exactFloat (makeProof "security" "high" 10) (DefaultConfig exactFloat) 1 3).StreakMult
      = 121 / 100 ∧
    (Compute exactFloat (makeProof "security" "high" 10) (DefaultConfig exactFloat) 1 3).TotalCoins
      = 86 := by
  have h := Compute_breakdown exactFloat exactFloat_Converts (makeProof "security" "high" 10)
    (DefaultConfig exactFloat) 1 3
  refine ⟨exactFloat_Converts, ?_, ?_, ?_⟩
  · rw [h.1]; decide!
  · rw [h.2.1]; decide!
  · rw [(h.2.2.2 (by decide!)).2 (by decide!) (by decide!)]; decide!

/-! ## Claim C17 -/

/-- C17. Under the default configuration with streak 0 and upgrade multiplier
1.0, in every `float64` arithmetic that rounds within one part in `2^53`,
keeps short binary fractions exact and converts by truncation, `Compute`
awards exactly 10 coins to a proof with category maintenance, complexity low
and impact radius 1, and exactly 71 coins to a proof with category security,
complexity high and impact radius 10. -/
theorem Compute_default_awards (fl : FloatOps) (hn : fl.Near) (he : fl.Exact)
    (hc : fl.Converts) :
    (∀ p : FarmProof, p.Action.Category = "maintenance" → p.ScoringHints.Complexity = "low" →
      p.ScoringHints.ImpactRadius = 1 →
      (Compute fl p (DefaultConfig fl) 1 0).TotalCoins = 10) ∧
    (∀ p : FarmProof, p.Action.Category = "security" → p.ScoringHints.Complexity = "high" →
      p.ScoringHints.ImpactRadius = 10 →
      (Compute fl p (DefaultConfig fl) 1 0).TotalCoins = 71) := by
  constructor
  · intro p hcat hcx hrad
    obtain ⟨hb, hcm, him⟩ := DefaultConfig_maintenance_low fl p 1 0 hcat hcx hrad
    have hsm := DefaultConfig_streak_zero he p 1
    have hum : (Compute fl p (DefaultConfig fl) 1 0).UpgradeMult = 1 := by
      rw [Compute_UpgradeMult]; norm_num
    have hp : Result.product fl (Compute fl p (DefaultConfig fl) 1 0) = 10 := by
      unfold Result.product
      rw [hb, hcm, him, hsm, hum, coinProduct_ones he 10 (by norm_num)]
      norm_num
    rw [Compute_TotalCoins_of_pos fl p _ 1 0 (by rw [hb]; norm_num), hp,
      toInt_of_between hc 10 (by norm_num) (by norm_num) (by norm_num) (by norm_num)]
    rfl
  · intro p hcat hcx hrad
    obtain ⟨hb, hcm, him⟩ := DefaultConfig_security_high fl p 1 0 hcat hcx hrad
    have hsm := DefaultConfig_streak_zero he p 1
    have hum : (Compute fl p (DefaultConfig fl) 1 0).UpgradeMult = 1 := by
      rw [Compute_UpgradeMult]; norm_num
    obtain ⟨i1, i2⟩ := impact_ten_between hn he
    obtain ⟨p1, p2⟩ := coinProduct_security_between hn he i1 i2
    have hp : Result.product fl (Compute fl p (DefaultConfig fl) 1 0)
        = coinProduct fl 25 (3 / 2) (fl.rnd (1 + fl.rnd (fl.rnd 9 * fl.rnd (1 / 10)))) 1 1 := by
      unfold Result.product
      rw [hb, hcm, him, hsm, hum]
    rw [Compute_TotalCoins_of_pos fl p _ 1 0 (by rw [hb]; norm_num), hp,
      toInt_of_between hc 71 (by norm_num) (by norm_num) (by exact_mod_cast p1)
        (by norm_num; linarith)]
    rfl

/-- C17, witness: the two awards in arithmetic without rounding error. -/
theorem Compute_default_awards_witness :
    (exactFloat.Near ∧ exactFloat.Exact ∧ exactFloat.Converts) ∧
    (Compute exactFloat (makeProof "maintenance" "low" 1) (DefaultConfig exactFloat) 1 0).TotalCoins
      = 10 ∧
    (Compute exactFloat (makeProof "security" "high" 10) (DefaultConfig exactFloat) 1 0).TotalCoins
      = 71 :=
  ⟨⟨exactFloat_Near, exactFloat_Exact, exactFloat_Converts⟩,
    (Compute_default_awards exactFloat exactFloat_Near exactFloat_Exact exactFloat_Converts).1
      (makeProof "maintenance" "low" 1) rfl rfl rfl,
    (Compute_default_awards exactFloat exactFloat_Near exactFloat_Exact exactFloat_Converts).2
      (makeProof "security" "high" 10) rfl rfl rfl⟩

/-! ## Claim C18 -/

/-- C18, counterexample. Under the default configuration with upgrade
multiplier 1.0 and streak 0, a proof of category incident with complexity low
is awarded `9000000000000000027` coins for impact radius `3 * 10^18` and
1 coin for the larger impact radius `4 * 10^18`: the second product,
`12000000000000000027`, is beyond the range of `int`, the conversion on amd64
yields `-2^63`, and the total is raised to 1. -/
theorem Compute_not_monotone_beyond_int :
    (exactFloat.Monotone ∧ exactFloat.Exact ∧ exactFloat.Converts) ∧
    (Compute exactFloat (makeProof "incident" "low" 3000000000000000000)
        (DefaultConfig exactFloat) 1 0).TotalCoins = 9000000000000000027 ∧
    (Compute exactFloat (makeProof "incident" "low" 4000000000000000000)
        (DefaultConfig exactFloat) 1 0).TotalCoins = 1 ∧
    Result.product exactFloat (Compute exactFloat (makeProof "incident" "low" 4000000000000000000)
        (DefaultConfig exactFloat) 1 0) = 12000000000000000027 := by
  refine ⟨⟨exactFloat_Monotone, exactFloat_Exact, exactFloat_Converts⟩, ?_, ?_, ?_⟩ <;> decide!

/-- C18, amended. Under the default configuration, in every `float64`
arithmetic whose rounding is monotonic, keeps short binary fractions exact
and converts by truncation, for every category and every fixed non-negative
upgrade multiplier: TotalCoins does not decrease when the complexity tier
(low, medium, high; the same tier counts as equal), the impact radius and the
non-negative streak-day count do not decrease, jointly and hence in each of
them with the others fixed, provided the product of the larger input is below
`2^63`, the range of `int`. -/
theorem Compute_monotone (fl : FloatOps) (hm : fl.Monotone) (he : fl.Exact)
    (hc : fl.Converts) (p1 p2 : FarmProof) (upgradeMult : ℚ) (d1 d2 : Int)
    (hcat : p1.Action.Category = p2.Action.Category)
    (htier : p1.ScoringHints.Complexity = p2.ScoringHints.Complexity ∨
      (p1.ScoringHints.Complexity = "low" ∧
        (p2.ScoringHints.Complexity = "medium" ∨ p2.ScoringHints.Complexity = "high")) ∨
      (p1.ScoringHints.Complexity = "medium" ∧ p2.ScoringHints.Complexity = "high"))
    (hrad : p1.ScoringHints.ImpactRadius ≤ p2.ScoringHints.ImpactRadius)
    (hu : 0 ≤ upgradeMult) (hd0 : 0 ≤ d1) (hd : d1 ≤ d2)
    (hrange : Result.product fl (Compute fl p2 (DefaultConfig fl) upgradeMult d2) < 2 ^ 63) :
    (Compute fl p1 (DefaultConfig fl) upgradeMult d1).TotalCoins
      ≤ (Compute fl p2 (DefaultConfig fl) upgradeMult d2).TotalCoins := by
  have hb1 := DefaultConfig_base_pos fl p1 upgradeMult d1
  have hb2 := DefaultConfig_base_pos fl p2 upgradeMult d2
  have hbe := DefaultConfig_base_eq fl p1 p2 upgradeMult upgradeMult d1 d2 hcat
  obtain ⟨c0, c1⟩ := DefaultConfig_complexity_mono fl p1 p2 upgradeMult upgradeMult d1 d2 htier
  obtain ⟨i0, i1⟩ := DefaultConfig_impact_mono hm he p1 p2 upgradeMult upgradeMult d1 d2 hrad
  obtain ⟨s0, s1⟩ := DefaultConfig_streak_mono hm he p1 p2 upgradeMult upgradeMult d1 d2 hd0 hd
  have hu1 : (Compute fl p1 (DefaultConfig fl) upgradeMult d1).UpgradeMult
      = (Compute fl p2 (DefaultConfig fl) upgradeMult d2).UpgradeMult := rfl
  have hu0 : 0 ≤ (Compute fl p2 (DefaultConfig fl) upgradeMult d2).UpgradeMult := by
    rw [Compute_UpgradeMult]
    split
    · norm_num
    · exact hu
  have hle : Result.product fl (Compute fl p1 (DefaultConfig fl) upgradeMult d1)
      ≤ Result.product fl (Compute fl p2 (DefaultConfig fl) upgradeMult d2) := by
    unfold Result.product
    rw [hbe, hu1]
    exact coinProduct_mono hm he (le_of_lt hb2) c0 c1 i0 i1 s0 s1 hu0
  have h0 : 0 ≤ Result.product fl (Compute fl p1 (DefaultConfig fl) upgradeMult d1) := by
    unfold Result.product
    rw [hu1]
    exact coinProduct_nonneg hm he (le_of_lt hb1) c0 i0 s0 hu0
  rw [Compute_TotalCoins_of_pos fl p1 _ upgradeMult d1 hb1,
    Compute_TotalCoins_of_pos fl p2 _ upgradeMult d2 hb2,
    toInt_of_range hc h0 (lt_of_le_of_lt hle hrange),
    toInt_of_range hc (le_trans h0 hle) hrange]
  exact max_le_max le_rfl (Int.floor_le_floor hle)

/-- C18, witness: category security, from complexity low, impact radius 2 and
a streak of 1 day to complexity high, impact radius 5 and a streak of 3 days,
in arithmetic without rounding error. -/
theorem Compute_monotone_witness :
    (exactFloat.Monotone ∧ exactFloat.Exact ∧ exactFloat.Converts) ∧
    Result.product exactFloat
      (Compute exactFloat (makeProof "security" "high" 5) (DefaultConfig exactFloat) 1 3)
      < 2 ^ 63 ∧
    (Compute exactFloat (makeProof "security" "low" 2) (DefaultConfig exactFloat) 1 1).TotalCoins
      ≤ (Compute exactFloat (makeProof "security" "high" 5) (DefaultConfig exactFloat) 1
          3).TotalCoins :=
  ⟨⟨exactFloat_Monotone, exactFloat_Exact, exactFloat_Converts⟩, by decide!,
    Compute_monotone exactFloat exactFloat_Monotone exactFloat_Exact exactFloat_Converts
      (makeProof "security" "low" 2) (makeProof "security" "high" 5) 1 1 3 rfl
      (Or.inr (Or.inl ⟨rfl, Or.inr rfl⟩)) (by decide) (by norm_num) (by decide) (by decide)
      (by decide!)⟩

/-! ## Claim C19 -/

/-- C19. `Compute` saturates at the configured streak cap: for every
configuration, proof and upgrade multiplier, and any two streak-day counts
for which `1 + d * StreakStep`, as the code computes it, is at least
StreakCap, `Compute` returns the same breakdown, with StreakMult equal to
StreakCap. -/
theorem Compute_saturates (fl : FloatOps) (p : FarmProof) (cfg : Config) (upgradeMult : ℚ)
    (d1 d2 : Int)
    (h1 : cfg.StreakCap ≤ fl.rnd (1 + fl.rnd (fl.rnd (d1 : ℚ) * cfg.StreakStep)))
    (h2 : cfg.StreakCap ≤ fl.rnd (1 + fl.rnd (fl.rnd (d2 : ℚ) * cfg.StreakStep))) :
    Compute fl p cfg upgradeMult d1 = Compute fl p cfg upgradeMult d2 ∧
    (Compute fl p cfg upgradeMult d1).StreakMult = cfg.StreakCap ∧
    (Compute fl p cfg upgradeMult d2).StreakMult = cfg.StreakCap ∧
    (Compute fl p cfg upgradeMult d1).TotalCoins
      = (Compute fl p cfg upgradeMult d2).TotalCoins := by
  have e1 := streak_capped_of_ge (x := linearMult fl d1 cfg.StreakStep) h1
  have e2 := streak_capped_of_ge (x := linearMult fl d2 cfg.StreakStep) h2
  have e := Compute_eq_of_streak fl p cfg upgradeMult d1 d2 (e1.trans e2.symm)
  refine ⟨e, e1, e2, ?_⟩
  rw [e]

/-- C19, witness: under the default configuration without rounding error,
streaks of 8 and 100 days both reach the cap, `1 + 8 * 0.07 = 1.56`. -/
theorem Compute_saturates_witness :
    (DefaultConfig exactFloat).StreakCap
        ≤ exactFloat.rnd (1 + exactFloat.rnd (exactFloat.rnd ((8 : Int) : ℚ)
            * (DefaultConfig exactFloat).StreakStep)) ∧
    (Compute exactFloat (makeProof "maintenance" "low" 1) (DefaultConfig exactFloat) 1 8).StreakMult
      = 3 / 2 ∧
    (Compute exactFloat (makeProof "maintenance" "low" 1) (DefaultConfig exactFloat) 1 8).TotalCoins
      = (Compute exactFloat (makeProof "maintenance" "low" 1) (DefaultConfig exactFloat) 1
          100).TotalCoins :=
  ⟨by decide!,
    (Compute_saturates exactFloat (makeProof "maintenance" "low" 1) (DefaultConfig exactFloat) 1
      8 100 (by decide!) (by decide!)).2.1,
    (Compute_saturates exactFloat (makeProof "maintenance" "low" 1) (DefaultConfig exactFloat) 1
      8 100 (by decide!) (by decide!)).2.2.2⟩

/-! ## Claim C20 -/

/-- C20. Under the default configuration the streak cap is not reached after
7 days, since `1 + 7 * 0.07 = 1.49` is below the cap of 1.5: for the proof of
the test `TestCompute_StreakCap` (category maintenance, complexity low,
impact radius 1) and upgrade multiplier 1.0, in every `float64` arithmetic
that rounds within one part in `2^53`, keeps short binary fractions exact and
converts by truncation, `Compute` awards 14 coins for a streak of 7 days and
15 coins for a streak of 100 days. -/
theorem Compute_streak_seven_below_cap (fl : FloatOps) (hn : fl.Near) (he : fl.Exact)
    (hc : fl.Converts) :
    (Compute fl (makeProof "maintenance" "low" 1) (DefaultConfig fl) 1 7).StreakMult < 3 / 2 ∧
    (Compute fl (makeProof "maintenance" "low" 1) (DefaultConfig fl) 1 100).StreakMult = 3 / 2 ∧
    (Compute fl (makeProof "maintenance" "low" 1) (DefaultConfig fl) 1 7).TotalCoins = 14 ∧
    (Compute fl (makeProof "maintenance" "low" 1) (DefaultConfig fl) 1 100).TotalCoins = 15 := by
  have hum : ∀ d, (Compute fl (makeProof "maintenance" "low" 1) (DefaultConfig fl) 1
      d).UpgradeMult = 1 := by
    intro d; rw [Compute_UpgradeMult]; norm_num
  obtain ⟨s1, s2⟩ := streak_seven_between hn he
  have h7 := DefaultConfig_streak_seven hn he (makeProof "maintenance" "low" 1) 1
  have h100 := DefaultConfig_streak_hundred hn he (makeProof "maintenance" "low" 1) 1
  refine ⟨by rw [h7]; linarith, h100, ?_, ?_⟩
  · obtain ⟨hb, hcm, him⟩ :=
      DefaultConfig_maintenance_low fl (makeProof "maintenance" "low" 1) 1 7 rfl rfl rfl
    obtain ⟨p1, p2⟩ := coinProduct_streak_between hn he s1 s2
    have hp : Result.product fl
        (Compute fl (makeProof "maintenance" "low" 1) (DefaultConfig fl) 1 7)
        = coinProduct fl 10 1 1 (linearMult fl 7 (fl.rnd (7 / 100))) 1 := by
      unfold Result.product
      rw [hb, hcm, him, h7, hum]
    rw [Compute_TotalCoins_of_pos fl _ _ 1 7 (by rw [hb]; norm_num), hp,
      toInt_of_between hc 14 (by norm_num) (by norm_num) (by exact_mod_cast p1)
        (by norm_num; linarith)]
    rfl
  · obtain ⟨hb, hcm, him⟩ :=
      DefaultConfig_maintenance_low fl (makeProof "maintenance" "low" 1) 1 100 rfl rfl rfl
    have hp : Result.product fl
        (Compute fl (makeProof "maintenance" "low" 1) (DefaultConfig fl) 1 100) = 15 := by
      unfold Result.product
      rw [hb, hcm, him, h100, hum, coinProduct_capped he]
    rw [Compute_TotalCoins_of_pos fl _ _ 1 100 (by rw [hb]; norm_num), hp,
      toInt_of_between hc 15 (by norm_num) (by norm_num) (by norm_num) (by norm_num)]
    rfl

/-- C20, witness: the two awards of the test in arithmetic without rounding
error. -/
theorem Compute_streak_seven_below_cap_witness :
    (exactFloat.Near ∧ exactFloat.Exact ∧ exactFloat.Converts) ∧
    (Compute exactFloat (makeProof "maintenance" "low" 1) (DefaultConfig exactFloat) 1 7).TotalCoins
      = 14 ∧
    (Compute exactFloat (makeProof "maintenance" "low" 1) (DefaultConfig exactFloat) 1
      100).TotalCoins = 15 :=
  ⟨⟨exactFloat_Near, exactFloat_Exact, exactFloat_Converts⟩,
    (Compute_streak_seven_below_cap exactFloat exactFloat_Near exactFloat_Exact
      exactFloat_Converts).2.2.1,
    (Compute_streak_seven_below_cap exactFloat exactFloat_Near exactFloat_Exact
      exactFloat_Converts).2.2.2⟩

/-! ## Claim C21 -/

/-- C21, counterexample. The farm totals are of type `int` and the addition
wraps around. With the scoring of the tracker (default configuration), the
database that has accepted the proof `h0` of impact radius `3 * 10^18` for
`9000000000000000027` coins holds these coins as `TotalCoins`; it accepts the
linked proof `h1` for as many coins, and `TotalCoins` and `CurrentCoins` are
then `-446744073709551562`: they have not increased by the coins awarded. -/
theorem ingest_balance_wraps :
    handleSubmitProof demoPrimitives demoHandlerScore demoEnv demoStore (some demoHugeFirst)
      = (.proofAccepted 9000000000000000027, demoStoreHuge) ∧
    handleSubmitProof demoPrimitives demoHandlerScore demoEnv demoStoreHuge (some demoHugeSecond)
      = (.proofAccepted 9000000000000000027, demoStoreHugeTwice) ∧
    demoStoreHuge.GetFarm false
      = .ok { Name := "My Farm", TotalCoins := 9000000000000000027,
              CurrentCoins := 9000000000000000027, StreakDays := 0, LastActiveAt := none,
              UpdatedAt := demoEnv.updatedAt } ∧
    demoStoreHugeTwice.GetFarm false
      = .ok { Name := "My Farm", TotalCoins := -446744073709551562,
              CurrentCoins := -446744073709551562, StreakDays := 0, LastActiveAt := none,
              UpdatedAt := demoEnv.updatedAt } :=
  ⟨demoStore_accepts_huge, demoStoreHuge_accepts_huge, rfl, rfl⟩

/-- C21, amended. For every submission that ingestion accepts, the coins
awarded are `Compute(proof, config, 1.0, 0).TotalCoins` when the proof's
outcome is verified with status `success`, and 0 otherwise (under the default
configuration they are never negative). The farm's name, streak-day count and
last-active instant are unchanged. When the coins are not positive the farm
aggregate is unchanged; when they are positive and the read and the write of
the farm succeed, `TotalCoins` and `CurrentCoins` are each the `int` sum of
the old value and the coins, which is an increase by exactly the coins
awarded provided the sum is within the range of `int`. -/
theorem ingest_award (c : Primitives) (fl : FloatOps) (scoringCfg : Config) (env : SubmitEnv)
    (s : Store) (body : Option FarmProof) (coins : Int)
    (hacc : (handleSubmitProof c (handlerScore fl scoringCfg) env s body).1
      = .proofAccepted coins) :
    ∃ p farm farm', body = some p ∧
      coins = (if p.Outcome.Verified && p.Outcome.Status == OutcomeSuccess then
                (Compute fl p scoringCfg 1 0).TotalCoins else 0) ∧
      (scoringCfg = DefaultConfig fl → 0 ≤ coins) ∧
      s.GetFarm false = .ok farm ∧
      (handleSubmitProof c (handlerScore fl scoringCfg) env s body).2.GetFarm false
        = .ok farm' ∧
      farm'.Name = farm.Name ∧ farm'.StreakDays = farm.StreakDays ∧
      farm'.LastActiveAt = farm.LastActiveAt ∧
      (coins ≤ 0 → farm' = farm) ∧
      (0 < coins → env.getFarmFails = false → env.updateFarmFails = false →
        env.updatedAt.marshals = true →
        (farm.LastActiveAt.map Time.marshals).getD true = true →
        farm'.TotalCoins = addInt farm.TotalCoins coins ∧
        farm'.CurrentCoins = addInt farm.CurrentCoins coins ∧
        (-(2 ^ 63) ≤ farm.TotalCoins + coins → farm.TotalCoins + coins < 2 ^ 63 →
          farm'.TotalCoins = farm.TotalCoins + coins) ∧
        (-(2 ^ 63) ≤ farm.CurrentCoins + coins → farm.CurrentCoins + coins < 2 ^ 63 →
          farm'.CurrentCoins = farm.CurrentCoins + coins)) := by
  obtain ⟨p, s', hb, hc, ha, hr⟩ :=
    handleSubmitProof_accepted c (handlerScore fl scoringCfg) env s body coins hacc
  obtain ⟨farm, hf⟩ := GetFarm_false_ok s
  have hf' : s'.GetFarm false = .ok farm := by
    rw [AppendProof_GetFarm s s' _ _ p coins ha]; exact hf
  obtain ⟨farm', hg, hn, hsd, hla⟩ := updateBalance_view env s' coins farm hf'
  refine ⟨p, farm, farm', hb, hc, ?_, hf, by rw [hr]; exact hg, hn, hsd, hla, ?_, ?_⟩
  · intro hd
    rw [hc]
    split
    · rw [hd]
      exact le_trans (by norm_num) (handlerScore_default_pos fl p)
    · exact le_rfl
  · intro hle
    rw [updateBalance_nonpos env s' coins hle, hf'] at hg
    cases hg
    rfl
  · intro hpos hgf huf hnow hlast
    rw [updateBalance_ok env s' coins farm hpos hgf huf hnow hlast hf'] at hg
    simp only [Store.GetFarm, Bool.false_eq_true, if_false, Except.ok.injEq] at hg
    subst hg
    exact ⟨rfl, rfl, fun h1 h2 => addInt_of_range _ _ h1 h2,
      fun h1 h2 => addInt_of_range _ _ h1 h2⟩

/-- C21, witness: the tracker accepts the genesis proof `p0` for the 10 coins
of a maintenance proof of low complexity. -/
theorem ingest_award_witness :
    (handleSubmitProof demoPrimitives (handlerScore exactFloat (DefaultConfig exactFloat)) demoEnv
      demoStore (some demoFirst)).1 = .proofAccepted 10 ∧
    ∃ p farm farm', some demoFirst = some p ∧
      (10 : Int) = (if p.Outcome.Verified && p.Outcome.Status == OutcomeSuccess then
                (Compute exactFloat p (DefaultConfig exactFloat) 1 0).TotalCoins else 0) ∧
      (DefaultConfig exactFloat = DefaultConfig exactFloat → (0 : Int) ≤ 10) ∧
      demoStore.GetFarm false = .ok farm ∧
      (handleSubmitProof demoPrimitives (handlerScore exactFloat (DefaultConfig exactFloat))
        demoEnv demoStore (some demoFirst)).2.GetFarm false = .ok farm' ∧
      farm'.Name = farm.Name ∧ farm'.StreakDays = farm.StreakDays ∧
      farm'.LastActiveAt = farm.LastActiveAt ∧
      ((10 : Int) ≤ 0 → farm' = farm) ∧
      ((0 : Int) < 10 → demoEnv.getFarmFails = false → demoEnv.updateFarmFails = false →
        demoEnv.updatedAt.marshals = true →
        (farm.LastActiveAt.map Time.marshals).getD true = true →
        farm'.TotalCoins = addInt farm.TotalCoins 10 ∧
        farm'.CurrentCoins = addInt farm.CurrentCoins 10 ∧
        (-(2 ^ 63) ≤ farm.TotalCoins + 10 → farm.TotalCoins + 10 < 2 ^ 63 →
          farm'.TotalCoins = farm.TotalCoins + 10) ∧
        (-(2 ^ 63) ≤ farm.CurrentCoins + 10 → farm.CurrentCoins + 10 < 2 ^ 63 →
          farm'.CurrentCoins = farm.CurrentCoins + 10)) := by
  have hacc : (handleSubmitProof demoPrimitives (handlerScore exactFloat (DefaultConfig exactFloat))
      demoEnv demoStore (some demoFirst)).1 = .proofAccepted 10 := by
    rw [handleSubmitProof_after_verify demoPrimitives _ demoEnv demoStore demoFirst demoAgent
      demoKey none (by decide!) rfl demo_key_decodes demoFirst_Verify (by decide!)]
    have hs : handlerScore exactFloat (DefaultConfig exactFloat) demoFirst = 10 := by decide!
    have ho : (demoFirst.Outcome.Verified && demoFirst.Outcome.Status == OutcomeSuccess)
        = true := by decide!
    simp only [ho, if_true, hs]
    rfl
  exact ⟨hacc, ingest_award demoPrimitives exactFloat (DefaultConfig exactFloat) demoEnv demoStore
    (some demoFirst) 10 hacc⟩

/-! ## Claim C22 -/

set_option maxRecDepth 100000 in
/-- C22, counterexample. From the empty database, `agent-1` is enrolled,
approved and revoked: its record has status Revoked. One more approve request
is answered with status `active`, and the record is Active again. -/
theorem approve_reactivates_revoked :
    (serveAll demoPrimitives demoScore Store.empty
        [.enrollAgent false (some demoEnroll), .approveAgent false false "agent-1",
         .revokeAgent false false "agent-1"]).2.GetAgent false "agent-1"
      = .ok { demoAgent with Status := .revoked } ∧
    ServeHTTP demoPrimitives demoScore
        (serveAll demoPrimitives demoScore Store.empty
          [.enrollAgent false (some demoEnroll), .approveAgent false false "agent-1",
           .revokeAgent false false "agent-1"]).2
        (.approveAgent false false "agent-1")
      = (.agentStatus .active, demoStore) ∧
    demoStore.GetAgent false "agent-1" = .ok demoAgent ∧
    demoAgent.Status = .active := by
  refine ⟨?_, ?_, ?_, ?_⟩ <;> decide!

/-- C22, amended. Revocation is not terminal: approve and revoke set the
status of an existing record whatever its current status. After any sequence
of approve and revoke operations on a record, with storage that does not
fail, its status is the one set by the last operation of the sequence (Active
after approve, Revoked after revoke) and its other fields are as before; in
particular one approve makes a Revoked record Active. -/
theorem status_after_approve_revoke (c : Primitives) (score : FarmProof → Int) (id : String)
    (reqs : List Request)
    (hreqs : ∀ r ∈ reqs, r = .approveAgent false false id ∨ r = .revokeAgent false false id)
    (s : Store) (agent : AgentRecord) (hg : s.GetAgent false id = .ok agent)
    (he : agent.EnrolledAt.marshals = true)
    (hr : (agent.RevokedAt.map Time.marshals).getD true = true) :
    (serveAll c score s reqs).2.GetAgent false id
      = .ok { agent with Status := (reqs.foldl
          (fun st r => if r = .approveAgent false false id then .active
            else if r = .revokeAgent false false id then .revoked else st) agent.Status) } := by
  induction reqs generalizing s agent with
  | nil => exact hg
  | cons r rest ih =>
    rw [serveAll_cons, List.foldl_cons]
    have hid := (GetAgent_ok s id agent hg).2.2
    subst hid
    rcases hreqs r (List.mem_cons_self _ _) with h | h
    · subst h
      have hs : (ServeHTTP c score s (.approveAgent false false agent.AgentID)).2 = _ :=
        congrArg Prod.snd (setAgentStatus_ok s agent.AgentID .active agent hg he hr)
      have hg' := (UpsertAgent_ok s { agent with Status := .active } he hr).2.1
      rw [hs, if_pos rfl]
      exact ih (fun r hr => hreqs r (List.mem_cons_of_mem _ hr)) _ _ hg' he hr
    · subst h
      have hs : (ServeHTTP c score s (.revokeAgent false false agent.AgentID)).2 = _ :=
        congrArg Prod.snd (setAgentStatus_ok s agent.AgentID .revoked agent hg he hr)
      have hg' := (UpsertAgent_ok s { agent with Status := .revoked } he hr).2.1
      rw [hs, if_neg (by simp), if_pos rfl]
      exact ih (fun r hr => hreqs r (List.mem_cons_of_mem _ hr)) _ _ hg' he hr

set_option maxRecDepth 100000 in
/-- C22, witness: the Revoked record of `agent-1` after revoke, approve. -/
theorem status_after_approve_revoke_witness :
    ({ proofs := [], agents := [{ demoAgent with Status := .revoked }], farm := none }
        : Store).GetAgent false "agent-1" = .ok { demoAgent with Status := .revoked } ∧
    (serveAll demoPrimitives demoScore
        { proofs := [], agents := [{ demoAgent with Status := .revoked }], farm := none }
        [.revokeAgent false false "agent-1", .approveAgent false false "agent-1"]).2.GetAgent
          false "agent-1"
      = .ok { demoAgent with Status := .active } :=
  ⟨by decide!,
   status_after_approve_revoke demoPrimitives demoScore "agent-1"
     [.revokeAgent false false "agent-1", .approveAgent false false "agent-1"]
     (by decide!)
     { proofs := [], agents := [{ demoAgent with Status := .revoked }], farm := none }
     { demoAgent with Status := .revoked } (by decide!) (by decide) (by decide)⟩

/-! ## Claim C23 -/

set_option maxRecDepth 100000 in
/-- C24, counterexample. `AppendProof` succeeds for `p2` and then for `p1`,
both of `agent-1`. `ListProofs("agent-1", "", 0)` returns `p1` before `p2`,
the reverse of the order in which they were appended, and
`ListProofs("agent-1", "p2", 0)` returns nothing although `p1` was stored
after `p2`. -/
theorem ListProofs_not_append_order :
    appendAll Store.empty demoCalls
        = some { proofs := demoCalls.reverse, agents := [], farm := none } ∧
      ({ proofs := demoCalls.reverse, agents := [], farm := none } : Store).ListProofs false
          "agent-1" "" 0 = .ok demoCalls.reverse ∧
      demoCalls.reverse ≠ demoCalls ∧
      ({ proofs := demoCalls.reverse, agents := [], farm := none } : Store).ListProofs false
          "agent-1" "p2" 0 = .ok [] ∧
      demoCalls.map (fun sp => sp.FarmProof.ProofID) = ["p2", "p1"] ∧
      ∀ sp ∈ demoCalls, sp.FarmProof.Agent.AgentID = "agent-1" := by
  refine ⟨?_, ?_, ?_, ?_, ?_, ?_⟩ <;> decide!

/-- C24, amended. After any sequence of successful `AppendProof` calls on an
empty database, `ListProofs(agentID, afterProofID, limit)` returns a page of
that agent's proofs in ascending order of their identifiers (byte order):
all of the agent's proofs when `afterProofID` is empty, those with an
identifier greater than `afterProofID` when a proof with that identifier is
stored (of whichever agent), and none when it is not; when `limit > 0` the
result is the first `limit` of them. When the identifiers ascend in the order
of the calls, as time-ordered identifiers do, the ledger is in append order
and so is the page. -/
theorem ListProofs_page (calls : List StoredProof) (s : Store)
    (agentID afterProofID : String) (limit : Int)
    (h : appendAll Store.empty calls = some s) :
    s.ListProofs false agentID afterProofID limit =
      .ok ((fun page : List StoredProof => if limit > 0 then page.take limit.toNat else page)
        ((if afterProofID = "" then s.proofs
          else if s.proofs.any (fun sp => sp.FarmProof.ProofID == afterProofID) then
            s.proofs.filter (fun sp => keyLess afterProofID.data sp.FarmProof.ProofID.data)
          else []).filter (fun sp => sp.FarmProof.Agent.AgentID == agentID))) ∧
    s.proofs.Pairwise (fun a b =>
      keyLess a.FarmProof.ProofID.data b.FarmProof.ProofID.data = true) ∧
    (calls.Pairwise (fun a b =>
        keyLess a.FarmProof.ProofID.data b.FarmProof.ProofID.data = true) →
      s.proofs = calls) := by
  have hsorted := appendAll_sorted calls Store.empty s (by simp [Store.empty]) h
  refine ⟨?_, hsorted, ?_⟩
  · unfold Store.ListProofs
    simp only [Bool.false_eq_true, if_false]
    by_cases ha : afterProofID = ""
    · have hb : (afterProofID == "") = true := by simpa using ha
      rw [hb, listProofsLoop_past agentID afterProofID limit s.proofs [] (by
        simp only [List.length_nil, Nat.cast_zero]; omega), if_pos ha]
      simp only [List.nil_append]
    · have hb : (afterProofID == "") = false := by simpa using ha
      rw [hb, listProofsLoop_before, listProofsLoop_past agentID afterProofID limit _ [] (by
        simp only [List.length_nil, Nat.cast_zero]; omega), if_neg ha,
        dropWhile_sorted (fun x : StoredProof => x.FarmProof.ProofID) afterProofID s.proofs
          hsorted]
      simp only [List.nil_append]
  · intro hasc
    have hp := appendAll_ascending calls Store.empty s (by simp [Store.empty]) hasc h
    rw [hp]
    simp only [Store.empty, List.nil_append]

set_option maxRecDepth 100000 in
/-- C24, witness: `p1` and then `p2` appended in ascending order; the page
after `p1` with limit 1 holds `p2`. -/
theorem ListProofs_page_witness :
    appendAll Store.empty demoCalls.reverse
        = some { proofs := demoCalls.reverse, agents := [], farm := none } ∧
      ({ proofs := demoCalls.reverse, agents := [], farm := none } : Store).ListProofs false
          "agent-1" "p1" 1 = .ok (demoCalls.take 1) :=
  ⟨by decide!,
   ((ListProofs_page demoCalls.reverse
      { proofs := demoCalls.reverse, agents := [], farm := none } "agent-1" "p1" 1
      (by decide!)).1).trans (by decide!)⟩

/-! ## Claim C25 -/

set_option maxRecDepth 100000 in
/-- C25, counterexample. The ledger of `agent-1` ends in `p0`. Two
submissions `p1` and `p1b`, both signed and both linked to `p0`, are handled
concurrently; both read the latest proof before either appends. Both are
accepted for 10 coins and both are in the ledger afterwards: the chain of
`agent-1` has two successors of `p0`. -/
theorem concurrent_submissions_fork :
    serveInterleaved demoPrimitives demoScore demoEnv demoEnv demoStoreAccepted
        (some demoSecond) (some demoSecondB)
      = (.proofAccepted 10, .proofAccepted 10,
         { proofs := [{ FarmProof := demoFirst, CoinsAwarded := 10,
                        ReceivedAt := demoEnv.receivedAt },
                      { FarmProof := demoSecond, CoinsAwarded := 10,
                        ReceivedAt := demoEnv.receivedAt },
                      { FarmProof := demoSecondB, CoinsAwarded := 10,
                        ReceivedAt := demoEnv.receivedAt }],
           agents := [demoAgent],
           farm := some { Name := "My Farm", TotalCoins := 30, CurrentCoins := 30,
                          StreakDays := 0, LastActiveAt := none,
                          UpdatedAt := demoEnv.updatedAt } }) ∧
    demoSecond.PrevProofID = "p0" ∧ demoSecondB.PrevProofID = "p0" ∧
    demoSecond.ProofID ≠ demoSecondB.ProofID ∧
    demoSecond.Agent.AgentID = "agent-1" ∧ demoSecondB.Agent.AgentID = "agent-1" := by
  refine ⟨?_, by decide!, by decide!, by decide!, by decide!, by decide!⟩
  unfold serveInterleaved
  simp only [demoSecond_check, demoSecondB_check]
  rfl

/-- C25, amended. Two submissions A and B for the same agent that carry
different new proof identifiers and both pass their checks against the same
database (so both link to the agent's latest proof, if it has one): when both
make their checks before either appends, both are accepted and appended, and
the agent's chain forks. Only when B is handled after A is complete and then
reads A as the agent's latest proof does B fail the chain-linkage check. The
appends are assumed not to fail: the storage engine reports no error and takes
both identifiers as keys (non-empty, at most 32768 bytes). -/
theorem concurrent_submissions (c : Primitives) (score : FarmProof → Int)
    (envA envB : SubmitEnv) (s : Store) (pA pB : FarmProof) (coinsA coinsB : Int)
    (hA : submitCheck c score envA s (some pA) = .ok (pA, coinsA))
    (hB : submitCheck c score envB s (some pB) = .ok (pB, coinsB))
    (hne : pA.ProofID ≠ pB.ProofID)
    (hnewA : ∀ sp ∈ s.proofs, sp.FarmProof.ProofID ≠ pA.ProofID)
    (hnewB : ∀ sp ∈ s.proofs, sp.FarmProof.ProofID ≠ pB.ProofID)
    (hfA : envA.appendProofFails = false) (hfB : envB.appendProofFails = false)
    (htA : envA.receivedAt.marshals = true) (htB : envB.receivedAt.marshals = true)
    (hvalidA : putKeyError pA.ProofID = none) (hvalidB : putKeyError pB.ProofID = none) :
    (∃ s2, serveInterleaved c score envA envB s (some pA) (some pB)
        = (.proofAccepted coinsA, .proofAccepted coinsB, s2) ∧
      (⟨pA, coinsA, envA.receivedAt⟩ : StoredProof) ∈ s2.proofs ∧
      (⟨pB, coinsB, envB.receivedAt⟩ : StoredProof) ∈ s2.proofs) ∧
    (∀ L, s.LatestProof false pA.Agent.AgentID = .ok (some L) →
      pB.Agent.AgentID = pA.Agent.AgentID →
      pA.PrevProofID = L.FarmProof.ProofID ∧ pB.PrevProofID = L.FarmProof.ProofID) ∧
    (s.LatestProof false pA.Agent.AgentID = .ok none →
      pB.Agent.AgentID = pA.Agent.AgentID →
      (handleSubmitProof c score envA s (some pA)).1 = .proofAccepted coinsA ∧
      (handleSubmitProof c score envB s (some pB)).1 = .proofAccepted coinsB) ∧
    ((handleSubmitProof c score envA s (some pA)).2.LatestProof false pB.Agent.AgentID
        = .ok (some ⟨pA, coinsA, envA.receivedAt⟩) →
      pB.PrevProofID ≠ pA.ProofID →
      handleSubmitProof c score envB (handleSubmitProof c score envA s (some pA)).2 (some pB)
        = (.error 409 "proof chain linkage invalid",
           (handleSubmitProof c score envA s (some pA)).2)) := by
  obtain ⟨_, agentA, keyA, latestA, hgA, hactA, hkA, hvA, hlA, hcA⟩ :=
    submitCheck_ok c score envA s (some pA) pA coinsA hA
  obtain ⟨_, agentB, keyB, latestB, hgB, hactB, hkB, hvB, hlB, hcB⟩ :=
    submitCheck_ok c score envB s (some pB) pB coinsB hB
  have hmA := Verify_ok_marshals c pA keyA hvA
  have hmB := Verify_ok_marshals c pB keyB hvB
  have hflA := LatestProof_ok_flag s _ _ _ hlA
  have hflB := LatestProof_ok_flag s _ _ _ hlB
  have hcomA := submitCommit_new envA s pA coinsA hmA htA hfA hnewA hvalidA
  refine ⟨?_, ?_, ?_, ?_⟩
  · have hnewB' : ∀ sp ∈ (updateBalance envA
        { s with proofs := (bucketPut (fun x : StoredProof => x.FarmProof.ProofID)
            ⟨pA, coinsA, envA.receivedAt⟩ s.proofs) } coinsA).proofs,
        sp.FarmProof.ProofID ≠ pB.ProofID := by
      intro sp hsp
      rw [updateBalance_proofs] at hsp
      rcases mem_of_mem_bucketPut _ _ _ _ hsp with h | h
      · rw [h]; exact hne
      · exact hnewB sp h
    have hcomB := submitCommit_new envB _ pB coinsB hmB htB hfB hnewB' hvalidB
    refine ⟨(submitCommit envB (submitCommit envA s pA coinsA).2 pB coinsB).2, ?_, ?_, ?_⟩
    · unfold serveInterleaved
      simp only [hA, hB, submitFinish]
      rw [hcomA]
      simp only
      rw [hcomB]
    · rw [hcomA]
      simp only
      rw [hcomB]
      simp only
      rw [updateBalance_proofs]
      simp only
      rw [updateBalance_proofs]
      exact mem_bucketPut_of_mem (fun x : StoredProof => x.FarmProof.ProofID)
        ⟨pB, coinsB, envB.receivedAt⟩ ⟨pA, coinsA, envA.receivedAt⟩ hne _
        (mem_bucketPut _ _ _)
    · rw [hcomA]
      simp only
      rw [hcomB]
      simp only
      rw [updateBalance_proofs]
      exact mem_bucketPut _ _ _
  · intro L hL hsame
    rw [hflA, hL] at hlA
    rw [hflB, hsame, hL] at hlB
    cases hlA
    cases hlB
    exact ⟨((chainLinkage_some_iff c L pA).mp hcA).1, ((chainLinkage_some_iff c L pB).mp hcB).1⟩
  · intro _ _
    rw [handleSubmitProof_eq_check_finish, handleSubmitProof_eq_check_finish, hA, hB]
    simp only [submitFinish, hcomA, submitCommit_new envB s pB coinsB hmB htB hfB hnewB
      hvalidB]
    exact ⟨trivial, trivial⟩
  · intro hlatest hprev
    have hag : (handleSubmitProof c score envA s (some pA)).2.GetAgent envB.getAgentFails
        pB.Agent.AgentID = .ok agentB := by
      rw [GetAgent_congr s _ _ _ (handleSubmitProof_agents c score envA s (some pA))]
      exact hgB
    rw [handleSubmitProof_after_verify c score envB _ pB agentB keyB
      (some ⟨pA, coinsA, envA.receivedAt⟩) hag hactB hkB hvB (by rw [hflB]; exact hlatest),
      chainLinkage_other_id c ⟨pA, coinsA, envA.receivedAt⟩ pB hmA hprev]

set_option maxRecDepth 100000 in
/-- C25, witness: `p1` and `p1b`, both linked to the stored `p0`. -/
theorem concurrent_submissions_witness :
    (∃ s2, serveInterleaved demoPrimitives demoScore demoEnv demoEnv demoStoreAccepted
        (some demoSecond) (some demoSecondB)
        = (.proofAccepted 10, .proofAccepted 10, s2) ∧
      (⟨demoSecond, 10, demoEnv.receivedAt⟩ : StoredProof) ∈ s2.proofs ∧
      (⟨demoSecondB, 10, demoEnv.receivedAt⟩ : StoredProof) ∈ s2.proofs) ∧
    demoSecond.PrevProofID = demoFirst.ProofID ∧ demoSecondB.PrevProofID = demoFirst.ProofID :=
  ⟨(concurrent_submissions demoPrimitives demoScore demoEnv demoEnv demoStoreAccepted
      demoSecond demoSecondB 10 10 demoSecond_check demoSecondB_check (by decide!) (by decide!)
      (by decide!) rfl rfl (by decide) (by decide) (by decide!) (by decide!)).1,
   (concurrent_submissions demoPrimitives demoScore demoEnv demoEnv demoStoreAccepted
      demoSecond demoSecondB 10 10 demoSecond_check demoSecondB_check (by decide!) (by decide!)
      (by decide!) rfl rfl (by decide) (by decide) (by decide!) (by decide!)).2.1
      ⟨demoFirst, 10, demoEnv.receivedAt⟩ (by rfl) (by decide!)⟩

/-! ## Claim C26 -/

/-- C26, counterexample. The category maintenance and the tier low are keys
of the tables of `demoZeroConfig`, with the value 0; `Compute` returns the
defaults 10 and 1.0 for them, not the configured values. -/
theorem Compute_zero_entry_replaced :
    demoZeroConfig.BaseCoins "maintenance" = some 0 ∧
    (Compute exactFloat (makeProof "maintenance" "low" 1) demoZeroConfig 1 0).BaseCoins = 10 ∧
    demoZeroConfig.ComplexityMultipliers "low" = some 0 ∧
    (Compute exactFloat (makeProof "maintenance" "low" 1) demoZeroConfig 1 0).ComplexityMult
      = 1 := by
  refine ⟨?_, ?_, ?_, ?_⟩ <;> decide!

/-- C26, amended. For every configuration and proof, `Compute`'s BaseCoins is
the value the configuration assigns to the proof's category when the category
is a key of the base-coin table with a value other than 0, and the default 10
when the category is not a key or its value is 0; likewise ComplexityMult is
the configured multiplier when the tier is a key with a multiplier other than
0, and 1.0 when the tier is not a key or its multiplier is 0. -/
theorem Compute_table_lookup (fl : FloatOps) (p : FarmProof) (cfg : Config) (upgradeMult : ℚ)
    (streakDays : Int) :
    (Compute fl p cfg upgradeMult streakDays).BaseCoins =
      (match cfg.BaseCoins p.Action.Category with
       | some v => if v = 0 then 10 else v
       | none => 10) ∧
    (Compute fl p cfg upgradeMult streakDays).ComplexityMult =
      (match cfg.ComplexityMultipliers p.ScoringHints.Complexity with
       | some m => if m = 0 then 1 else m
       | none => 1) := by
  constructor
  · rw [Compute_BaseCoins]
    cases cfg.BaseCoins p.Action.Category with
    | none => simp
    | some v => simp
  · rw [Compute_ComplexityMult]
    cases cfg.ComplexityMultipliers p.ScoringHints.Complexity with
    | none => simp
    | some m => simp

/-! ## Claim C27 -/

set_option maxRecDepth 100000 in
/-- C27, counterexample. The tracker, with the default scoring
configuration, starts on an empty database and serves four requests whose
storage operations all succeed: `agent-1` is enrolled and approved and
submits `h0` and then `h1`, each of impact radius `3 * 10^18` and each
awarded `9000000000000000027` coins. The coins recorded in the ledger sum to
`18000000000000000054`; the farm's `TotalCoins` and `CurrentCoins` are
`-446744073709551562`. -/
theorem coin_totals_wrap :
    (∀ r ∈ [Request.enrollAgent false (some demoEnroll), .approveAgent false false "agent-1",
        .submitProof demoEnv (some demoHugeFirst), .submitProof demoEnv (some demoHugeSecond)],
      r.storageSucceeds = true) ∧
    (serveAll demoPrimitives demoHandlerScore Store.empty
      [.enrollAgent false (some demoEnroll), .approveAgent false false "agent-1",
       .submitProof demoEnv (some demoHugeFirst), .submitProof demoEnv (some demoHugeSecond)]).2
      = demoStoreHugeTwice ∧
    (demoStoreHugeTwice.proofs.map (fun sp => sp.CoinsAwarded)).sum = 18000000000000000054 ∧
    demoStoreHugeTwice.GetFarm false
      = .ok { Name := "My Farm", TotalCoins := -446744073709551562,
              CurrentCoins := -446744073709551562, StreakDays := 0, LastActiveAt := none,
              UpdatedAt := demoEnv.updatedAt } :=
  ⟨by decide, demo_serve_huge, by decide!, rfl⟩

/-- C27, amended. For a scoring that awards no negative coins, as that of the
default configuration: in every state reachable from an empty store by any
sequential series of enroll, approve, revoke and proof-submission requests
whose storage operations all succeed, the farm's `TotalCoins` equals its
`CurrentCoins` and is the sum of `CoinsAwarded` over all proofs stored in the
ledger reduced to the range of `int` (the sum wraps around at `2^63`); it
equals the sum itself whenever the sum is below `2^63`; and each proof
identifier is stored at most once. -/
theorem coin_conservation (c : Primitives) (score : FarmProof → Int)
    (hscore : ∀ p, 0 ≤ score p) (reqs : List Request)
    (hok : ∀ r ∈ reqs, r.storageSucceeds = true) :
    ∃ farm, (serveAll c score Store.empty reqs).2.GetFarm false = .ok farm ∧
      farm.TotalCoins = farm.CurrentCoins ∧
      farm.TotalCoins = addInt (((serveAll c score Store.empty reqs).2.proofs.map
        (fun sp => sp.CoinsAwarded)).sum) 0 ∧
      ((((serveAll c score Store.empty reqs).2.proofs.map
          (fun sp => sp.CoinsAwarded)).sum) < 2 ^ 63 →
        farm.TotalCoins = ((serveAll c score Store.empty reqs).2.proofs.map
          (fun sp => sp.CoinsAwarded)).sum) ∧
      ((serveAll c score Store.empty reqs).2.proofs.map
        (fun sp => sp.FarmProof.ProofID)).Nodup := by
  obtain ⟨hsorted, hnonneg, farm, hf, _, ht, hc⟩ :=
    serveAll_conserved c score hscore reqs Store.empty hok Conserved_empty
  refine ⟨farm, hf, by rw [ht, hc], ht, ?_, nodup_of_sorted _ hsorted⟩
  intro hlt
  rw [ht]
  have h0 := sum_nonneg_of_coins _ hnonneg
  have := addInt_of_range (((serveAll c score Store.empty reqs).2.proofs.map
    (fun sp => sp.CoinsAwarded)).sum) 0 (by omega) (by omega)
  rw [this, add_zero]

set_option maxRecDepth 100000 in
/-- C27, witness: `agent-1` is enrolled and approved and submits `p0`, with
the default scoring configuration. -/
theorem coin_conservation_witness :
    (∀ r ∈ [Request.enrollAgent false (some demoEnroll), .approveAgent false false "agent-1",
        .submitProof demoEnv (some demoFirst)], r.storageSucceeds = true) ∧
    ∃ farm, (serveAll demoPrimitives demoHandlerScore Store.empty
        [.enrollAgent false (some demoEnroll), .approveAgent false false "agent-1",
         .submitProof demoEnv (some demoFirst)]).2.GetFarm false = .ok farm ∧
      farm.TotalCoins = farm.CurrentCoins ∧
      farm.TotalCoins = addInt (((serveAll demoPrimitives demoHandlerScore Store.empty
        [.enrollAgent false (some demoEnroll), .approveAgent false false "agent-1",
         .submitProof demoEnv (some demoFirst)]).2.proofs.map
        (fun sp => sp.CoinsAwarded)).sum) 0 ∧
      ((((serveAll demoPrimitives demoHandlerScore Store.empty
        [.enrollAgent false (some demoEnroll), .approveAgent false false "agent-1",
         .submitProof demoEnv (some demoFirst)]).2.proofs.map
          (fun sp => sp.CoinsAwarded)).sum) < 2 ^ 63 →
        farm.TotalCoins = ((serveAll demoPrimitives demoHandlerScore Store.empty
        [.enrollAgent false (some demoEnroll), .approveAgent false false "agent-1",
         .submitProof demoEnv (some demoFirst)]).2.proofs.map
          (fun sp => sp.CoinsAwarded)).sum) ∧
      ((serveAll demoPrimitives demoHandlerScore Store.empty
        [.enrollAgent false (some demoEnroll), .approveAgent false false "agent-1",
         .submitProof demoEnv (some demoFirst)]).2.proofs.map
        (fun sp => sp.FarmProof.ProofID)).Nodup :=
  ⟨by decide,
   coin_conservation demoPrimitives demoHandlerScore
    (fun p => le_trans (by norm_num) (handlerScore_default_pos exactFloat p))
    [.enrollAgent false (some demoEnroll), .approveAgent false false "agent-1",
     .submitProof demoEnv (some demoFirst)] (by decide)⟩

/-! ## Claim C28 -/

/-- C28. In every database reachable from the empty one through requests
served one after another (enroll, approve, revoke, and proof submissions as
well, whether their storage operations succeed or not), every agent record's
`PublicKey` is accepted by `DecodePublicKey`; so no proof submission to such a
database is answered `invalid agent key in trust store`. -/
theorem trust_store_keys_decode (c : Primitives) (score : FarmProof → Int)
    (reqs : List Request) :
    (∀ a ∈ (serveAll c score Store.empty reqs).2.agents,
      ∃ key, DecodePublicKey a.PublicKey = some key ∧ key.length = PublicKeySize) ∧
    (∀ (env : SubmitEnv) (body : Option FarmProof),
      (handleSubmitProof c score env (serveAll c score Store.empty reqs).2 body).1
        ≠ .error 500 "invalid agent key in trust store") := by
  have hk := serveAll_keys c score reqs Store.empty (by simp [Store.empty])
  constructor
  · intro a ha
    obtain ⟨key, hkey⟩ := hk a ha
    refine ⟨key, hkey, ?_⟩
    unfold DecodePublicKey at hkey
    split at hkey
    · cases hkey
    · split at hkey
      · cases hkey
      · rename_i hlen
        cases hkey
        simpa using hlen
  · intro env body h
    obtain ⟨a, ha, hnone⟩ := handleSubmitProof_invalid_key c score env _ body h
    obtain ⟨key, hkey⟩ := hk a ha
    rw [hkey] at hnone
    cases hnone

/-! ## Claim C29 -/

set_option maxRecDepth 100000 in
/-- C29, counterexample. The watcher of `agent-1` starts before the agent is
approved. Its first proof `w0` is answered 403, the agent being Pending, and
is not appended. After the approval its second proof `w1`, emitted five
minutes after the first, is accepted for 11 coins and is the only proof in the
ledger: of the two proofs the watcher has emitted, ingestion accepts the
second and not the first. -/
theorem watcher_second_proof_accepted :
    observePodHealth demoPrimitives demoWatcher demoKey (some "w0") ⟨2024, 2, 14, 9, 0, 0, 0⟩
        25 25 0 = some (demoSign (demoObserved "w0" ⟨2024, 2, 14, 9, 0, 0, 0⟩)) ∧
    observePodHealth demoPrimitives demoWatcher demoKey (some "w1") ⟨2024, 2, 14, 9, 5, 0, 0⟩
        25 25 0 = some (demoSign (demoObserved "w1" ⟨2024, 2, 14, 9, 5, 0, 0⟩)) ∧
    serveAll demoPrimitives demoHandlerScore Store.empty
        [.enrollAgent false (some demoEnroll),
         .submitProof demoEnv (observePodHealth demoPrimitives demoWatcher demoKey (some "w0")
            ⟨2024, 2, 14, 9, 0, 0, 0⟩ 25 25 0),
         .approveAgent false false "agent-1",
         .submitProof demoEnv (observePodHealth demoPrimitives demoWatcher demoKey (some "w1")
            ⟨2024, 2, 14, 9, 5, 0, 0⟩ 25 25 0)]
      = ([.agentEnrolled "Agent enrolled. Approve it with: farmctl agent approve agent-1",
          .error 403 "agent not approved (status: pending)",
          .agentStatus .active,
          .proofAccepted 11],
         demoStoreWatched) := by
  refine ⟨demoObserve_eq _ _ (by decide), demoObserve_eq _ _ (by decide), ?_⟩
  decide!

/-- C29, amended. Every proof the agent's watcher builds is created with no
predecessor, so its `PrevProofID` and `PrevProofHash` are empty. A recomputed
hash is never the empty string. Hence, for every ledger state in which the
agent already has a stored proof, ingestion never accepts a proof of that
agent whose `PrevProofHash` is empty and appends nothing; a submission that
passes the trust and signature checks, with a ledger that can be read, is
rejected with `proof chain linkage invalid`. Of the proofs without a
predecessor that are submitted for one agent, among any requests served one
after another, ingestion accepts at most one. The accepted one need not be the
first: it is one submitted while the ledger holds no proof of the agent, and
no submission before it and none after it is accepted. -/
theorem watcher_proofs_accepted_once (c : Primitives) (score : FarmProof → Int) :
    (∀ (cfg : WatcherConfig) (privKey : PrivateKey) (id : Option String) (now : Time)
        (total healthy crashLooping : Nat) (p : FarmProof),
      observePodHealth c cfg privKey id now total healthy crashLooping = some p →
      p.PrevProofID = "" ∧ p.PrevProofHash = "" ∧ p.Agent.AgentID = cfg.AgentID) ∧
    (∀ (p : FarmProof) (h : String), p.Hash c = .ok h → h ≠ "") ∧
    (∀ (env : SubmitEnv) (s : Store) (p : FarmProof), p.PrevProofHash = "" →
      (∃ sp ∈ s.proofs, sp.FarmProof.Agent.AgentID = p.Agent.AgentID) →
      (handleSubmitProof c score env s (some p)).2 = s ∧
      (handleSubmitProof c score env s (some p)).1.isAccepted = false ∧
      (∀ (agent : AgentRecord) (pubKey : PublicKey),
        s.GetAgent env.getAgentFails p.Agent.AgentID = .ok agent → agent.Status = .active →
        DecodePublicKey agent.PublicKey = some pubKey → Verify c p pubKey = .ok () →
        env.latestProofFails = false →
        (∀ sp ∈ s.proofs, sp.FarmProof.Timestamp.marshals = true) →
        handleSubmitProof c score env s (some p)
          = (.error 409 "proof chain linkage invalid", s))) ∧
    (∀ (agentID : String) (reqs : List Request) (s : Store),
      (∀ r ∈ reqs, ∀ env p, r = .submitProof env (some p) →
        p.PrevProofHash = "" ∧ p.Agent.AgentID = agentID) →
      (serveAll c score s reqs).1.countP Response.isAccepted ≤ 1) ∧
    (∀ (agentID : String) (pre post : List Request) (env : SubmitEnv) (p : FarmProof)
        (s : Store),
      (∀ r ∈ pre ++ .submitProof env (some p) :: post, ∀ env' q,
        r = .submitProof env' (some q) → q.PrevProofHash = "" ∧ q.Agent.AgentID = agentID) →
      (handleSubmitProof c score env (serveAll c score s pre).2 (some p)).1.isAccepted = true →
      (∀ sp ∈ (serveAll c score s pre).2.proofs, sp.FarmProof.Agent.AgentID ≠ agentID) ∧
      (serveAll c score s pre).1.countP Response.isAccepted = 0 ∧
      (serveAll c score (handleSubmitProof c score env (serveAll c score s pre).2 (some p)).2
        post).1.countP Response.isAccepted = 0) := by
  refine ⟨?_, fun p h hh => Hash_ne_empty c p h hh, ?_, ?_, ?_⟩
  · intro cfg privKey id now total healthy crashLooping p h
    obtain ⟨h1, h2, h3, _⟩ :=
      observePodHealth_fields c cfg privKey id now total healthy crashLooping p h
    exact ⟨h1, h2, h3⟩
  · intro env s p hp hs
    obtain ⟨h1, h2⟩ := handleSubmitProof_empty_hash c score env s p hp hs
    refine ⟨h1, h2, ?_⟩
    intro agent pubKey hagent hactive hkey hsig hfl hts
    obtain ⟨l, hl⟩ := LatestProof_some s p.Agent.AgentID hs
    rw [handleSubmitProof_after_verify c score env s p agent pubKey (some l) hagent hactive
      hkey hsig (by rw [hfl]; exact hl),
      chainLinkage_empty_hash_conflict c l p (hts l (LatestProof_mem s _ l hl)) hp]
  · intro agentID reqs s hreqs
    exact serveAll_accepted_le_one c score agentID reqs s hreqs
  · intro agentID pre post env p s hreqs hacc
    exact serveAll_accepted_position c score agentID pre post env p s hreqs hacc

set_option maxRecDepth 100000 in
/-- C29, witness. The proofs are those the watcher of `agent-1` emits. With
the second proof `w1` in the ledger, the third proof `w2` is answered 409 and
the database is unchanged. In the run in which `w0` is refused while the agent
is Pending and `w1` is accepted after the approval, `w1` is submitted to an
empty ledger and nothing before it is accepted. -/
theorem watcher_proofs_accepted_once_witness :
    (observePodHealth demoPrimitives demoWatcher demoKey (some "w2")
        ⟨2024, 2, 14, 9, 10, 0, 0⟩ 25 25 0
      = some (demoSign (demoObserved "w2" ⟨2024, 2, 14, 9, 10, 0, 0⟩)) ∧
      (demoSign (demoObserved "w2" ⟨2024, 2, 14, 9, 10, 0, 0⟩)).PrevProofID = "" ∧
      (demoSign (demoObserved "w2" ⟨2024, 2, 14, 9, 10, 0, 0⟩)).PrevProofHash = "") ∧
    handleSubmitProof demoPrimitives demoHandlerScore demoEnv demoStoreWatched
        (some (demoSign (demoObserved "w2" ⟨2024, 2, 14, 9, 10, 0, 0⟩)))
      = (.error 409 "proof chain linkage invalid", demoStoreWatched) ∧
    (serveAll demoPrimitives demoHandlerScore Store.empty demoWatcherRequests).1.countP
        Response.isAccepted ≤ 1 ∧
    ((∀ sp ∈ (serveAll demoPrimitives demoHandlerScore Store.empty
          [.enrollAgent false (some demoEnroll),
           .submitProof demoEnv (demoObserve "w0" ⟨2024, 2, 14, 9, 0, 0, 0⟩),
           .approveAgent false false "agent-1"]).2.proofs,
        sp.FarmProof.Agent.AgentID ≠ "agent-1") ∧
      (serveAll demoPrimitives demoHandlerScore Store.empty
          [.enrollAgent false (some demoEnroll),
           .submitProof demoEnv (demoObserve "w0" ⟨2024, 2, 14, 9, 0, 0, 0⟩),
           .approveAgent false false "agent-1"]).1.countP Response.isAccepted = 0) :=
  have hw2 := demoObserve_eq "w2" ⟨2024, 2, 14, 9, 10, 0, 0⟩ (by decide)
  have hfields := (watcher_proofs_accepted_once demoPrimitives demoHandlerScore).1 demoWatcher
    demoKey (some "w2") ⟨2024, 2, 14, 9, 10, 0, 0⟩ 25 25 0 _ hw2
  have hfrom : ∀ r ∈ demoWatcherRequests, ∀ env p, r = .submitProof env (some p) →
      p.PrevProofHash = "" ∧ p.Agent.AgentID = "agent-1" := by
    intro r hr env p hrp
    simp only [demoWatcherRequests, List.mem_cons, List.mem_singleton, List.not_mem_nil,
      or_false] at hr
    rcases hr with h | h | h | h
    · rw [h] at hrp; cases hrp
    · rw [h] at hrp
      simp only [Request.submitProof.injEq] at hrp
      have hf := (watcher_proofs_accepted_once demoPrimitives demoHandlerScore).1 demoWatcher
        demoKey (some "w0") ⟨2024, 2, 14, 9, 0, 0, 0⟩ 25 25 0 p hrp.2
      exact ⟨hf.2.1, hf.2.2⟩
    · rw [h] at hrp; cases hrp
    · rw [h] at hrp
      simp only [Request.submitProof.injEq] at hrp
      have hf := (watcher_proofs_accepted_once demoPrimitives demoHandlerScore).1 demoWatcher
        demoKey (some "w1") ⟨2024, 2, 14, 9, 5, 0, 0⟩ 25 25 0 p hrp.2
      exact ⟨hf.2.1, hf.2.2⟩
  have hpos := (watcher_proofs_accepted_once demoPrimitives demoHandlerScore).2.2.2.2 "agent-1"
    [.enrollAgent false (some demoEnroll),
     .submitProof demoEnv (demoObserve "w0" ⟨2024, 2, 14, 9, 0, 0, 0⟩),
     .approveAgent false false "agent-1"] [] demoEnv
    (demoSign (demoObserved "w1" ⟨2024, 2, 14, 9, 5, 0, 0⟩)) Store.empty
    (by
      have he := demoObserve_eq "w1" ⟨2024, 2, 14, 9, 5, 0, 0⟩ (by decide)
      rw [← he]
      exact hfrom)
    (by decide!)
  ⟨⟨hw2, hfields.1, hfields.2.1⟩,
   ((watcher_proofs_accepted_once demoPrimitives demoHandlerScore).2.2.1 demoEnv
      demoStoreWatched (demoSign (demoObserved "w2" ⟨2024, 2, 14, 9, 10, 0, 0⟩)) hfields.2.1
      ⟨_, List.mem_cons_self _ _, by decide!⟩).2.2 demoAgent demoKey
      (by decide!) rfl demo_key_decodes (demoSign_Verify _ (by decide)) rfl
      (by
        intro sp hsp
        simp only [demoStoreWatched, List.mem_singleton] at hsp
        rw [hsp]
        decide!),
   (watcher_proofs_accepted_once demoPrimitives demoHandlerScore).2.2.2.1 "agent-1"
      demoWatcherRequests Store.empty hfrom,
   hpos.1, hpos.2.1⟩

end FarmOps
